import Mathlib

/-! cpp_utils: ring buffer, thread-safe ring buffer and thread-safe deque

A shallow embedding of `ringbuffer.hpp`, `thread_safe_ringbuffer.hpp` and
`thread_safe_deque.hpp`, followed by theorems about the embedded operations.

Conventions of the embedding

* The element type `T` of the C++ templates is a Lean type parameter.  The
  compile-time facts the templates branch on are collected in `TemplateArgs`:
  the capacity `_Size`, `std::is_pointer<T>::value` and `use_sum`.
* `std::array<T, _Size>` is a `List T` whose length is `_Size`; an iterator is its
  offset from `begin()`, so `end()` is the offset `_Size`.
* `assert` is enabled: a failing assertion ends the operation with a `Fault`.
  Dereferencing an iterator that is not inside the array is a `Fault` as well.
* `delete p` appends `p` to the field `deleted`, the trace of all `delete`
  expressions the container has executed, oldest first.
* `_size` is a `size_t`; every operation changes it by at most one and only
  after the assertion that guards it, so no wrap-around occurs and it is a `Nat`.
* The arithmetic of the running sum (`_sum = 0`, `+=`, `-=`, `_Val * _Size`) is
  taken from the instances `Zero T`, `Add T`, `Sub T`, `Mul T`, `NatCast T`.  They are
  used only on the branches guarded by `sum_en`.  Theorems about the value of the
  sum take `T` to be a ring; `binary64` models `double`, whose arithmetic rounds.
* `std::move` of an element leaves the source slot as it is (exact for pointers
  and arithmetic types, the element types the containers are specialised for).
* `new T_nptr` is modelled by the pointer it returns, an argument of the function
  that evaluates it.  A handle (`std::shared_ptr` with the recycling deleter) is
  modelled by its pointee; letting go of the last owner runs the deleter once.
* The destructor loop takes a bound on the number of its iterations; the
  theorems show that every bound above the number of held elements suffices.
* A mutex-protected member function is one atomic step on the state.  A
  `condition_variable` wait hands the lock to the other threads; what the other
  threads did is given to the waiting call as the state it finds on wake-up.
-/

/-- Outcome of an operation that trips an assertion or dereferences `end()`. -/
inductive Fault where
  | overrun     -- assert(!full() && "ringbuffer overrun")
  | underrun    -- assert(!_empty() && "ringbuffer underrun")
  | bad_deref   -- dereference of an iterator outside the array
  | empty_deque -- front()/back()/pop_*() of an empty std::deque
  deriving DecidableEq, Repr

/-- Compile-time arguments of `ringbuffer<T, _Size, use_sum>` and
`safe_ringbuffer<T, _Size>` (the latter has no `use_sum`). -/
structure TemplateArgs where
  _Size : Nat
  is_pointer : Bool
  use_sum : Bool
  deriving DecidableEq, Repr

/-- Constant `static constexpr bool sum_en = !std::is_pointer<T>::value && use_sum;` -/
def TemplateArgs.sum_en (c : TemplateArgs) : Bool :=
  !c.is_pointer && c.use_sum

deriving instance DecidableEq for Except

/-! ## `ringbuffer.hpp` -/

/-- Data members of `ringbuffer` (the inherited array, both cursors, `_size`,
`_sum`) and the trace of executed `delete` expressions. -/
structure ringbuffer (T : Type) where
  arr : List T
  back_it : Nat
  front_it : Nat
  _size : Nat
  _sum : T
  deleted : List T
  deriving DecidableEq, Repr

namespace ringbuffer

variable {T : Type}

/-- A freshly constructed ring buffer: `back_it{begin()}`, `front_it{begin()}`,
`_size{0}`.  The array elements and `_sum` have no initialiser; their initial
values are the arguments `arr0` and `sum0`. -/
def init (arr0 : List T) (sum0 : T) : ringbuffer T :=
  { arr := arr0, back_it := 0, front_it := 0, _size := 0, _sum := sum0, deleted := [] }

/-- Member `capacity()` -/
def capacity (c : TemplateArgs) : Nat := c._Size

/-- Member `empty()` -/
def empty (s : ringbuffer T) : Bool := s._size == 0

/-- Member `_empty()` -/
def _empty (s : ringbuffer T) : Bool := s._size == 0

/-- Member `full()` -/
def full (c : TemplateArgs) (s : ringbuffer T) : Bool := s._size == capacity c

/-- Member `size()` -/
def size (s : ringbuffer T) : Nat := s._size

/-- Member `sum()` -/
def sum (s : ringbuffer T) : T := s._sum

/-- Member `incr_back(_Val)` (both overloads have the same body). -/
def incr_back [Add T] (c : TemplateArgs) (s : ringbuffer T) (_Val : T) :
    Except Fault (ringbuffer T) :=
  if full c s then .error .overrun
  else if s.back_it < c._Size then
    .ok { s with
      _size := s._size + 1
      arr := s.arr.set s.back_it _Val
      back_it := if s.back_it + 1 = c._Size then 0 else s.back_it + 1
      _sum := if c.sum_en then s._sum + _Val else s._sum }
  else .error .bad_deref

/-- Member `incr_front()`: returns the element under the old front cursor. -/
def incr_front (c : TemplateArgs) (s : ringbuffer T) : Except Fault (T × ringbuffer T) :=
  if _empty s then .error .underrun
  else
    match s.arr.get? s.front_it with
    | none => .error .bad_deref
    | some x =>
      .ok (x, { s with
        _size := s._size - 1
        front_it := if s.front_it + 1 = c._Size then 0 else s.front_it + 1 })

/-- Member `push_back(_Val)`: the Boolean is the return value. -/
def push_back [Add T] (c : TemplateArgs) (s : ringbuffer T) (_Val : T) :
    Except Fault (Bool × ringbuffer T) :=
  if !full c s then
    match incr_back c s _Val with
    | .error e => .error e
    | .ok s1 => .ok (true, s1)
  else .ok (false, s)

/-- Member `_if_full_delete_once()`, the overload selected for a pointer `T`. -/
def _if_full_delete_once_pointer (c : TemplateArgs) (s : ringbuffer T) :
    Except Fault (ringbuffer T) :=
  if full c s then
    match incr_front c s with
    | .error e => .error e
    | .ok (dummy, s1) => .ok { s1 with deleted := s1.deleted ++ [dummy] }
  else .ok s

/-- Member `_if_full_delete_once()`, the overload selected for a non-pointer `T`. -/
def _if_full_delete_once_value [Sub T] (c : TemplateArgs) (s : ringbuffer T) :
    Except Fault (ringbuffer T) :=
  if full c s then
    match incr_front c s with
    | .error e => .error e
    | .ok (dummy, s1) => .ok { s1 with _sum := if c.sum_en then s1._sum - dummy else s1._sum }
  else .ok s

/-- Member `_if_full_delete_once()`: overload resolution on `std::is_pointer<T>`. -/
def _if_full_delete_once [Sub T] (c : TemplateArgs) (s : ringbuffer T) :
    Except Fault (ringbuffer T) :=
  if c.is_pointer then _if_full_delete_once_pointer c s
  else _if_full_delete_once_value c s

/-- Member `push_back_force(_Val)` -/
def push_back_force [Add T] [Sub T] (c : TemplateArgs) (s : ringbuffer T) (_Val : T) :
    Except Fault (ringbuffer T) :=
  match _if_full_delete_once c s with
  | .error e => .error e
  | .ok s1 => incr_back c s1 _Val

/-- Member `pull_front(item)`: returns the return value, the value of `item` after the
call and the new state. -/
def pull_front (c : TemplateArgs) (s : ringbuffer T) (item : T) :
    Except Fault (Bool × T × ringbuffer T) :=
  if _empty s then .ok (false, item, s)
  else
    match incr_front c s with
    | .error e => .error e
    | .ok (x, s1) => .ok (true, x, s1)

/-- Member `fill(_Val)`: `_Arr::fill` assigns `_Val` to every element of the array. -/
def fill [Mul T] [NatCast T] (c : TemplateArgs) (s : ringbuffer T) (_Val : T) : ringbuffer T :=
  { s with
    arr := s.arr.map (fun _ => _Val)
    _sum := if c.sum_en then _Val * (c._Size : T) else s._sum }

/-- Member `clear()` -/
def clear [Zero T] (c : TemplateArgs) (s : ringbuffer T) : ringbuffer T :=
  { s with
    back_it := 0
    front_it := 0
    _size := 0
    _sum := if c.sum_en then 0 else s._sum }

/-- The elements currently held: the `_size` slots read from the front cursor,
wrapping around at the end of the array. -/
def live (c : TemplateArgs) (s : ringbuffer T) : List T :=
  (List.range s._size).filterMap (fun i => s.arr.get? ((s.front_it + i) % c._Size))

/-- Representation invariant of a `ringbuffer<T, _Size, use_sum>` object: the
array has `_Size` elements, both cursors point into it, `_size` does not exceed
the capacity and the back cursor is `_size` slots after the front cursor. -/
def Inv (c : TemplateArgs) (s : ringbuffer T) : Prop :=
  s.arr.length = c._Size ∧ s.front_it < c._Size ∧ s._size ≤ c._Size ∧
    s.back_it = (s.front_it + s._size) % c._Size

instance (c : TemplateArgs) (s : ringbuffer T) : Decidable (Inv c s) := by
  unfold Inv; infer_instance

/-- Successive `push_back` calls with the elements of a list, collecting the
return values. -/
def push_back_all [Add T] (c : TemplateArgs) :
    ringbuffer T → List T → Except Fault (List Bool × ringbuffer T)
  | s, [] => .ok ([], s)
  | s, v :: vs =>
    match push_back c s v with
    | .error e => .error e
    | .ok (b, s1) =>
      match push_back_all c s1 vs with
      | .error e => .error e
      | .ok (bs, s2) => .ok (b :: bs, s2)

/-- Successive `push_back_force` calls with the elements of a list. -/
def push_back_force_all [Add T] [Sub T] (c : TemplateArgs) :
    ringbuffer T → List T → Except Fault (ringbuffer T)
  | s, [] => .ok s
  | s, v :: vs =>
    match push_back_force c s v with
    | .error e => .error e
    | .ok s1 => push_back_force_all c s1 vs

/-- Runs `n` successive `pull_front(item)` calls on the same variable `item`,
collecting for each call the return value and the value of `item` after it. -/
def pull_front_n (c : TemplateArgs) :
    Nat → ringbuffer T → T → Except Fault (List (Bool × T) × T × ringbuffer T)
  | 0, s, item => .ok ([], item, s)
  | n + 1, s, item =>
    match pull_front c s item with
    | .error e => .error e
    | .ok (b, item1, s1) =>
      match pull_front_n c n s1 item1 with
      | .error e => .error e
      | .ok (rs, item2, s2) => .ok ((b, item1) :: rs, item2, s2)

end ringbuffer

/-! ## Waiting on the condition variable -/

/-- What ended a `condition_variable` wait.  `notify` is the `notify_one()` of a
`*_notify` push, `wait_break` the `notify_one()` of `wait_break()`, `spurious` a
wake-up nobody asked for, `timeout` the expiry of `wait_for`. -/
inductive WakeCause where
  | notify
  | wait_break
  | spurious
  | timeout
  deriving DecidableEq, Repr

/-- One return of `wait(lock)` or `wait_for(lock, _Rel_time)`: its cause, the time
spent suspended, and the container state the woken thread finds once it holds
the lock again (the other threads ran in between). -/
structure WakeUp (S : Type) where
  cause : WakeCause
  elapsed : Nat
  state : S
  deriving DecidableEq, Repr

/-- A wake-up that `wait_for(lock, _Rel_time)` can produce: it reports a timeout
only when the relative time has passed. -/
def WakeUp.valid_for {S : Type} (_Rel_time : Nat) (w : WakeUp S) : Prop :=
  w.cause = WakeCause.timeout → _Rel_time ≤ w.elapsed

/-- Result of a blocking call: it is still suspended in its wait (the wake-ups
supplied are used up), it returned, or it hit a fault. -/
inductive WaitResult (α : Type) where
  | waiting
  | returned (r : α)
  | fault (e : Fault)
  deriving DecidableEq, Repr

/-! ## `thread_safe_ringbuffer.hpp` -/

/-- Data members of `safe_ringbuffer` and the trace of executed `delete`
expressions. -/
structure safe_ringbuffer (T : Type) where
  arr : List T
  back_it : Nat
  front_it : Nat
  _size : Nat
  deleted : List T
  deriving DecidableEq, Repr

namespace safe_ringbuffer

variable {T : Type}

/-- A freshly constructed `safe_ringbuffer`; `arr0` is the uninitialised array. -/
def init (arr0 : List T) : safe_ringbuffer T :=
  { arr := arr0, back_it := 0, front_it := 0, _size := 0, deleted := [] }

/-- Member `capacity()` -/
def capacity (c : TemplateArgs) : Nat := c._Size

/-- Member `empty()` -/
def empty (s : safe_ringbuffer T) : Bool := s._size == 0

/-- Member `full()` -/
def full (c : TemplateArgs) (s : safe_ringbuffer T) : Bool := s._size == capacity c

/-- Member `size()` -/
def size (s : safe_ringbuffer T) : Nat := s._size

/-- Member `_full()` -/
def _full (c : TemplateArgs) (s : safe_ringbuffer T) : Bool := s._size == capacity c

/-- Member `_empty()` -/
def _empty (s : safe_ringbuffer T) : Bool := s._size == 0

/-- Member `incr_back(_Val)` -/
def incr_back (c : TemplateArgs) (s : safe_ringbuffer T) (_Val : T) :
    Except Fault (safe_ringbuffer T) :=
  if _full c s then .error .overrun
  else if s.back_it < c._Size then
    .ok { s with
      _size := s._size + 1
      arr := s.arr.set s.back_it _Val
      back_it := if s.back_it + 1 = c._Size then 0 else s.back_it + 1 }
  else .error .bad_deref

/-- Member `incr_front()` -/
def incr_front (c : TemplateArgs) (s : safe_ringbuffer T) :
    Except Fault (T × safe_ringbuffer T) :=
  if _empty s then .error .underrun
  else
    match s.arr.get? s.front_it with
    | none => .error .bad_deref
    | some x =>
      .ok (x, { s with
        _size := s._size - 1
        front_it := if s.front_it + 1 = c._Size then 0 else s.front_it + 1 })

/-- Member `_if_full_delete_once()`: the pointer overload deletes the evicted element,
the non-pointer overload only drops it. -/
def _if_full_delete_once (c : TemplateArgs) (s : safe_ringbuffer T) :
    Except Fault (safe_ringbuffer T) :=
  if _full c s then
    match incr_front c s with
    | .error e => .error e
    | .ok (dummy, s1) =>
      if c.is_pointer then .ok { s1 with deleted := s1.deleted ++ [dummy] } else .ok s1
  else .ok s

/-- Member `push_back(_Val)` -/
def push_back (c : TemplateArgs) (s : safe_ringbuffer T) (_Val : T) :
    Except Fault (Bool × safe_ringbuffer T) :=
  if !_full c s then
    match incr_back c s _Val with
    | .error e => .error e
    | .ok s1 => .ok (true, s1)
  else .ok (false, s)

/-- Member `push_back_force(_Val)` -/
def push_back_force (c : TemplateArgs) (s : safe_ringbuffer T) (_Val : T) :
    Except Fault (safe_ringbuffer T) :=
  match _if_full_delete_once c s with
  | .error e => .error e
  | .ok s1 => incr_back c s1 _Val

/-- Member `push_back_notify(_Val)`: return value, number of `notify_one()` calls made,
new state. -/
def push_back_notify (c : TemplateArgs) (s : safe_ringbuffer T) (_Val : T) :
    Except Fault (Bool × Nat × safe_ringbuffer T) :=
  if !_full c s then
    match incr_back c s _Val with
    | .error e => .error e
    | .ok s1 => .ok (true, 1, s1)
  else .ok (false, 0, s)

/-- Member `push_back_force_notify(_Val)`: number of `notify_one()` calls made and new
state. -/
def push_back_force_notify (c : TemplateArgs) (s : safe_ringbuffer T) (_Val : T) :
    Except Fault (Nat × safe_ringbuffer T) :=
  match _if_full_delete_once c s with
  | .error e => .error e
  | .ok s1 =>
    match incr_back c s1 _Val with
    | .error e => .error e
    | .ok s2 => .ok (1, s2)

/-- Member `pull_front(item)` -/
def pull_front (c : TemplateArgs) (s : safe_ringbuffer T) (item : T) :
    Except Fault (Bool × T × safe_ringbuffer T) :=
  if _empty s then .ok (false, item, s)
  else
    match incr_front c s with
    | .error e => .error e
    | .ok (x, s1) => .ok (true, x, s1)

/-- Member `pull_front_wait(item)`.  Each pass through the body of `while (_empty())`
consumes one wake-up of `wait(lock)`; with none left the call stays suspended. -/
def pull_front_wait (c : TemplateArgs) :
    List (WakeUp (safe_ringbuffer T)) → safe_ringbuffer T → T →
      WaitResult (Bool × T × safe_ringbuffer T)
  | wakes, s, item =>
    if _empty s then
      match wakes with
      | [] => .waiting
      | w :: rest =>
        if _empty w.state then .returned (false, item, w.state)
        else pull_front_wait c rest w.state item
    else
      match incr_front c s with
      | .error e => .fault e
      | .ok (x, s1) => .returned (true, x, s1)

/-- Member `pull_front_wait(item, _Rel_time)`: a single `wait_for(lock, _Rel_time)` whose
return value is discarded; only the first wake-up is consumed. -/
def pull_front_wait_for (c : TemplateArgs) (_Rel_time : Nat)
    (wakes : List (WakeUp (safe_ringbuffer T))) (s : safe_ringbuffer T) (item : T) :
    WaitResult (Bool × T × safe_ringbuffer T) :=
  if _empty s then
    match wakes with
    | [] => .waiting
    | w :: _ =>
      if _empty w.state then .returned (false, item, w.state)
      else
        match incr_front c w.state with
        | .error e => .fault e
        | .ok (x, s1) => .returned (true, x, s1)
  else
    match incr_front c s with
    | .error e => .fault e
    | .ok (x, s1) => .returned (true, x, s1)

/-- Member `fill(_Val)` -/
def fill (s : safe_ringbuffer T) (_Val : T) : safe_ringbuffer T :=
  { s with arr := s.arr.map (fun _ => _Val) }

/-- Member `clear()` -/
def clear (s : safe_ringbuffer T) : safe_ringbuffer T :=
  { s with back_it := 0, front_it := 0, _size := 0 }

end safe_ringbuffer

/-! ## `thread_safe_deque.hpp` -/

/-- The inherited `std::deque<T>`, front first. -/
structure safe_deque (T : Type) where
  elems : List T
  deriving DecidableEq, Repr

namespace safe_deque

variable {T : Type}

/-- Member `empty()` -/
def empty (s : safe_deque T) : Bool := s.elems.isEmpty

/-- Member `size()` -/
def size (s : safe_deque T) : Nat := s.elems.length

/-- Member `push_back(_Val)` -/
def push_back (s : safe_deque T) (_Val : T) : safe_deque T :=
  { elems := s.elems ++ [_Val] }

/-- Member `push_back_notify(_Val)`: number of `notify_one()` calls made and new state. -/
def push_back_notify (s : safe_deque T) (_Val : T) : Nat × safe_deque T :=
  (1, { elems := s.elems ++ [_Val] })

/-- Member `push_front(_Val)` -/
def push_front (s : safe_deque T) (_Val : T) : safe_deque T :=
  { elems := _Val :: s.elems }

/-- Member `push_front_notify(_Val)`: number of `notify_one()` calls made and new state. -/
def push_front_notify (s : safe_deque T) (_Val : T) : Nat × safe_deque T :=
  (1, { elems := _Val :: s.elems })

/-- Member `pull_front(item)`: return value, `item` after the call, new state. -/
def pull_front (s : safe_deque T) (item : T) : Bool × T × safe_deque T :=
  if !s.elems.isEmpty then
    match s.elems with
    | x :: rest => (true, x, { elems := rest })
    | [] => (false, item, s)
  else (false, item, s)

/-- Member `try_get_front(item)` -/
def try_get_front (s : safe_deque T) (item : T) : Bool × T × safe_deque T :=
  if !s.elems.isEmpty then
    match s.elems.head? with
    | some x => (true, x, s)
    | none => (false, item, s)
  else (false, item, s)

/-- Member `try_get_back(item)` -/
def try_get_back (s : safe_deque T) (item : T) : Bool × T × safe_deque T :=
  if !s.elems.isEmpty then
    match s.elems.getLast? with
    | some x => (true, x, s)
    | none => (false, item, s)
  else (false, item, s)

/-- Member `back()`: undefined on an empty `std::deque`. -/
def back (s : safe_deque T) : Except Fault T :=
  match s.elems.getLast? with
  | some x => .ok x
  | none => .error .empty_deque

/-- Member `front()`: undefined on an empty `std::deque`. -/
def front (s : safe_deque T) : Except Fault T :=
  match s.elems.head? with
  | some x => .ok x
  | none => .error .empty_deque

/-- Member `pop_front()`: undefined on an empty `std::deque`. -/
def pop_front (s : safe_deque T) : Except Fault (safe_deque T) :=
  match s.elems with
  | _ :: rest => .ok { elems := rest }
  | [] => .error .empty_deque

/-- Member `pop_back()`: undefined on an empty `std::deque`. -/
def pop_back (s : safe_deque T) : Except Fault (safe_deque T) :=
  match s.elems with
  | _ :: _ => .ok { elems := s.elems.dropLast }
  | [] => .error .empty_deque

/-- The loop of `pull_front_wait(item)` with its local variable `empty`; each
pass through the body consumes one wake-up of `wait(lock)`. -/
def pull_front_wait_loop :
    List (WakeUp (safe_deque T)) → Bool → safe_deque T → T →
      WaitResult (Bool × T × safe_deque T)
  | wakes, empty, s, item =>
    if empty then
      match wakes with
      | [] => .waiting
      | w :: rest =>
        if w.state.elems.isEmpty then .returned (false, item, w.state)
        else pull_front_wait_loop rest w.state.elems.isEmpty w.state item
    else
      match s.elems with
      | x :: rest => .returned (true, x, { elems := rest })
      | [] => .fault .empty_deque

/-- Member `pull_front_wait(item)` -/
def pull_front_wait (wakes : List (WakeUp (safe_deque T))) (s : safe_deque T) (item : T) :
    WaitResult (Bool × T × safe_deque T) :=
  pull_front_wait_loop wakes s.elems.isEmpty s item

/-- Member `pull_front_wait(item, _Rel_time)`: a single `wait_for(lock, _Rel_time)` whose
return value is discarded; only the first wake-up is consumed. -/
def pull_front_wait_for (_Rel_time : Nat) (wakes : List (WakeUp (safe_deque T)))
    (s : safe_deque T) (item : T) : WaitResult (Bool × T × safe_deque T) :=
  if s.elems.isEmpty then
    match wakes with
    | [] => .waiting
    | w :: _ =>
      if w.state.elems.isEmpty then .returned (false, item, w.state)
      else
        match w.state.elems with
        | x :: rest => .returned (true, x, { elems := rest })
        | [] => .fault .empty_deque
  else
    match s.elems with
    | x :: rest => .returned (true, x, { elems := rest })
    | [] => .fault .empty_deque

/-- Member `wait_break()`: number of `notify_one()` calls made and (unchanged) state. -/
def wait_break (s : safe_deque T) : Nat × safe_deque T := (1, s)

end safe_deque

/-! ## Linear histories of a `safe_deque`

Every member function of `safe_deque` holds the mutex from its first to its last
statement, except that a blocking pull gives the mutex up while it is suspended.
An execution is therefore a sequence of lock-held sections: a whole call for the
non-blocking functions, and for a blocking pull the section from its entry to its
return or suspension and, if it was suspended, the section from its wake-up to
its return. -/

namespace safe_deque

variable {T : Type}

/-- A lock-held section of one of the push and pull functions. -/
inductive Step (T : Type) where
  | push_back (v : T)
  | push_front (v : T)
  | push_back_notify (v : T)
  | push_front_notify (v : T)
  | pull_front (item : T)
  | pull_front_wait_enter (item : T)
  | pull_front_wait_wake (item : T) (cause : WakeCause)
  | pull_front_wait_for_enter (item : T) (rel_time : Nat)
  | pull_front_wait_for_wake (item : T) (rel_time : Nat) (cause : WakeCause) (elapsed : Nat)
  deriving DecidableEq, Repr

/-- The deque together with the record of what has been pushed and what the
successful pulls have returned, both in the order of the sections. -/
structure History (T : Type) where
  state : safe_deque T
  pushed : List T
  pulled : List T
  deriving DecidableEq, Repr

/-- The history of an empty deque on which nothing has been called. -/
def History.start : History T :=
  { state := { elems := [] }, pushed := [], pulled := [] }

/-- Records the outcome of a pull section: a returned `true` adds the value
written to `item` to `pulled`. -/
def History.record (h : History T) :
    WaitResult (Bool × T × safe_deque T) → Except Fault (History T)
  | .waiting => .ok h
  | .returned (true, x, s1) => .ok { h with state := s1, pulled := h.pulled ++ [x] }
  | .returned (false, _, s1) => .ok { h with state := s1 }
  | .fault e => .error e

/-- Runs one section on the current state.  A blocking pull that is entered gets
no wake-up within its section; a blocking pull that wakes had entered on an
empty deque and finds the current state. -/
def History.step (h : History T) : Step T → Except Fault (History T)
  | .push_back v =>
    .ok { h with state := safe_deque.push_back h.state v, pushed := h.pushed ++ [v] }
  | .push_front v =>
    .ok { h with state := safe_deque.push_front h.state v, pushed := h.pushed ++ [v] }
  | .push_back_notify v =>
    .ok { h with state := (safe_deque.push_back_notify h.state v).2, pushed := h.pushed ++ [v] }
  | .push_front_notify v =>
    .ok { h with state := (safe_deque.push_front_notify h.state v).2,
                 pushed := h.pushed ++ [v] }
  | .pull_front item => h.record (.returned (safe_deque.pull_front h.state item))
  | .pull_front_wait_enter item => h.record (safe_deque.pull_front_wait [] h.state item)
  | .pull_front_wait_wake item cause =>
    h.record (safe_deque.pull_front_wait [⟨cause, 0, h.state⟩] { elems := [] } item)
  | .pull_front_wait_for_enter item rel_time =>
    h.record (safe_deque.pull_front_wait_for rel_time [] h.state item)
  | .pull_front_wait_for_wake item rel_time cause elapsed =>
    h.record (safe_deque.pull_front_wait_for rel_time [⟨cause, elapsed, h.state⟩]
      { elems := [] } item)

/-- Runs a sequence of sections. -/
def History.run : History T → List (Step T) → Except Fault (History T)
  | h, [] => .ok h
  | h, st :: rest =>
    match h.step st with
    | .error e => .error e
    | .ok h1 => History.run h1 rest

end safe_deque

/-! ## Sequences of calls, destructors and recycling handles -/

namespace ringbuffer

variable {T : Type}

/-- A call of one of the public mutators of `ringbuffer`. -/
inductive Call (T : Type) where
  | push_back (v : T)
  | push_back_force (v : T)
  | pull_front (item : T)
  | fill (v : T)
  | clear
  deriving DecidableEq, Repr

/-- State after one call; the return value is dropped. -/
def exec [Zero T] [Add T] [Sub T] [Mul T] [NatCast T] (c : TemplateArgs) (s : ringbuffer T) :
    Call T → Except Fault (ringbuffer T)
  | .push_back v =>
    match push_back c s v with
    | .error e => .error e
    | .ok (_, s1) => .ok s1
  | .push_back_force v => push_back_force c s v
  | .pull_front item =>
    match pull_front c s item with
    | .error e => .error e
    | .ok (_, _, s1) => .ok s1
  | .fill v => .ok (fill c s v)
  | .clear => .ok (clear c s)

/-- State after a sequence of calls. -/
def run [Zero T] [Add T] [Sub T] [Mul T] [NatCast T] (c : TemplateArgs) :
    ringbuffer T → List (Call T) → Except Fault (ringbuffer T)
  | s, [] => .ok s
  | s, call :: rest =>
    match exec c s call with
    | .error e => .error e
    | .ok s1 => run c s1 rest

/-- The pointers a call hands over to the container: the argument of a push. -/
def Call.pushed : Call T → List T
  | .push_back v => [v]
  | .push_back_force v => [v]
  | _ => []

/-- Whether the call is a `fill`. -/
def Call.is_fill : Call T → Bool
  | .fill _ => true
  | _ => false

/-- Whether the call is a `push_back` or a `push_back_force`. -/
def Call.is_push : Call T → Bool
  | .push_back _ => true
  | .push_back_force _ => true
  | _ => false

/-- The loop `while (pull_front(del)) delete del;` of the destructor.  The first
argument bounds the number of evaluations of the loop condition; `none` means the
bound was reached before the loop ended.  The result counts the successful
`pull_front` calls. -/
def destructor_loop (c : TemplateArgs) :
    Nat → ringbuffer T → T → Option (Except Fault (Nat × ringbuffer T))
  | 0, _, _ => none
  | fuel + 1, s, del =>
    match pull_front c s del with
    | .error e => some (.error e)
    | .ok (false, _, s1) => some (.ok (0, s1))
    | .ok (true, x, s1) =>
      match destructor_loop c fuel { s1 with deleted := s1.deleted ++ [x] } x with
      | none => none
      | some (.error e) => some (.error e)
      | some (.ok (n, s2)) => some (.ok (n + 1, s2))

/-- Destructor `~ringbuffer()`: the loop runs only when `T` is a pointer.  `del` is
the initial value of the uninitialised local `T del`. -/
def destructor (c : TemplateArgs) (fuel : Nat) (s : ringbuffer T) (del : T) :
    Option (Except Fault (Nat × ringbuffer T)) :=
  if c.is_pointer then destructor_loop c fuel s del else some (.ok (0, s))

/-- Member `pull_front_auto_recycle()` (it exists for a pointer `T` only).  `null`
is `nullptr`, `fresh` is the pointer `new T_nptr` returns when it is evaluated.
Returns the pointee of the handle, whether `new` was evaluated, and the state. -/
def pull_front_auto_recycle (c : TemplateArgs) (s : ringbuffer T) (null fresh : T) :
    Except Fault (T × Bool × ringbuffer T) :=
  match pull_front c s null with
  | .error e => .error e
  | .ok (true, tmp, s1) => .ok (tmp, false, s1)
  | .ok (false, _, s1) => .ok (fresh, true, s1)

/-- The deleter `[&](T del) { push_back_force(del); }` of the handle, run when the
last owner of the handle lets go of it. -/
def handle_release [Add T] [Sub T] (c : TemplateArgs) (s : ringbuffer T) (del : T) :
    Except Fault (ringbuffer T) :=
  push_back_force c s del

/-- The `safe_ringbuffer` members of a `ringbuffer` state: everything but `_sum`. -/
def forget_sum (s : ringbuffer T) : safe_ringbuffer T :=
  { arr := s.arr, back_it := s.back_it, front_it := s.front_it, _size := s._size,
    deleted := s.deleted }

end ringbuffer

namespace safe_ringbuffer

variable {T : Type}

/-- A `ringbuffer` state with the members of the `safe_ringbuffer` state and the
given `_sum`. -/
def with_sum (s : safe_ringbuffer T) (sum0 : T) : ringbuffer T :=
  { arr := s.arr, back_it := s.back_it, front_it := s.front_it, _size := s._size,
    _sum := sum0, deleted := s.deleted }

/-- The elements currently held: the `_size` slots read from the front cursor,
wrapping around at the end of the array. -/
def live (c : TemplateArgs) (s : safe_ringbuffer T) : List T :=
  (List.range s._size).filterMap (fun i => s.arr.get? ((s.front_it + i) % c._Size))

/-- Representation invariant of a `safe_ringbuffer<T, _Size>` object. -/
def Inv (c : TemplateArgs) (s : safe_ringbuffer T) : Prop :=
  s.arr.length = c._Size ∧ s.front_it < c._Size ∧ s._size ≤ c._Size ∧
    s.back_it = (s.front_it + s._size) % c._Size

instance (c : TemplateArgs) (s : safe_ringbuffer T) : Decidable (Inv c s) := by
  unfold Inv; infer_instance

/-- A call of one of the public mutators of `safe_ringbuffer`. -/
inductive Call (T : Type) where
  | push_back (v : T)
  | push_back_force (v : T)
  | push_back_notify (v : T)
  | push_back_force_notify (v : T)
  | pull_front (item : T)
  | fill (v : T)
  | clear
  deriving DecidableEq, Repr

/-- State after one call; return value and notifications are dropped. -/
def exec (c : TemplateArgs) (s : safe_ringbuffer T) :
    Call T → Except Fault (safe_ringbuffer T)
  | .push_back v =>
    match push_back c s v with
    | .error e => .error e
    | .ok (_, s1) => .ok s1
  | .push_back_force v => push_back_force c s v
  | .push_back_notify v =>
    match push_back_notify c s v with
    | .error e => .error e
    | .ok (_, _, s1) => .ok s1
  | .push_back_force_notify v =>
    match push_back_force_notify c s v with
    | .error e => .error e
    | .ok (_, s1) => .ok s1
  | .pull_front item =>
    match pull_front c s item with
    | .error e => .error e
    | .ok (_, _, s1) => .ok s1
  | .fill v => .ok (fill s v)
  | .clear => .ok (clear s)

/-- State after a sequence of calls. -/
def run (c : TemplateArgs) :
    safe_ringbuffer T → List (Call T) → Except Fault (safe_ringbuffer T)
  | s, [] => .ok s
  | s, call :: rest =>
    match exec c s call with
    | .error e => .error e
    | .ok s1 => run c s1 rest

/-- The loop `while (pull_front(del)) delete del;` of the destructor, bounded as
for `ringbuffer`. -/
def destructor_loop (c : TemplateArgs) :
    Nat → safe_ringbuffer T → T → Option (Except Fault (Nat × safe_ringbuffer T))
  | 0, _, _ => none
  | fuel + 1, s, del =>
    match pull_front c s del with
    | .error e => some (.error e)
    | .ok (false, _, s1) => some (.ok (0, s1))
    | .ok (true, x, s1) =>
      match destructor_loop c fuel { s1 with deleted := s1.deleted ++ [x] } x with
      | none => none
      | some (.error e) => some (.error e)
      | some (.ok (n, s2)) => some (.ok (n + 1, s2))

/-- Destructor `~safe_ringbuffer()`. -/
def destructor (c : TemplateArgs) (fuel : Nat) (s : safe_ringbuffer T) (del : T) :
    Option (Except Fault (Nat × safe_ringbuffer T)) :=
  if c.is_pointer then destructor_loop c fuel s del else some (.ok (0, s))

/-- Member `pull_front_auto_recycle()`, as for `ringbuffer`. -/
def pull_front_auto_recycle (c : TemplateArgs) (s : safe_ringbuffer T) (null fresh : T) :
    Except Fault (T × Bool × safe_ringbuffer T) :=
  match pull_front c s null with
  | .error e => .error e
  | .ok (true, tmp, s1) => .ok (tmp, false, s1)
  | .ok (false, _, s1) => .ok (fresh, true, s1)

/-- The deleter `[&](T del){ push_back_force(del); }` of the handle. -/
def handle_release (c : TemplateArgs) (s : safe_ringbuffer T) (del : T) :
    Except Fault (safe_ringbuffer T) :=
  push_back_force c s del

end safe_ringbuffer

namespace safe_deque

variable {T : Type}

/-- Successive `push_back` calls with the elements of a list. -/
def push_back_all : safe_deque T → List T → safe_deque T
  | s, [] => s
  | s, v :: vs => push_back_all (push_back s v) vs

/-- Runs `n` successive `pull_front(item)` calls on the same variable `item`,
collecting for each call the return value and the value of `item` after it. -/
def pull_front_n : Nat → safe_deque T → T → List (Bool × T) × T × safe_deque T
  | 0, s, item => ([], item, s)
  | n + 1, s, item =>
    match pull_front s item with
    | (b, item1, s1) =>
      match pull_front_n n s1 item1 with
      | (rs, item2, s2) => ((b, item1) :: rs, item2, s2)

/-- The loop `while (pull_front(del)) delete del;` of the destructor, bounded as
for `ringbuffer`.  Returns the number of successful `pull_front` calls, the
pointers deleted, in order, and the final state. -/
def destructor_loop : Nat → safe_deque T → T → Option (Nat × List T × safe_deque T)
  | 0, _, _ => none
  | fuel + 1, s, del =>
    match pull_front s del with
    | (false, _, s1) => some (0, [], s1)
    | (true, x, s1) =>
      match destructor_loop fuel s1 x with
      | none => none
      | some (n, ds, s2) => some (n + 1, x :: ds, s2)

/-- Destructor `~safe_deque()`; `is_pointer` is `std::is_pointer_v<T>`. -/
def destructor (is_pointer : Bool) (fuel : Nat) (s : safe_deque T) (del : T) :
    Option (Nat × List T × safe_deque T) :=
  if is_pointer then destructor_loop fuel s del else some (0, [], s)

/-- Member `pull_front_auto_recycle()` (pointer `T` only): pointee of the handle,
whether `new` was evaluated, and the state. -/
def pull_front_auto_recycle (s : safe_deque T) (null fresh : T) : T × Bool × safe_deque T :=
  match pull_front s null with
  | (true, tmp, s1) => (tmp, false, s1)
  | (false, _, s1) => (fresh, true, s1)

/-- The deleter `[&](T del){ push_back(del); }` of the handle. -/
def handle_release (s : safe_deque T) (del : T) : safe_deque T :=
  push_back s del

end safe_deque

/-! ## Recycling pool on a ring buffer

The pool is a `ringbuffer` of pointers together with the handles handed out by
`pull_front_auto_recycle()`.  Objects are numbered in the order `new` creates
them, starting at 1; 0 is `nullptr`. -/

/-- The ring buffer, the pointees of the outstanding handles and every object
`new` has returned so far. -/
structure Pool where
  buf : ringbuffer Nat
  held : List Nat
  allocated : List Nat
  deriving DecidableEq, Repr

/-- A borrow, or the release of the outstanding handle at position `i`. -/
inductive PoolOp where
  | borrow
  | release (i : Nat)
  deriving DecidableEq, Repr

namespace Pool

/-- An empty pool on a freshly constructed ring buffer. -/
def start (arr0 : List Nat) : Pool :=
  { buf := ringbuffer.init arr0 0, held := [], allocated := [] }

/-- One pool operation.  Releasing a handle that does not exist does nothing. -/
def step (c : TemplateArgs) (p : Pool) : PoolOp → Except Fault Pool
  | .borrow =>
    match ringbuffer.pull_front_auto_recycle c p.buf 0 (p.allocated.length + 1) with
    | .error e => .error e
    | .ok (ptr, is_new, b1) =>
      .ok { buf := b1, held := p.held ++ [ptr],
            allocated := if is_new then p.allocated ++ [ptr] else p.allocated }
  | .release i =>
    match p.held.get? i with
    | none => .ok p
    | some ptr =>
      match ringbuffer.handle_release c p.buf ptr with
      | .error e => .error e
      | .ok b1 => .ok { p with buf := b1, held := p.held.eraseIdx i }

/-- A sequence of pool operations. -/
def run (c : TemplateArgs) : Pool → List PoolOp → Except Fault Pool
  | p, [] => .ok p
  | p, op :: rest =>
    match step c p op with
    | .error e => .error e
    | .ok p1 => run c p1 rest

end Pool

/-! ## The element type `double`

The running sum is kept in the element type's own arithmetic.  For `double` that
is IEEE 754 binary64 with round to nearest, ties to even.  On integer-valued
doubles below the overflow threshold the exact sum, difference or product is an
integer and the result is that integer rounded to 53 significant bits. -/

/-- Number of binary digits of `n`, by repeated halving; the first argument bounds
the number of halvings (`n` itself is always enough). -/
def bit_length : Nat → Nat → Nat
  | 0, _ => 0
  | fuel + 1, n => if n = 0 then 0 else bit_length fuel (n / 2) + 1

/-- The integer `z` rounded to 53 significant bits, to nearest, ties to even. -/
def round_to_binary64 (z : Int) : Int :=
  let m := z.natAbs
  let bits := bit_length m m
  if bits ≤ 53 then z
  else
    let sh := bits - 53
    let q := m / 2 ^ sh
    let r := m % 2 ^ sh
    let half := 2 ^ (sh - 1)
    let q1 := if half < r ∨ (r = half ∧ q % 2 = 1) then q + 1 else q
    if z < 0 then -((q1 * 2 ^ sh : Nat) : Int) else ((q1 * 2 ^ sh : Nat) : Int)

/-- An integer-valued `double`. -/
structure binary64 where
  val : Int
  deriving DecidableEq, Repr

instance : Zero binary64 := ⟨⟨0⟩⟩

instance : Add binary64 := ⟨fun a b => ⟨round_to_binary64 (a.val + b.val)⟩⟩

instance : Sub binary64 := ⟨fun a b => ⟨round_to_binary64 (a.val - b.val)⟩⟩

instance : Mul binary64 := ⟨fun a b => ⟨round_to_binary64 (a.val * b.val)⟩⟩

instance : NatCast binary64 := ⟨fun n => ⟨round_to_binary64 n⟩⟩

/-! ## Cursor arithmetic -/

theorem cursor_step (a N : Nat) (hN : 0 < N) :
    (if a % N + 1 = N then 0 else a % N + 1) = (a + 1) % N := by
  have hlt : a % N < N := Nat.mod_lt a hN
  have hmod : (a + 1) % N = (a % N + 1) % N := (Nat.mod_add_mod a N 1).symm
  rw [hmod]
  by_cases h : a % N + 1 = N
  · rw [if_pos h, h, Nat.mod_self]
  · rw [if_neg h, Nat.mod_eq_of_lt (show a % N + 1 < N by omega)]

theorem cursor_step_lt (f N : Nat) (hf : f < N) :
    (if f + 1 = N then 0 else f + 1) = (f + 1) % N := by
  have h := cursor_step f N (by omega)
  rwa [Nat.mod_eq_of_lt hf] at h

theorem slot_ne (f i n N : Nat) (hi : i < n) (hn : n < N) :
    (f + i) % N ≠ (f + n) % N := by
  intro h
  have h1 : Nat.ModEq N (f + i) (f + n) := h
  have h2 : Nat.ModEq N i n := Nat.ModEq.add_left_cancel' f h1
  have h3 : i % N = n % N := h2
  rw [Nat.mod_eq_of_lt (by omega), Nat.mod_eq_of_lt hn] at h3
  omega

theorem slot_shift (f i N : Nat) : (f + (i + 1)) % N = ((f + 1) % N + i) % N := by
  rw [Nat.add_mod ((f + 1) % N) i N, Nat.mod_mod, ← Nat.add_mod]
  congr 1
  omega

namespace ringbuffer

variable {T : Type}

theorem live_of_size_zero (c : TemplateArgs) (s : ringbuffer T) (h : s._size = 0) :
    live c s = [] := by
  simp [live, h]

theorem live_length (c : TemplateArgs) (s : ringbuffer T) (hinv : Inv c s) :
    (live c s).length = s._size := by
  obtain ⟨hlen, hf, -, -⟩ := hinv
  have hN : 0 < c._Size := by omega
  unfold live
  have : ∀ n, ((List.range n).filterMap
      (fun i => s.arr.get? ((s.front_it + i) % c._Size))).length = n := by
    intro n
    induction n with
    | zero => simp
    | succ n ih =>
      rw [List.range_succ, List.filterMap_append, List.length_append, ih]
      have hlt : (s.front_it + n) % c._Size < s.arr.length := by
        rw [hlen]; exact Nat.mod_lt _ hN
      simp [List.getElem?_eq_getElem hlt]
  exact this _

/-- Effect of `incr_back` on a buffer that satisfies the invariant and is not
full. -/
theorem incr_back_spec [Add T] (c : TemplateArgs) (s : ringbuffer T) (v : T)
    (hinv : Inv c s) (hlt : s._size < c._Size) :
    ∃ s1, incr_back c s v = .ok s1 ∧ Inv c s1 ∧ live c s1 = live c s ++ [v] ∧
      s1._size = s._size + 1 ∧ s1.deleted = s.deleted ∧
      s1._sum = (if c.sum_en then s._sum + v else s._sum) := by
  obtain ⟨hlen, hf, hsz, hb⟩ := hinv
  have hN : 0 < c._Size := by omega
  have hbl : s.back_it < c._Size := by rw [hb]; exact Nat.mod_lt _ hN
  have hnf : full c s = false := by
    simp [full, capacity]; omega
  refine ⟨{ s with
      _size := s._size + 1
      arr := s.arr.set s.back_it v
      back_it := if s.back_it + 1 = c._Size then 0 else s.back_it + 1
      _sum := if c.sum_en then s._sum + v else s._sum },
    by simp [incr_back, hnf, hbl], ?_, ?_, rfl, rfl, rfl⟩
  · refine ⟨by simpa using hlen, hf, by simpa using hlt, ?_⟩
    show (if s.back_it + 1 = c._Size then 0 else s.back_it + 1) = _
    rw [hb, cursor_step _ _ hN]; rfl
  · show (List.range (s._size + 1)).filterMap
        (fun i => (s.arr.set s.back_it v).get? ((s.front_it + i) % c._Size)) = _
    rw [List.range_succ, List.filterMap_append]
    congr 1
    · unfold live
      apply List.filterMap_congr
      intro i hi
      have hi1 : i < s._size := List.mem_range.mp hi
      have hne : s.back_it ≠ (s.front_it + i) % c._Size := by
        rw [hb]; exact (slot_ne _ _ _ _ hi1 hlt).symm
      simp [List.getElem?_set_ne hne]
    · have hbl2 : s.back_it < s.arr.length := by omega
      simp [← hb, hbl2]

/-- Effect of `incr_front` on a buffer that satisfies the invariant and is not
empty. -/
theorem incr_front_spec (c : TemplateArgs) (s : ringbuffer T)
    (hinv : Inv c s) (hpos : 0 < s._size) :
    ∃ x s1, incr_front c s = .ok (x, s1) ∧ Inv c s1 ∧ live c s = x :: live c s1 ∧
      s1._size + 1 = s._size ∧ s1.deleted = s.deleted ∧ s1._sum = s._sum ∧
      s1.arr = s.arr := by
  obtain ⟨hlen, hf, hsz, hb⟩ := hinv
  have hN : 0 < c._Size := by omega
  have hne : _empty s = false := by simp [_empty]; omega
  have hfl : s.front_it < s.arr.length := by omega
  have hget : s.arr.get? s.front_it = some (s.arr.get ⟨s.front_it, hfl⟩) := by
    simp [List.getElem?_eq_getElem hfl]
  refine ⟨s.arr.get ⟨s.front_it, hfl⟩, { s with
      _size := s._size - 1
      front_it := if s.front_it + 1 = c._Size then 0 else s.front_it + 1 },
    by simp only [incr_front, hne, hget]; simp,
    ?_, ?_, by show s._size - 1 + 1 = s._size; omega, rfl, rfl, rfl⟩
  · refine ⟨hlen, ?_, by show s._size - 1 ≤ c._Size; omega, ?_⟩
    · show (if s.front_it + 1 = c._Size then 0 else s.front_it + 1) < c._Size
      split <;> omega
    · show s.back_it = ((if s.front_it + 1 = c._Size then 0 else s.front_it + 1)
        + (s._size - 1)) % c._Size
      rw [hb, cursor_step_lt _ _ hf, ← slot_shift]
      congr 1; omega
  · obtain ⟨n, hn⟩ : ∃ n, s._size = n + 1 := ⟨s._size - 1, by omega⟩
    show (List.range s._size).filterMap
        (fun i => s.arr.get? ((s.front_it + i) % c._Size)) =
      s.arr.get ⟨s.front_it, hfl⟩ :: (List.range (s._size - 1)).filterMap
        (fun i => s.arr.get? (((if s.front_it + 1 = c._Size then 0 else s.front_it + 1) + i)
          % c._Size))
    rw [hn, Nat.add_sub_cancel, List.range_succ_eq_map, List.filterMap_cons]
    have h0 : s.arr.get? ((s.front_it + 0) % c._Size) = some (s.arr.get ⟨s.front_it, hfl⟩) := by
      rw [Nat.add_zero, Nat.mod_eq_of_lt hf]; exact hget
    rw [h0, List.filterMap_map]
    dsimp only
    congr 1
    apply List.filterMap_congr
    intro i _
    show s.arr.get? ((s.front_it + (i + 1)) % c._Size) = _
    rw [cursor_step_lt _ _ hf, slot_shift]

/-- Effect of `push_back` on a buffer that is not full. -/
theorem push_back_spec [Add T] (c : TemplateArgs) (s : ringbuffer T) (v : T)
    (hinv : Inv c s) (hlt : s._size < c._Size) :
    ∃ s1, push_back c s v = .ok (true, s1) ∧ Inv c s1 ∧ live c s1 = live c s ++ [v] ∧
      s1._size = s._size + 1 ∧ s1.deleted = s.deleted ∧
      s1._sum = (if c.sum_en then s._sum + v else s._sum) := by
  obtain ⟨s1, h1, h2⟩ := incr_back_spec c s v hinv hlt
  have hnf : full c s = false := by
    simp [full, capacity]; omega
  exact ⟨s1, by simp [push_back, hnf, h1], h2⟩

/-- Effect of `pull_front` on a buffer that is not empty. -/
theorem pull_front_spec (c : TemplateArgs) (s : ringbuffer T) (item : T)
    (hinv : Inv c s) (hpos : 0 < s._size) :
    ∃ x s1, pull_front c s item = .ok (true, x, s1) ∧ Inv c s1 ∧
      live c s = x :: live c s1 ∧ s1._size + 1 = s._size ∧ s1.deleted = s.deleted ∧
      s1._sum = s._sum ∧ s1.arr = s.arr := by
  obtain ⟨x, s1, h1, h2⟩ := incr_front_spec c s hinv hpos
  have hne : _empty s = false := by simp [_empty]; omega
  exact ⟨x, s1, by simp [pull_front, hne, h1], h2⟩

/-- Effect of `pull_front` on an empty buffer. -/
theorem pull_front_empty (c : TemplateArgs) (s : ringbuffer T) (item : T)
    (h : s._size = 0) : pull_front c s item = .ok (false, item, s) := by
  simp [pull_front, _empty, h]

/-- Effect of `push_back_force` on a buffer that is not full. -/
theorem push_back_force_not_full [Add T] [Sub T] (c : TemplateArgs) (s : ringbuffer T)
    (v : T) (hinv : Inv c s) (hlt : s._size < c._Size) :
    ∃ s1, push_back_force c s v = .ok s1 ∧ Inv c s1 ∧ live c s1 = live c s ++ [v] ∧
      s1._size = s._size + 1 ∧ s1.deleted = s.deleted ∧
      s1._sum = (if c.sum_en then s._sum + v else s._sum) := by
  obtain ⟨s1, h1, h2⟩ := incr_back_spec c s v hinv hlt
  have hnf : full c s = false := by
    simp [full, capacity]; omega
  refine ⟨s1, ?_, h2⟩
  cases hp : c.is_pointer <;>
    simp [push_back_force, _if_full_delete_once, _if_full_delete_once_pointer,
      _if_full_delete_once_value, hp, hnf, h1]

/-- Effect of `push_back_force` on a full buffer: the front element is evicted (and deleted
when `T` is a pointer), then the value is appended. -/
theorem push_back_force_full [Add T] [Sub T] (c : TemplateArgs) (s : ringbuffer T)
    (v : T) (hinv : Inv c s) (hfull : s._size = c._Size) :
    ∃ x s1, push_back_force c s v = .ok s1 ∧ Inv c s1 ∧
      live c s1 = (live c s).tail ++ [v] ∧ (live c s).head? = some x ∧
      s1._size = s._size ∧
      s1.deleted = (if c.is_pointer then s.deleted ++ [x] else s.deleted) ∧
      s1._sum = (if c.sum_en then s._sum - x + v else s._sum) := by
  have hN : 0 < c._Size := by have := hinv.2.1; omega
  obtain ⟨x, s0, h1, hinv0, hlive0, hsz0, hdel0, hsum0, -⟩ :=
    incr_front_spec c s hinv (by omega)
  have hf : full c s = true := by simp [full, capacity, hfull]
  cases hp : c.is_pointer
  · -- non-pointer overload
    have hinv0v : Inv c { s0 with _sum := if c.sum_en then s0._sum - x else s0._sum } := hinv0
    obtain ⟨s1, h3, hinv1, hlive1, hsz1, hdel1, hsum1⟩ :=
      incr_back_spec c { s0 with _sum := if c.sum_en then s0._sum - x else s0._sum } v hinv0v
        (by show s0._size < c._Size; omega)
    refine ⟨x, s1, ?_, hinv1, ?_, ?_, ?_, ?_, ?_⟩
    · simp [push_back_force, _if_full_delete_once, _if_full_delete_once_value, hp, hf, h1, h3]
    · rw [hlive1, hlive0]; rfl
    · rw [hlive0]; rfl
    · rw [hsz1]; exact hsz0
    · rw [hdel1]; simpa using hdel0
    · rw [hsum1]
      show (if c.sum_en then (if c.sum_en then s0._sum - x else s0._sum) + v
        else (if c.sum_en then s0._sum - x else s0._sum)) = _
      cases c.sum_en <;> simp [hsum0]
  · -- pointer overload
    have hinv0p : Inv c { s0 with deleted := s0.deleted ++ [x] } := hinv0
    have hse : c.sum_en = false := by simp [TemplateArgs.sum_en, hp]
    obtain ⟨s1, h3, hinv1, hlive1, hsz1, hdel1, hsum1⟩ :=
      incr_back_spec c { s0 with deleted := s0.deleted ++ [x] } v hinv0p
        (by show s0._size < c._Size; omega)
    refine ⟨x, s1, ?_, hinv1, ?_, ?_, ?_, ?_, ?_⟩
    · simp [push_back_force, _if_full_delete_once, _if_full_delete_once_pointer, hp, hf, h1, h3]
    · rw [hlive1, hlive0]; rfl
    · rw [hlive0]; rfl
    · rw [hsz1]; exact hsz0
    · rw [hdel1]; simp [hdel0]
    · rw [hsum1, hse]; simpa using hsum0

/-- Pushing a list that fits: every `push_back` succeeds and the list is appended
to the held elements. -/
theorem push_back_all_spec [Add T] (c : TemplateArgs) (xs : List T) :
    ∀ s : ringbuffer T, Inv c s → s._size + xs.length ≤ c._Size →
      ∃ s1, push_back_all c s xs = .ok (List.replicate xs.length true, s1) ∧ Inv c s1 ∧
        live c s1 = live c s ++ xs ∧ s1._size = s._size + xs.length ∧
        s1.deleted = s.deleted := by
  induction xs with
  | nil =>
    intro s hinv _
    exact ⟨s, rfl, hinv, by simp, rfl, rfl⟩
  | cons v vs ih =>
    intro s hinv hle
    simp only [List.length_cons] at hle
    obtain ⟨s1, h1, hinv1, hlive1, hsz1, hdel1, -⟩ := push_back_spec c s v hinv (by omega)
    obtain ⟨s2, h2, hinv2, hlive2, hsz2, hdel2⟩ := ih s1 hinv1 (by omega)
    refine ⟨s2, ?_, hinv2, ?_, ?_, ?_⟩
    · simp [push_back_all, h1, h2, List.replicate_succ]
    · rw [hlive2, hlive1]; simp
    · rw [hsz2, hsz1, List.length_cons]; omega
    · rw [hdel2, hdel1]

/-- Pulling `n` of the held elements: every `pull_front` succeeds and the values
come out front first. -/
theorem pull_front_n_spec (c : TemplateArgs) (n : Nat) :
    ∀ (s : ringbuffer T) (item : T), Inv c s → n ≤ s._size →
      ∃ item1 s1, pull_front_n c n s item
          = .ok (((live c s).take n).map (fun x => (true, x)), item1, s1) ∧
        Inv c s1 ∧ live c s1 = (live c s).drop n ∧ s1._size + n = s._size ∧
        s1.deleted = s.deleted := by
  induction n with
  | zero =>
    intro s item hinv _
    exact ⟨item, s, by simp [pull_front_n], hinv, by simp, rfl, rfl⟩
  | succ n ih =>
    intro s item hinv hle
    obtain ⟨x, s1, h1, hinv1, hlive1, hsz1, hdel1, -, -⟩ :=
      pull_front_spec c s item hinv (by omega)
    obtain ⟨item2, s2, h2, hinv2, hlive2, hsz2, hdel2⟩ := ih s1 x hinv1 (by omega)
    refine ⟨item2, s2, ?_, hinv2, ?_, by omega, ?_⟩
    · simp [pull_front_n, h1, h2, hlive1]
    · rw [hlive2, hlive1]; simp
    · rw [hdel2, hdel1]

/-- Forced pushes of a list: the buffer keeps the last `_Size` of the elements it
held or was given, and a pointer buffer deletes exactly the others, oldest first. -/
theorem push_back_force_all_spec [Add T] [Sub T] (c : TemplateArgs) (xs : List T) :
    ∀ s : ringbuffer T, Inv c s →
      ∃ s1, push_back_force_all c s xs = .ok s1 ∧ Inv c s1 ∧
        live c s1 = (live c s ++ xs).drop (s._size + xs.length - c._Size) ∧
        s1._size = min (s._size + xs.length) c._Size ∧
        s1.deleted = s.deleted ++
          (if c.is_pointer then (live c s ++ xs).take (s._size + xs.length - c._Size)
            else []) := by
  induction xs with
  | nil =>
    intro s hinv
    have hsz := hinv.2.2.1
    have h0 : s._size - c._Size = 0 := by omega
    refine ⟨s, rfl, hinv, ?_, ?_, ?_⟩
    · simp [h0]
    · simp; omega
    · simp [h0]
  | cons v vs ih =>
    intro s hinv
    have hsz := hinv.2.2.1
    have hlen := live_length c s hinv
    by_cases hfull : s._size = c._Size
    · obtain ⟨x, s1, h1, hinv1, hlive1, hhead, hsz1, hdel1, -⟩ :=
        push_back_force_full c s v hinv hfull
      obtain ⟨s2, h2, hinv2, hlive2, hsz2, hdel2⟩ := ih s1 hinv1
      obtain ⟨rest, hrest⟩ : ∃ rest, live c s = x :: rest := by
        cases hl : live c s with
        | nil => rw [hl] at hhead; simp at hhead
        | cons y ys => rw [hl] at hhead; simp at hhead; exact ⟨ys, by rw [hhead]⟩
      have hrl : rest.length + 1 = c._Size := by
        rw [hrest] at hlen; simp at hlen; omega
      have e1 : s1._size + vs.length - c._Size = vs.length := by omega
      have e2 : s._size + (v :: vs).length - c._Size = vs.length + 1 := by
        simp only [List.length_cons]; omega
      refine ⟨s2, ?_, hinv2, ?_, ?_, ?_⟩
      · simp [push_back_force_all, h1, h2]
      · rw [hlive2, hlive1, e1, e2, hrest]; simp
      · rw [hsz2, hsz1]; simp only [List.length_cons]; omega
      · rw [hdel2, hdel1, hlive1, e1, e2, hrest]
        cases c.is_pointer <;> simp
    · obtain ⟨s1, h1, hinv1, hlive1, hsz1, hdel1, -⟩ :=
        push_back_force_not_full c s v hinv (by omega)
      obtain ⟨s2, h2, hinv2, hlive2, hsz2, hdel2⟩ := ih s1 hinv1
      have e1 : s1._size + vs.length - c._Size = s._size + (v :: vs).length - c._Size := by
        simp only [List.length_cons]; omega
      refine ⟨s2, ?_, hinv2, ?_, ?_, ?_⟩
      · simp [push_back_force_all, h1, h2]
      · rw [hlive2, hlive1, e1]; simp
      · rw [hsz2, hsz1]; simp only [List.length_cons]; omega
      · rw [hdel2, hdel1, hlive1, e1]; simp

end ringbuffer

/-! ## Sequential ring buffer: FIFO order and forced pushes -/

/-- C1: starting from an empty ring buffer of capacity `_Size ≥ 1`, pushing a list
`xs` of at most `_Size` elements with `push_back` succeeds every time, the next
`xs.length` calls of `pull_front` succeed and deliver exactly `xs` in push order,
and one more `pull_front` returns false. -/
theorem ringbuffer_fifo_push_then_pull {T : Type} [Add T] (c : TemplateArgs)
    (s : ringbuffer T) (xs : List T) (item : T)
    (_hN : 1 ≤ c._Size) (hinv : ringbuffer.Inv c s) (hempty : s._size = 0)
    (hk : xs.length ≤ c._Size) :
    ∃ s1 item1 s2,
      ringbuffer.push_back_all c s xs = .ok (List.replicate xs.length true, s1) ∧
      ringbuffer.pull_front_n c xs.length s1 item
        = .ok (xs.map (fun x => (true, x)), item1, s2) ∧
      ringbuffer.pull_front c s2 item1 = .ok (false, item1, s2) := by
  obtain ⟨s1, h1, hinv1, hlive1, hsz1, -⟩ :=
    ringbuffer.push_back_all_spec c xs s hinv (by omega)
  obtain ⟨item1, s2, h2, -, -, hsz2, -⟩ :=
    ringbuffer.pull_front_n_spec c xs.length s1 item hinv1 (by omega)
  rw [hlive1, ringbuffer.live_of_size_zero c s hempty] at h2
  simp only [List.nil_append, List.take_length] at h2
  exact ⟨s1, item1, s2, h1, h2, ringbuffer.pull_front_empty c s2 item1 (by omega)⟩

/-- C1 at capacity 3 with the pushes 5, 6, 7 into a fresh buffer. -/
theorem ringbuffer_fifo_push_then_pull_witness :
    1 ≤ (TemplateArgs.mk 3 false false)._Size ∧
    ringbuffer.Inv (TemplateArgs.mk 3 false false) (ringbuffer.init [0, 0, 0] (0 : Nat)) ∧
    (ringbuffer.init [0, 0, 0] (0 : Nat))._size = 0 ∧
    [5, 6, 7].length ≤ (TemplateArgs.mk 3 false false)._Size ∧
    ∃ s1 item1 s2,
      ringbuffer.push_back_all (TemplateArgs.mk 3 false false)
          (ringbuffer.init [0, 0, 0] (0 : Nat)) [5, 6, 7]
        = .ok (List.replicate [5, 6, 7].length true, s1) ∧
      ringbuffer.pull_front_n (TemplateArgs.mk 3 false false) [5, 6, 7].length s1 0
        = .ok ([5, 6, 7].map (fun x => (true, x)), item1, s2) ∧
      ringbuffer.pull_front (TemplateArgs.mk 3 false false) s2 item1
        = .ok (false, item1, s2) :=
  ⟨by decide, by decide, rfl, by decide,
    ringbuffer_fifo_push_then_pull (TemplateArgs.mk 3 false false)
      (ringbuffer.init [0, 0, 0] (0 : Nat)) [5, 6, 7] 0 (by decide) (by decide) rfl
      (by decide)⟩

/-- C2: after `push_back_force` has been called with each element of `xs` on an
initially empty ring buffer of capacity `_Size ≥ 1`, the held elements, front to
back, are the last `min xs.length _Size` elements of `xs` in push order; when `T`
is a pointer the calls have deleted exactly the first `xs.length - _Size` elements
of `xs`, each once and in push order, and nothing else; and if `xs` is not empty
the next `pull_front` returns the oldest element still held. -/
theorem ringbuffer_push_back_force_keeps_last {T : Type} [Add T] [Sub T]
    (c : TemplateArgs) (s : ringbuffer T) (xs : List T) (item : T)
    (hN : 1 ≤ c._Size) (hinv : ringbuffer.Inv c s) (hempty : s._size = 0) :
    ∃ s1, ringbuffer.push_back_force_all c s xs = .ok s1 ∧
      ringbuffer.live c s1 = xs.drop (xs.length - c._Size) ∧
      (ringbuffer.live c s1).length = min xs.length c._Size ∧
      ringbuffer.size s1 = min xs.length c._Size ∧
      (c.is_pointer = true → s1.deleted = s.deleted ++ xs.take (xs.length - c._Size)) ∧
      (c.is_pointer = false → s1.deleted = s.deleted) ∧
      (xs ≠ [] → ∃ x s2, ringbuffer.pull_front c s1 item = .ok (true, x, s2) ∧
        (xs.drop (xs.length - c._Size)).head? = some x ∧
        ringbuffer.live c s2 = (xs.drop (xs.length - c._Size)).tail) := by
  obtain ⟨s1, h1, hinv1, hlive1, hsz1, hdel1⟩ :=
    ringbuffer.push_back_force_all_spec c xs s hinv
  rw [ringbuffer.live_of_size_zero c s hempty, hempty] at hlive1 hdel1
  rw [hempty] at hsz1
  simp only [List.nil_append, Nat.zero_add] at hlive1 hdel1 hsz1
  have hlen := ringbuffer.live_length c s1 hinv1
  refine ⟨s1, h1, hlive1, by rw [hlen, hsz1], hsz1, ?_, ?_, ?_⟩
  · intro hp; rw [hdel1, hp]; simp
  · intro hp; rw [hdel1, hp]; simp
  · intro hne
    have hpos : 0 < s1._size := by
      rw [hsz1]
      have : 0 < xs.length := List.length_pos.mpr hne
      omega
    obtain ⟨x, s2, h2, -, hl2, -⟩ := ringbuffer.pull_front_spec c s1 item hinv1 hpos
    rw [hlive1] at hl2
    exact ⟨x, s2, h2, by rw [hl2]; rfl, by rw [hl2]; rfl⟩

/-- C2 on the scenario of capacity 4: forced pushes of 1, 2, 3, 4, 5 into a fresh
pointer buffer leave 2, 3, 4, 5, delete 1, and the next `pull_front` returns 2. -/
theorem ringbuffer_push_back_force_keeps_last_witness :
    1 ≤ (TemplateArgs.mk 4 true false)._Size ∧
    ringbuffer.Inv (TemplateArgs.mk 4 true false) (ringbuffer.init [0, 0, 0, 0] (0 : Nat)) ∧
    (ringbuffer.init [0, 0, 0, 0] (0 : Nat))._size = 0 ∧
    ∃ s1, ringbuffer.push_back_force_all (TemplateArgs.mk 4 true false)
          (ringbuffer.init [0, 0, 0, 0] (0 : Nat)) [1, 2, 3, 4, 5] = .ok s1 ∧
      ringbuffer.live (TemplateArgs.mk 4 true false) s1 = [2, 3, 4, 5] ∧
      ringbuffer.size s1 = 4 ∧
      s1.deleted = [1] ∧
      ∃ s2, ringbuffer.pull_front (TemplateArgs.mk 4 true false) s1 0 = .ok (true, 2, s2) ∧
        ringbuffer.live (TemplateArgs.mk 4 true false) s2 = [3, 4, 5] := by
  refine ⟨by decide, by decide, rfl, ?_⟩
  obtain ⟨s1, h1, h2, -, h4, h5, -, h7⟩ :=
    ringbuffer_push_back_force_keeps_last (TemplateArgs.mk 4 true false)
      (ringbuffer.init [0, 0, 0, 0] (0 : Nat)) [1, 2, 3, 4, 5] 0 (by decide) (by decide) rfl
  obtain ⟨x, s2, h8, h9, h10⟩ := h7 (by decide)
  have hx : x = 2 := by
    have : some 2 = some x := h9
    exact (Option.some.inj this).symm
  subst hx
  exact ⟨s1, h1, h2, h4, h5 rfl, s2, h8, h10⟩

/-- Scenario A of the specification, call by call, on a fresh
`ringbuffer<int, 4>`: four accepted pushes, a rejected fifth that changes nothing,
a forced push of 5 that leaves 2, 3, 4, 5, and a pull that returns 2. -/
theorem ringbuffer_scenario_A :
    ringbuffer.push_back_all (TemplateArgs.mk 4 false false)
        (ringbuffer.init [0, 0, 0, 0] (0 : Int)) [1, 2, 3, 4]
      = .ok ([true, true, true, true], ⟨[1, 2, 3, 4], 0, 0, 4, 0, []⟩) ∧
    ringbuffer.push_back (TemplateArgs.mk 4 false false) ⟨[1, 2, 3, 4], 0, 0, 4, (0 : Int), []⟩ 5
      = .ok (false, ⟨[1, 2, 3, 4], 0, 0, 4, 0, []⟩) ∧
    ringbuffer.push_back_force (TemplateArgs.mk 4 false false)
        ⟨[1, 2, 3, 4], 0, 0, 4, (0 : Int), []⟩ 5
      = .ok ⟨[5, 2, 3, 4], 1, 1, 4, 0, []⟩ ∧
    ringbuffer.live (TemplateArgs.mk 4 false false) ⟨[5, 2, 3, 4], 1, 1, 4, (0 : Int), []⟩
      = [2, 3, 4, 5] ∧
    ringbuffer.pull_front (TemplateArgs.mk 4 false false)
        ⟨[5, 2, 3, 4], 1, 1, 4, (0 : Int), []⟩ 0
      = .ok (true, 2, ⟨[5, 2, 3, 4], 1, 2, 3, 0, []⟩) := by
  decide

/-! ## Running sum, `fill`, and forced pushes at capacity zero -/

/-- C3: with sum tracking enabled, `pull_front` leaves `_sum` as it was.  On a
cleared `ringbuffer<int, 2, true>`, `push_back(5)` followed by a successful
`pull_front` that returns 5 gives an empty buffer whose `sum()` is still 5; and
`fill(7)` on the cleared buffer gives `sum()` = 14 while no element is held. -/
theorem ringbuffer_sum_not_updated_by_pull_front :
    ringbuffer.push_back (TemplateArgs.mk 2 false true)
        (ringbuffer.clear (TemplateArgs.mk 2 false true) (ringbuffer.init [0, 0] (0 : Int))) 5
      = .ok (true, ⟨[5, 0], 1, 0, 1, 5, []⟩) ∧
    ringbuffer.pull_front (TemplateArgs.mk 2 false true) ⟨[5, 0], 1, 0, 1, (5 : Int), []⟩ 0
      = .ok (true, 5, ⟨[5, 0], 1, 1, 0, 5, []⟩) ∧
    ringbuffer.sum (⟨[5, 0], 1, 1, 0, 5, []⟩ : ringbuffer Int) = 5 ∧
    ringbuffer.live (TemplateArgs.mk 2 false true) ⟨[5, 0], 1, 1, 0, (5 : Int), []⟩ = [] ∧
    ringbuffer.sum (ringbuffer.fill (TemplateArgs.mk 2 false true)
        (ringbuffer.clear (TemplateArgs.mk 2 false true) (ringbuffer.init [0, 0] (0 : Int))) 7)
      = 14 ∧
    ringbuffer.live (TemplateArgs.mk 2 false true)
        (ringbuffer.fill (TemplateArgs.mk 2 false true)
          (ringbuffer.clear (TemplateArgs.mk 2 false true) (ringbuffer.init [0, 0] (0 : Int))) 7)
      = [] := by
  decide

/-- What `fill` does in both classes: every slot of the array becomes `_Val`, the
cursors, `_size` and the deletion trace stay, and `_sum` becomes `_Val * _Size`
when sum tracking is enabled. -/
theorem ringbuffer.fill_spec {T : Type} [Mul T] [NatCast T] (c : TemplateArgs)
    (s : ringbuffer T) (v : T) :
    (ringbuffer.fill c s v).arr = List.replicate s.arr.length v ∧
    (ringbuffer.fill c s v)._size = s._size ∧
    (ringbuffer.fill c s v).front_it = s.front_it ∧
    (ringbuffer.fill c s v).back_it = s.back_it ∧
    (ringbuffer.fill c s v).deleted = s.deleted ∧
    (c.sum_en = true → ringbuffer.sum (ringbuffer.fill c s v) = v * (c._Size : T)) := by
  refine ⟨?_, rfl, rfl, rfl, rfl, ?_⟩
  · show s.arr.map (fun _ => v) = _
    exact List.map_const' s.arr v
  · intro h
    simp [ringbuffer.fill, ringbuffer.sum, h]

/-- C4: `fill` does not touch `_size`.  On a cleared `ringbuffer<int, 4, true>`,
`fill(7)` sets the four slots to 7 and `sum()` to 28, but `size()` is 0 and
`full()` is false; `safe_ringbuffer::fill` leaves `size()` at 0 as well. -/
theorem ringbuffer_fill_leaves_size :
    (ringbuffer.fill (TemplateArgs.mk 4 false true)
      (ringbuffer.clear (TemplateArgs.mk 4 false true)
        (ringbuffer.init [0, 0, 0, 0] (0 : Int))) 7)
      = ⟨[7, 7, 7, 7], 0, 0, 0, 28, []⟩ ∧
    ringbuffer.size (⟨[7, 7, 7, 7], 0, 0, 0, 28, []⟩ : ringbuffer Int) = 0 ∧
    ringbuffer.full (TemplateArgs.mk 4 false true)
      (⟨[7, 7, 7, 7], 0, 0, 0, 28, []⟩ : ringbuffer Int) = false ∧
    ringbuffer.sum (⟨[7, 7, 7, 7], 0, 0, 0, 28, []⟩ : ringbuffer Int) = 28 ∧
    safe_ringbuffer.size
      (safe_ringbuffer.fill (safe_ringbuffer.init [0, 0, 0, 0]) (7 : Int)) = 0 ∧
    safe_ringbuffer.full (TemplateArgs.mk 4 false false)
      (safe_ringbuffer.fill (safe_ringbuffer.init [0, 0, 0, 0]) (7 : Int)) = false := by
  decide

/-- For a capacity of at least one (which the invariant implies),
`push_back_force` returns without a fault, keeps the invariant and leaves
`min (_size + 1) _Size` elements. -/
theorem ringbuffer.push_back_force_total {T : Type} [Add T] [Sub T] (c : TemplateArgs)
    (s : ringbuffer T) (v : T) (hinv : ringbuffer.Inv c s) :
    ∃ s1, ringbuffer.push_back_force c s v = .ok s1 ∧ ringbuffer.Inv c s1 ∧
      s1._size = min (s._size + 1) c._Size := by
  have hsz := hinv.2.2.1
  by_cases hfull : s._size = c._Size
  · obtain ⟨x, s1, h1, hinv1, -, -, hsz1, -⟩ := ringbuffer.push_back_force_full c s v hinv hfull
    exact ⟨s1, h1, hinv1, by omega⟩
  · obtain ⟨s1, h1, hinv1, -, hsz1, -⟩ :=
      ringbuffer.push_back_force_not_full c s v hinv (by omega)
    exact ⟨s1, h1, hinv1, by omega⟩

/-- C5: on a freshly constructed ring buffer of capacity 0, `push_back_force`
finds the buffer full, calls `incr_front` and trips the assertion
"ringbuffer underrun"; this holds for the pointer and the non-pointer
specialisation and for `safe_ringbuffer`. -/
theorem ringbuffer_push_back_force_zero_capacity_underrun :
    ringbuffer.push_back_force (TemplateArgs.mk 0 false false) (ringbuffer.init [] (0 : Int)) 7
      = .error Fault.underrun ∧
    ringbuffer.push_back_force (TemplateArgs.mk 0 true false) (ringbuffer.init [] (0 : Int)) 7
      = .error Fault.underrun ∧
    safe_ringbuffer.push_back_force (TemplateArgs.mk 0 false false)
        (safe_ringbuffer.init ([] : List Int)) 7
      = .error Fault.underrun := by
  decide

/-! ## Rejected calls: full `push_back`, empty `pull_front` -/

/-- C6: on a full ring buffer (`_size` = capacity) `push_back` returns false and
the state (array, both cursors, `_size`, `_sum`) is returned as it was; the same
for `safe_ringbuffer::push_back`. -/
theorem push_back_on_full_rejected {T : Type} [Add T] (c : TemplateArgs)
    (s : ringbuffer T) (ss : safe_ringbuffer T) (v : T)
    (hfull : s._size = c._Size) (hsfull : ss._size = c._Size) :
    ringbuffer.push_back c s v = .ok (false, s) ∧
    safe_ringbuffer.push_back c ss v = .ok (false, ss) := by
  constructor
  · simp [ringbuffer.push_back, ringbuffer.full, ringbuffer.capacity, hfull]
  · simp [safe_ringbuffer.push_back, safe_ringbuffer._full, safe_ringbuffer.capacity, hsfull]

/-- C6 on full buffers of capacity 2. -/
theorem push_back_on_full_rejected_witness :
    (⟨[1, 2], 0, 0, 2, 3, []⟩ : ringbuffer Int)._size = (TemplateArgs.mk 2 false true)._Size ∧
    (⟨[1, 2], 1, 1, 2, []⟩ : safe_ringbuffer Int)._size
      = (TemplateArgs.mk 2 false true)._Size ∧
    ringbuffer.push_back (TemplateArgs.mk 2 false true) ⟨[1, 2], 0, 0, 2, (3 : Int), []⟩ 9
      = .ok (false, ⟨[1, 2], 0, 0, 2, 3, []⟩) ∧
    safe_ringbuffer.push_back (TemplateArgs.mk 2 false true) ⟨[1, 2], 1, 1, 2, []⟩ (9 : Int)
      = .ok (false, ⟨[1, 2], 1, 1, 2, []⟩) :=
  ⟨rfl, rfl,
    push_back_on_full_rejected (TemplateArgs.mk 2 false true)
      ⟨[1, 2], 0, 0, 2, (3 : Int), []⟩ ⟨[1, 2], 1, 1, 2, []⟩ 9 rfl rfl⟩

/-- C7: on an empty `ringbuffer`, `safe_ringbuffer` or `safe_deque` the
non-blocking `pull_front(item)` returns false, gives back the container state as
it was and leaves `item` with the value it had. -/
theorem pull_front_on_empty_rejected {T : Type} (c : TemplateArgs)
    (s : ringbuffer T) (ss : safe_ringbuffer T) (d : safe_deque T) (item : T)
    (hs : s._size = 0) (hss : ss._size = 0) (hd : d.elems = []) :
    ringbuffer.pull_front c s item = .ok (false, item, s) ∧
    safe_ringbuffer.pull_front c ss item = .ok (false, item, ss) ∧
    safe_deque.pull_front d item = (false, item, d) := by
  refine ⟨?_, ?_, ?_⟩
  · simp [ringbuffer.pull_front, ringbuffer._empty, hs]
  · simp [safe_ringbuffer.pull_front, safe_ringbuffer._empty, hss]
  · simp [safe_deque.pull_front, hd]

/-- C7 on empty containers of capacity 2 with `item` = 9. -/
theorem pull_front_on_empty_rejected_witness :
    (⟨[1, 2], 1, 1, 0, 3, []⟩ : ringbuffer Int)._size = 0 ∧
    (⟨[1, 2], 1, 1, 0, []⟩ : safe_ringbuffer Int)._size = 0 ∧
    (⟨[]⟩ : safe_deque Int).elems = [] ∧
    ringbuffer.pull_front (TemplateArgs.mk 2 false true) ⟨[1, 2], 1, 1, 0, (3 : Int), []⟩ 9
      = .ok (false, 9, ⟨[1, 2], 1, 1, 0, 3, []⟩) ∧
    safe_ringbuffer.pull_front (TemplateArgs.mk 2 false true) ⟨[1, 2], 1, 1, 0, []⟩ (9 : Int)
      = .ok (false, 9, ⟨[1, 2], 1, 1, 0, []⟩) ∧
    safe_deque.pull_front (⟨[]⟩ : safe_deque Int) 9 = (false, 9, ⟨[]⟩) :=
  ⟨rfl, rfl, rfl,
    pull_front_on_empty_rejected (TemplateArgs.mk 2 false true)
      ⟨[1, 2], 1, 1, 0, (3 : Int), []⟩ ⟨[1, 2], 1, 1, 0, []⟩ ⟨[]⟩ 9 rfl rfl rfl⟩

/-! ## Blocking pulls -/

/-- A `safe_ringbuffer::pull_front_wait` that finds the buffer non-empty never
returns false. -/
theorem safe_ringbuffer.pull_front_wait_nonempty {T : Type} (c : TemplateArgs)
    (wakes : List (WakeUp (safe_ringbuffer T))) (s : safe_ringbuffer T) (item : T)
    (hne : safe_ringbuffer._empty s = false) (item1 : T) (s1 : safe_ringbuffer T) :
    safe_ringbuffer.pull_front_wait c wakes s item ≠ .returned (false, item1, s1) := by
  unfold safe_ringbuffer.pull_front_wait
  rw [hne]
  cases h : safe_ringbuffer.incr_front c s with
  | error e => simp
  | ok r => simp

/-- Once its local variable `empty` is false, the loop of
`safe_deque::pull_front_wait` never returns false. -/
theorem safe_deque.pull_front_wait_loop_nonempty {T : Type}
    (wakes : List (WakeUp (safe_deque T))) (s : safe_deque T) (item : T)
    (item1 : T) (s1 : safe_deque T) :
    safe_deque.pull_front_wait_loop wakes false s item ≠ .returned (false, item1, s1) := by
  unfold safe_deque.pull_front_wait_loop
  cases s.elems <;> simp

/-- C8, as the code has it: both untimed `pull_front_wait` functions return false
exactly when the container is empty on entry and the first wake-up, whatever its
cause, finds it empty; `item` is then left as it was, the state is the one found
on wake-up, and no later wake-up is waited for.  With no wake-up the call on an
empty container stays suspended. -/
theorem pull_front_wait_false_iff_first_wake_empty {T : Type} (c : TemplateArgs)
    (rwakes : List (WakeUp (safe_ringbuffer T))) (rs rs1 : safe_ringbuffer T)
    (dwakes : List (WakeUp (safe_deque T))) (ds ds1 : safe_deque T) (item item1 : T) :
    (safe_ringbuffer.pull_front_wait c rwakes rs item = .returned (false, item1, rs1) ↔
      rs._size = 0 ∧ item1 = item ∧
        ∃ w rest, rwakes = w :: rest ∧ w.state._size = 0 ∧ rs1 = w.state) ∧
    (safe_deque.pull_front_wait dwakes ds item = .returned (false, item1, ds1) ↔
      ds.elems = [] ∧ item1 = item ∧
        ∃ w rest, dwakes = w :: rest ∧ w.state.elems = [] ∧ ds1 = w.state) ∧
    (rs._size = 0 → safe_ringbuffer.pull_front_wait c [] rs item = .waiting) ∧
    (ds.elems = [] → safe_deque.pull_front_wait [] ds item = .waiting) := by
  refine ⟨?_, ?_, ?_, ?_⟩
  · constructor
    · intro h
      by_cases he : safe_ringbuffer._empty rs = true
      · have hsz : rs._size = 0 := by simpa [safe_ringbuffer._empty] using he
        cases rwakes with
        | nil => simp [safe_ringbuffer.pull_front_wait, he] at h
        | cons w rest =>
          by_cases hw : safe_ringbuffer._empty w.state = true
          · simp [safe_ringbuffer.pull_front_wait, he, hw] at h
            exact ⟨hsz, h.1.symm, w, rest, rfl,
              by simpa [safe_ringbuffer._empty] using hw, h.2.symm⟩
          · have hw1 : safe_ringbuffer._empty w.state = false := by simpa using hw
            rw [safe_ringbuffer.pull_front_wait] at h
            simp only [he, hw1, if_true] at h
            exact absurd h
              (safe_ringbuffer.pull_front_wait_nonempty c rest w.state item hw1 item1 rs1)
      · have he1 : safe_ringbuffer._empty rs = false := by simpa using he
        exact absurd h
          (safe_ringbuffer.pull_front_wait_nonempty c rwakes rs item he1 item1 rs1)
    · rintro ⟨hsz, hitem, w, rest, rfl, hw, rfl⟩
      subst hitem
      simp [safe_ringbuffer.pull_front_wait, safe_ringbuffer._empty, hsz, hw]
  · constructor
    · intro h
      cases hds : ds.elems with
      | nil =>
        cases dwakes with
        | nil =>
          simp [safe_deque.pull_front_wait, safe_deque.pull_front_wait_loop, hds] at h
        | cons w rest =>
          cases hw : w.state.elems with
          | nil =>
            simp [safe_deque.pull_front_wait, safe_deque.pull_front_wait_loop, hds, hw] at h
            exact ⟨rfl, h.1.symm, w, rest, rfl, hw, h.2.symm⟩
          | cons y ys =>
            simp [safe_deque.pull_front_wait, safe_deque.pull_front_wait_loop, hds, hw] at h
            exact absurd h
              (safe_deque.pull_front_wait_loop_nonempty rest w.state item item1 ds1)
      | cons y ys =>
        simp [safe_deque.pull_front_wait, safe_deque.pull_front_wait_loop, hds] at h
        exact absurd h (safe_deque.pull_front_wait_loop_nonempty dwakes ds item item1 ds1)
    · rintro ⟨hds, hitem, w, rest, rfl, hw, rfl⟩
      subst hitem
      simp [safe_deque.pull_front_wait, safe_deque.pull_front_wait_loop, hds, hw]
  · intro hsz
    simp [safe_ringbuffer.pull_front_wait, safe_ringbuffer._empty, hsz]
  · intro hds
    simp [safe_deque.pull_front_wait, safe_deque.pull_front_wait_loop, hds]

/-- C8 on a wake-up by a `notify_one()` whose element another consumer has taken:
the call returns false. -/
theorem pull_front_wait_false_iff_first_wake_empty_witness :
    safe_ringbuffer.pull_front_wait (TemplateArgs.mk 2 false false)
        [⟨WakeCause.notify, 0, ⟨[5, 0], 1, 1, 0, []⟩⟩] ⟨[0, 0], 0, 0, 0, []⟩ (9 : Nat)
      = .returned (false, 9, ⟨[5, 0], 1, 1, 0, []⟩) ∧
    safe_deque.pull_front_wait [⟨WakeCause.notify, 0, ⟨[]⟩⟩] ⟨[]⟩ (9 : Nat)
      = .returned (false, 9, ⟨[]⟩) :=
  ⟨(pull_front_wait_false_iff_first_wake_empty (TemplateArgs.mk 2 false false)
      [⟨WakeCause.notify, 0, ⟨[5, 0], 1, 1, 0, []⟩⟩] ⟨[0, 0], 0, 0, 0, []⟩
      ⟨[5, 0], 1, 1, 0, []⟩ [] ⟨[]⟩ ⟨[]⟩ 9 9).1.mpr
      ⟨rfl, rfl, _, _, rfl, rfl, rfl⟩,
   (pull_front_wait_false_iff_first_wake_empty (TemplateArgs.mk 2 false false)
      [] ⟨[0, 0], 0, 0, 0, []⟩ ⟨[0, 0], 0, 0, 0, []⟩
      [⟨WakeCause.notify, 0, ⟨[]⟩⟩] ⟨[]⟩ ⟨[]⟩ 9 9).2.1.mpr
      ⟨rfl, rfl, _, _, rfl, rfl, rfl⟩⟩

/-- C8 fails as stated: a single spurious wake-up that finds the container empty
makes `pull_front_wait` return false, for `safe_ringbuffer` and for `safe_deque`,
although no wake-up came from `wait_break`; the call does not go back to
waiting. -/
theorem pull_front_wait_spurious_wake_returns_false :
    safe_ringbuffer.pull_front_wait (TemplateArgs.mk 2 false false)
        [⟨WakeCause.spurious, 0, ⟨[0, 0], 0, 0, 0, []⟩⟩] ⟨[0, 0], 0, 0, 0, []⟩ (9 : Nat)
      = .returned (false, 9, ⟨[0, 0], 0, 0, 0, []⟩) ∧
    safe_deque.pull_front_wait [⟨WakeCause.spurious, 0, ⟨[]⟩⟩] ⟨[]⟩ (9 : Nat)
      = .returned (false, 9, ⟨[]⟩) ∧
    WakeCause.spurious ≠ WakeCause.wait_break ∧
    ¬ (∀ (wakes : List (WakeUp (safe_deque Nat))) (s s1 : safe_deque Nat) (item item1 : Nat),
        safe_deque.pull_front_wait wakes s item = .returned (false, item1, s1) →
          ∃ w ∈ wakes, w.cause = WakeCause.wait_break) ∧
    ¬ (∀ (wakes : List (WakeUp (safe_ringbuffer Nat))) (s s1 : safe_ringbuffer Nat)
        (item item1 : Nat),
        safe_ringbuffer.pull_front_wait (TemplateArgs.mk 2 false false) wakes s item
            = .returned (false, item1, s1) →
          ∃ w ∈ wakes, w.cause = WakeCause.wait_break) := by
  refine ⟨by decide, by decide, by decide, ?_, ?_⟩
  · intro h
    obtain ⟨w, hw, hc⟩ := h [⟨WakeCause.spurious, 0, ⟨[]⟩⟩] ⟨[]⟩ ⟨[]⟩ 9 9 (by decide)
    simp at hw
    subst hw
    simp at hc
  · intro h
    obtain ⟨w, hw, hc⟩ := h [⟨WakeCause.spurious, 0, ⟨[0, 0], 0, 0, 0, []⟩⟩]
      ⟨[0, 0], 0, 0, 0, []⟩ ⟨[0, 0], 0, 0, 0, []⟩ 9 9 (by decide)
    simp at hw
    subst hw
    simp at hc

/-- C9, as the code has it: both timed `pull_front_wait` functions return false
exactly when the container is empty on entry and is empty again when
`wait_for` returns; `item` then keeps its value and the call leaves the state as
it found it on wake-up (for the deque: empty, as on entry).  Neither the cause of
the wake-up nor the time spent waiting enters the result.  With `wait_for` not
yet returned the call on an empty container is suspended. -/
theorem pull_front_wait_for_false_iff_wake_empty {T : Type} (c : TemplateArgs)
    (rel_time : Nat)
    (rwakes : List (WakeUp (safe_ringbuffer T))) (rs rs1 : safe_ringbuffer T)
    (dwakes : List (WakeUp (safe_deque T))) (ds ds1 : safe_deque T) (item item1 : T) :
    (safe_ringbuffer.pull_front_wait_for c rel_time rwakes rs item
        = .returned (false, item1, rs1) ↔
      rs._size = 0 ∧ item1 = item ∧
        ∃ w rest, rwakes = w :: rest ∧ w.state._size = 0 ∧ rs1 = w.state) ∧
    (safe_deque.pull_front_wait_for rel_time dwakes ds item = .returned (false, item1, ds1) ↔
      ds.elems = [] ∧ item1 = item ∧ ds1 = ds ∧
        ∃ w rest, dwakes = w :: rest ∧ w.state.elems = []) ∧
    (rs._size = 0 → safe_ringbuffer.pull_front_wait_for c rel_time [] rs item = .waiting) ∧
    (ds.elems = [] → safe_deque.pull_front_wait_for rel_time [] ds item = .waiting) := by
  refine ⟨?_, ?_, ?_, ?_⟩
  · constructor
    · intro h
      unfold safe_ringbuffer.pull_front_wait_for at h
      by_cases he : safe_ringbuffer._empty rs = true
      · have hsz : rs._size = 0 := by simpa [safe_ringbuffer._empty] using he
        cases rwakes with
        | nil => simp [he] at h
        | cons w rest =>
          by_cases hw : safe_ringbuffer._empty w.state = true
          · simp [he, hw] at h
            exact ⟨hsz, h.1.symm, w, rest, rfl,
              by simpa [safe_ringbuffer._empty] using hw, h.2.symm⟩
          · have hw1 : safe_ringbuffer._empty w.state = false := by simpa using hw
            simp only [he, hw1, if_true] at h
            cases hi : safe_ringbuffer.incr_front c w.state <;> simp [hi] at h
      · have he1 : safe_ringbuffer._empty rs = false := by simpa using he
        simp only [he1] at h
        cases hi : safe_ringbuffer.incr_front c rs <;> simp [hi] at h
    · rintro ⟨hsz, hitem, w, rest, rfl, hw, rfl⟩
      subst hitem
      simp [safe_ringbuffer.pull_front_wait_for, safe_ringbuffer._empty, hsz, hw]
  · constructor
    · intro h
      unfold safe_deque.pull_front_wait_for at h
      cases ds with
      | mk elems =>
        cases elems with
        | nil =>
          cases dwakes with
          | nil => simp at h
          | cons w rest =>
            cases hw : w.state.elems with
            | nil =>
              simp [hw] at h
              refine ⟨rfl, h.1.symm, ?_, w, rest, rfl, hw⟩
              rw [← h.2]
              cases hws : w.state with
              | mk e => rw [hws] at hw; simp at hw; rw [hw]
            | cons y ys => simp [hw] at h
        | cons y ys => simp at h
    · rintro ⟨hds, hitem, hds1, w, rest, rfl, hw⟩
      subst hitem
      subst hds1
      have hws : w.state = ds1 := by
        cases hs : w.state with
        | mk e =>
          cases ds1 with
          | mk e1 =>
            rw [hs] at hw
            simp at hw hds
            rw [hw, hds]
      simp [safe_deque.pull_front_wait_for, hds, hw, hws]
  · intro hsz
    simp [safe_ringbuffer.pull_front_wait_for, safe_ringbuffer._empty, hsz]
  · intro hds
    simp [safe_deque.pull_front_wait_for, hds]

/-- C9 on a timed wait of 100 ticks that times out on an empty container. -/
theorem pull_front_wait_for_false_iff_wake_empty_witness :
    safe_ringbuffer.pull_front_wait_for (TemplateArgs.mk 2 false false) 100
        [⟨WakeCause.timeout, 100, ⟨[0, 0], 0, 0, 0, []⟩⟩] ⟨[0, 0], 0, 0, 0, []⟩ (9 : Nat)
      = .returned (false, 9, ⟨[0, 0], 0, 0, 0, []⟩) ∧
    safe_deque.pull_front_wait_for 100 [⟨WakeCause.timeout, 100, ⟨[]⟩⟩] ⟨[]⟩ (9 : Nat)
      = .returned (false, 9, ⟨[]⟩) :=
  ⟨(pull_front_wait_for_false_iff_wake_empty (TemplateArgs.mk 2 false false) 100
      [⟨WakeCause.timeout, 100, ⟨[0, 0], 0, 0, 0, []⟩⟩] ⟨[0, 0], 0, 0, 0, []⟩
      ⟨[0, 0], 0, 0, 0, []⟩ [] ⟨[]⟩ ⟨[]⟩ 9 9).1.mpr
      ⟨rfl, rfl, _, _, rfl, rfl, rfl⟩,
   (pull_front_wait_for_false_iff_wake_empty (TemplateArgs.mk 2 false false) 100
      [] ⟨[0, 0], 0, 0, 0, []⟩ ⟨[0, 0], 0, 0, 0, []⟩
      [⟨WakeCause.timeout, 100, ⟨[]⟩⟩] ⟨[]⟩ ⟨[]⟩ 9 9).2.1.mpr
      ⟨rfl, rfl, rfl, _, _, rfl, rfl⟩⟩

/-- C9 fails as stated: with a relative time of 100 ticks, a wake-up by
`wait_break` after 10 ticks (or a spurious one) that finds the container empty
makes the timed `pull_front_wait` return false although the deadline has not
been reached. -/
theorem pull_front_wait_for_false_before_deadline :
    WakeUp.valid_for 100 (⟨WakeCause.wait_break, 10, ⟨[]⟩⟩ : WakeUp (safe_deque Nat)) ∧
    safe_deque.pull_front_wait_for 100 [⟨WakeCause.wait_break, 10, ⟨[]⟩⟩] ⟨[]⟩ (9 : Nat)
      = .returned (false, 9, ⟨[]⟩) ∧
    WakeUp.valid_for 100
      (⟨WakeCause.spurious, 10, ⟨[0, 0], 0, 0, 0, []⟩⟩ : WakeUp (safe_ringbuffer Nat)) ∧
    safe_ringbuffer.pull_front_wait_for (TemplateArgs.mk 2 false false) 100
        [⟨WakeCause.spurious, 10, ⟨[0, 0], 0, 0, 0, []⟩⟩] ⟨[0, 0], 0, 0, 0, []⟩ (9 : Nat)
      = .returned (false, 9, ⟨[0, 0], 0, 0, 0, []⟩) ∧
    ¬ (100 ≤ 10) ∧
    ¬ (∀ (rel_time : Nat) (w : WakeUp (safe_deque Nat)) (rest : List (WakeUp (safe_deque Nat)))
        (s s1 : safe_deque Nat) (item item1 : Nat), WakeUp.valid_for rel_time w →
        safe_deque.pull_front_wait_for rel_time (w :: rest) s item
            = .returned (false, item1, s1) →
          rel_time ≤ w.elapsed) := by
  refine ⟨by simp [WakeUp.valid_for], by decide, by simp [WakeUp.valid_for], by decide,
    by decide, ?_⟩
  intro h
  have h1 := h 100 ⟨WakeCause.wait_break, 10, ⟨[]⟩⟩ [] ⟨[]⟩ ⟨[]⟩ 9 9
    (by simp [WakeUp.valid_for]) (by decide)
  simp at h1

/-! ## Conservation of elements in a `safe_deque` -/

namespace safe_deque

variable {T : Type}

/-- A pull section either leaves the deque alone (suspended, or returned false)
or removes the front element and returns it. -/
theorem History.record_conserves (h : History T) (r : WaitResult (Bool × T × safe_deque T))
    (hr : r = .waiting ∨ (∃ i, r = .returned (false, i, h.state)) ∨
      ∃ x rest, h.state.elems = x :: rest ∧ r = .returned (true, x, { elems := rest }))
    (hc : (h.pulled ++ h.state.elems).Perm h.pushed) :
    ∃ h1, h.record r = .ok h1 ∧ (h1.pulled ++ h1.state.elems).Perm h1.pushed := by
  rcases hr with rfl | ⟨i, rfl⟩ | ⟨x, rest, hx, rfl⟩
  · exact ⟨h, rfl, hc⟩
  · exact ⟨{ h with state := h.state }, rfl, hc⟩
  · refine ⟨{ h with state := { elems := rest }, pulled := h.pulled ++ [x] }, rfl, ?_⟩
    show ((h.pulled ++ [x]) ++ rest).Perm h.pushed
    rw [hx] at hc
    simpa using hc

theorem pull_front_outcome (s : safe_deque T) (item : T) :
    (∃ i, pull_front s item = (false, i, s)) ∨
      ∃ x rest, s.elems = x :: rest ∧ pull_front s item = (true, x, { elems := rest }) := by
  cases hs : s.elems with
  | nil => exact Or.inl ⟨item, by simp [pull_front, hs]⟩
  | cons x rest => exact Or.inr ⟨x, rest, rfl, by simp [pull_front, hs]⟩

theorem pull_front_wait_enter_outcome (s : safe_deque T) (item : T) :
    pull_front_wait [] s item = .waiting ∨
      ∃ x rest, s.elems = x :: rest ∧
        pull_front_wait [] s item = .returned (true, x, { elems := rest }) := by
  cases hs : s.elems with
  | nil => exact Or.inl (by simp [pull_front_wait, pull_front_wait_loop, hs])
  | cons x rest =>
    exact Or.inr ⟨x, rest, rfl, by simp [pull_front_wait, pull_front_wait_loop, hs]⟩

theorem pull_front_wait_wake_outcome (s : safe_deque T) (item : T) (cause : WakeCause)
    (elapsed : Nat) :
    pull_front_wait [⟨cause, elapsed, s⟩] { elems := [] } item = .returned (false, item, s) ∨
      ∃ x rest, s.elems = x :: rest ∧
        pull_front_wait [⟨cause, elapsed, s⟩] { elems := [] } item
          = .returned (true, x, { elems := rest }) := by
  cases hs : s.elems with
  | nil => exact Or.inl (by simp [pull_front_wait, pull_front_wait_loop, hs])
  | cons x rest =>
    exact Or.inr ⟨x, rest, rfl, by simp [pull_front_wait, pull_front_wait_loop, hs]⟩

theorem pull_front_wait_for_enter_outcome (s : safe_deque T) (item : T) (rel_time : Nat) :
    pull_front_wait_for rel_time [] s item = .waiting ∨
      ∃ x rest, s.elems = x :: rest ∧
        pull_front_wait_for rel_time [] s item = .returned (true, x, { elems := rest }) := by
  cases hs : s.elems with
  | nil => exact Or.inl (by simp [pull_front_wait_for, hs])
  | cons x rest => exact Or.inr ⟨x, rest, rfl, by simp [pull_front_wait_for, hs]⟩

theorem pull_front_wait_for_wake_outcome (s : safe_deque T) (item : T) (rel_time : Nat)
    (cause : WakeCause) (elapsed : Nat) :
    pull_front_wait_for rel_time [⟨cause, elapsed, s⟩] { elems := [] } item
        = .returned (false, item, s) ∨
      ∃ x rest, s.elems = x :: rest ∧
        pull_front_wait_for rel_time [⟨cause, elapsed, s⟩] { elems := [] } item
          = .returned (true, x, { elems := rest }) := by
  cases hs : s.elems with
  | nil => exact Or.inl (by simp [pull_front_wait_for, hs])
  | cons x rest => exact Or.inr ⟨x, rest, rfl, by simp [pull_front_wait_for, hs]⟩

/-- Every section keeps "pulled plus stored is a rearrangement of pushed" and
ends without a fault. -/
theorem History.step_conserves (h : History T) (st : Step T)
    (hc : (h.pulled ++ h.state.elems).Perm h.pushed) :
    ∃ h1, h.step st = .ok h1 ∧ (h1.pulled ++ h1.state.elems).Perm h1.pushed := by
  have hback : ∀ v, (h.pulled ++ (h.state.elems ++ [v])).Perm (h.pushed ++ [v]) := by
    intro v
    rw [← List.append_assoc]
    exact hc.append_right [v]
  have hfront : ∀ v, (h.pulled ++ v :: h.state.elems).Perm (h.pushed ++ [v]) := by
    intro v
    exact (List.perm_middle.trans (hc.cons v)).trans (List.perm_append_singleton v h.pushed).symm
  cases st with
  | push_back v => exact ⟨_, rfl, hback v⟩
  | push_front v => exact ⟨_, rfl, hfront v⟩
  | push_back_notify v => exact ⟨_, rfl, hback v⟩
  | push_front_notify v => exact ⟨_, rfl, hfront v⟩
  | pull_front item =>
    refine h.record_conserves _ ?_ hc
    rcases pull_front_outcome h.state item with ⟨i, hi⟩ | ⟨x, rest, hx, hp⟩
    · exact Or.inr (Or.inl ⟨i, by rw [hi]⟩)
    · exact Or.inr (Or.inr ⟨x, rest, hx, by rw [hp]⟩)
  | pull_front_wait_enter item =>
    refine h.record_conserves _ ?_ hc
    rcases pull_front_wait_enter_outcome h.state item with hw | ⟨x, rest, hx, hp⟩
    · exact Or.inl hw
    · exact Or.inr (Or.inr ⟨x, rest, hx, hp⟩)
  | pull_front_wait_wake item cause =>
    refine h.record_conserves _ ?_ hc
    rcases pull_front_wait_wake_outcome h.state item cause 0 with hw | ⟨x, rest, hx, hp⟩
    · exact Or.inr (Or.inl ⟨item, hw⟩)
    · exact Or.inr (Or.inr ⟨x, rest, hx, hp⟩)
  | pull_front_wait_for_enter item rel_time =>
    refine h.record_conserves _ ?_ hc
    rcases pull_front_wait_for_enter_outcome h.state item rel_time with hw | ⟨x, rest, hx, hp⟩
    · exact Or.inl hw
    · exact Or.inr (Or.inr ⟨x, rest, hx, hp⟩)
  | pull_front_wait_for_wake item rel_time cause elapsed =>
    refine h.record_conserves _ ?_ hc
    rcases pull_front_wait_for_wake_outcome h.state item rel_time cause elapsed with
      hw | ⟨x, rest, hx, hp⟩
    · exact Or.inr (Or.inl ⟨item, hw⟩)
    · exact Or.inr (Or.inr ⟨x, rest, hx, hp⟩)

theorem History.run_conserves (steps : List (Step T)) :
    ∀ h : History T, (h.pulled ++ h.state.elems).Perm h.pushed →
      ∃ h1, h.run steps = .ok h1 ∧ (h1.pulled ++ h1.state.elems).Perm h1.pushed := by
  induction steps with
  | nil => intro h hc; exact ⟨h, rfl, hc⟩
  | cons st rest ih =>
    intro h hc
    obtain ⟨h1, hs, hc1⟩ := h.step_conserves st hc
    obtain ⟨h2, hr, hc2⟩ := ih h1 hc1
    exact ⟨h2, by simp [History.run, hs, hr], hc2⟩

end safe_deque

/-- C10: every sequence of lock-held sections of `push_back`, `push_front`,
`push_back_notify`, `push_front_notify`, `pull_front` and the two
`pull_front_wait` functions, run on an initially empty `safe_deque`, ends without
a fault, and the multiset of values returned by successful pulls plus the
multiset of values still stored equals the multiset of values pushed.  Hence,
when as many pulls succeeded as values were pushed, the deque is empty and the
pulled values are a rearrangement of the pushed ones (none lost, none added), and
they are pairwise distinct when the pushed values are. -/
theorem safe_deque_conserves_elements {T : Type} (steps : List (safe_deque.Step T)) :
    ∃ h, safe_deque.History.run safe_deque.History.start steps = .ok h ∧
      (h.pulled : Multiset T) + (h.state.elems : Multiset T) = (h.pushed : Multiset T) ∧
      (h.pulled.length = h.pushed.length →
        h.state.elems = [] ∧ h.pulled.Perm h.pushed ∧ (h.pushed.Nodup → h.pulled.Nodup)) := by
  obtain ⟨h, hrun, hc⟩ :=
    safe_deque.History.run_conserves steps safe_deque.History.start (List.Perm.refl _)
  refine ⟨h, hrun, ?_, ?_⟩
  · rw [Multiset.coe_add]
    exact Multiset.coe_eq_coe.mpr hc
  · intro hlen
    have hl := hc.length_eq
    rw [List.length_append, hlen] at hl
    have he : h.state.elems = [] := List.length_eq_zero.mp (by omega)
    rw [he, List.append_nil] at hc
    exact ⟨he, hc, fun hnd => hc.nodup_iff.mpr hnd⟩

/-- C10 on a history of two producers, one pushing 1 and 2, the other 3 and 4,
with a blocking pull that is suspended and later woken: all four pulls succeed
and return 1, 2, 3, 4, a rearrangement of the pushed 1, 3, 2, 4 without
duplicates. -/
theorem safe_deque_conserves_elements_witness :
    safe_deque.History.run safe_deque.History.start
        [safe_deque.Step.pull_front_wait_enter 0,
         safe_deque.Step.push_back_notify 1,
         safe_deque.Step.pull_front_wait_wake 0 WakeCause.notify,
         safe_deque.Step.push_back 3,
         safe_deque.Step.push_front 2,
         safe_deque.Step.push_back 4,
         safe_deque.Step.pull_front 0,
         safe_deque.Step.pull_front 0,
         safe_deque.Step.pull_front_wait_for_enter 0 50]
      = .ok (⟨⟨[]⟩, [1, 3, 2, 4], [1, 2, 3, 4]⟩ : safe_deque.History Nat) ∧
    [1, 2, 3, 4].Perm [1, 3, 2, 4] ∧ [1, 2, 3, 4].Nodup := by
  obtain ⟨h, hrun, -, himp⟩ := safe_deque_conserves_elements
    [safe_deque.Step.pull_front_wait_enter (0 : Nat),
     safe_deque.Step.push_back_notify 1,
     safe_deque.Step.pull_front_wait_wake 0 WakeCause.notify,
     safe_deque.Step.push_back 3,
     safe_deque.Step.push_front 2,
     safe_deque.Step.push_back 4,
     safe_deque.Step.pull_front 0,
     safe_deque.Step.pull_front 0,
     safe_deque.Step.pull_front_wait_for_enter 0 50]
  have hconc : safe_deque.History.run safe_deque.History.start
      [safe_deque.Step.pull_front_wait_enter (0 : Nat),
       safe_deque.Step.push_back_notify 1,
       safe_deque.Step.pull_front_wait_wake 0 WakeCause.notify,
       safe_deque.Step.push_back 3,
       safe_deque.Step.push_front 2,
       safe_deque.Step.push_back 4,
       safe_deque.Step.pull_front 0,
       safe_deque.Step.pull_front 0,
       safe_deque.Step.pull_front_wait_for_enter 0 50]
      = .ok (⟨⟨[]⟩, [1, 3, 2, 4], [1, 2, 3, 4]⟩ : safe_deque.History Nat) := by decide
  rw [hconc] at hrun
  have hh : h = ⟨⟨[]⟩, [1, 3, 2, 4], [1, 2, 3, 4]⟩ := (Except.ok.inj hrun).symm
  subst hh
  obtain ⟨-, hp, hn⟩ := himp rfl
  exact ⟨hconc, hp, hn (by decide)⟩

/-! ## `safe_deque`: order of elements, peeking, unguarded accessors -/

namespace safe_deque

variable {T : Type}

theorem push_back_all_elems (xs : List T) :
    ∀ s : safe_deque T, (push_back_all s xs).elems = s.elems ++ xs := by
  induction xs with
  | nil => intro s; simp [push_back_all]
  | cons v vs ih => intro s; simp [push_back_all, ih, push_back]

theorem pull_front_cons (x : T) (l : List T) (item : T) :
    pull_front { elems := x :: l } item = (true, x, { elems := l }) := by
  simp [pull_front]

theorem pull_front_n_all (l : List T) :
    ∀ item : T, ∃ item1,
      pull_front_n l.length { elems := l } item
        = (l.map (fun x => (true, x)), item1, { elems := [] }) := by
  induction l with
  | nil => intro item; exact ⟨item, rfl⟩
  | cons x l ih =>
    intro item
    obtain ⟨item1, h1⟩ := ih x
    exact ⟨item1, by simp [pull_front_n, pull_front_cons, h1]⟩

end safe_deque

/-- C11: on a `safe_deque` with contents `s`, `push_back(v)` (with or without
notification) gives `s ++ [v]`, `push_front(v)` gives `[v] ++ s`, and `pull_front`
on contents `x :: s` returns true with `item = x` and leaves `s`.  So after
pushing `xs` with `push_back` only, pulling everything returns the old contents
followed by `xs` in push order and empties the deque, and an element pushed with
`push_front` is what the next `pull_front` returns, leaving the earlier contents. -/
theorem safe_deque_push_and_pull_order {T : Type} (s xs : List T) (v x item : T) :
    safe_deque.push_back { elems := s } v = { elems := s ++ [v] } ∧
    (safe_deque.push_back_notify { elems := s } v).2 = { elems := s ++ [v] } ∧
    safe_deque.push_front { elems := s } v = { elems := [v] ++ s } ∧
    (safe_deque.push_front_notify { elems := s } v).2 = { elems := [v] ++ s } ∧
    safe_deque.pull_front { elems := x :: s } item = (true, x, { elems := s }) ∧
    (∃ item1, safe_deque.pull_front_n (s ++ xs).length
        (safe_deque.push_back_all { elems := s } xs) item
      = ((s ++ xs).map (fun y => (true, y)), item1, { elems := [] })) ∧
    safe_deque.pull_front (safe_deque.push_front { elems := s } v) item
      = (true, v, { elems := s }) := by
  refine ⟨rfl, rfl, rfl, rfl, safe_deque.pull_front_cons x s item, ?_,
    safe_deque.pull_front_cons v s item⟩
  have h : safe_deque.push_back_all { elems := s } xs = { elems := s ++ xs } := by
    have := safe_deque.push_back_all_elems xs { elems := s }
    cases hq : safe_deque.push_back_all { elems := s } xs with
    | mk e => rw [hq] at this; simpa using this
  rw [h]
  exact safe_deque.pull_front_n_all (s ++ xs) item

/-- C11 on the contents 1, 2 with the pushes 3, 4. -/
theorem safe_deque_push_and_pull_order_witness :
    safe_deque.push_back { elems := [1, 2] } (7 : Nat) = { elems := [1, 2, 7] } ∧
    safe_deque.push_front { elems := [1, 2] } (7 : Nat) = { elems := [7, 1, 2] } ∧
    safe_deque.pull_front { elems := [8, 1, 2] } (0 : Nat) = (true, 8, { elems := [1, 2] }) ∧
    (∃ item1, safe_deque.pull_front_n 4
        (safe_deque.push_back_all { elems := [1, 2] } [3, 4]) (0 : Nat)
      = ([(true, 1), (true, 2), (true, 3), (true, 4)], item1, { elems := [] })) ∧
    safe_deque.pull_front (safe_deque.push_front { elems := [1, 2] } 7) (0 : Nat)
      = (true, 7, { elems := [1, 2] }) := by
  obtain ⟨h1, -, h3, -, h5, h6, h7⟩ :=
    safe_deque_push_and_pull_order [1, 2] [3, 4] (7 : Nat) 8 0
  exact ⟨h1, h3, h5, h6, h7⟩

/-- C12: `try_get_front` and `try_get_back` return the deque state they were
given; on a non-empty deque they return true with `item` set to the first,
respectively last, element; on an empty deque they return false and `item` keeps
its value. -/
theorem safe_deque_try_get_peeks {T : Type} (d : safe_deque T) (l : List T) (x item : T) :
    (safe_deque.try_get_front d item).2.2 = d ∧
    (safe_deque.try_get_back d item).2.2 = d ∧
    safe_deque.try_get_front { elems := x :: l } item = (true, x, { elems := x :: l }) ∧
    safe_deque.try_get_back { elems := l ++ [x] } item = (true, x, { elems := l ++ [x] }) ∧
    safe_deque.try_get_front ({ elems := [] } : safe_deque T) item
      = (false, item, { elems := [] }) ∧
    safe_deque.try_get_back ({ elems := [] } : safe_deque T) item
      = (false, item, { elems := [] }) := by
  refine ⟨?_, ?_, ?_, ?_, ?_, ?_⟩
  · unfold safe_deque.try_get_front
    split
    · split <;> rfl
    · rfl
  · unfold safe_deque.try_get_back
    split
    · split <;> rfl
    · rfl
  · simp [safe_deque.try_get_front]
  · simp [safe_deque.try_get_back]
  · simp [safe_deque.try_get_front]
  · simp [safe_deque.try_get_back]

/-- C12 on the contents 4, 5, 6. -/
theorem safe_deque_try_get_peeks_witness :
    safe_deque.try_get_front { elems := [4, 5, 6] } (0 : Nat)
      = (true, 4, { elems := [4, 5, 6] }) ∧
    safe_deque.try_get_back { elems := [4, 5] ++ [6] } (0 : Nat)
      = (true, 6, { elems := [4, 5] ++ [6] }) ∧
    safe_deque.try_get_front ({ elems := [] } : safe_deque Nat) 9
      = (false, 9, { elems := [] }) := by
  obtain ⟨-, -, h3, -, h5, -⟩ := safe_deque_try_get_peeks { elems := [] } [5, 6] (4 : Nat) 0
  obtain ⟨-, -, -, h4, -, -⟩ := safe_deque_try_get_peeks { elems := [] } [4, 5] (6 : Nat) 0
  obtain ⟨-, -, -, -, h5', -⟩ := safe_deque_try_get_peeks { elems := [] } [] (0 : Nat) 9
  exact ⟨h3, h4, h5'⟩

/-- C20 fails as stated: on an empty `safe_deque` each of `pop_front()`,
`pop_back()`, `front()` and `back()` forwards to the `std::deque` member without a
test for emptiness and reaches its undefined empty-sequence case. -/
theorem safe_deque_unguarded_on_empty :
    safe_deque.pop_front ({ elems := [] } : safe_deque Nat) = .error Fault.empty_deque ∧
    safe_deque.pop_back ({ elems := [] } : safe_deque Nat) = .error Fault.empty_deque ∧
    safe_deque.front ({ elems := [] } : safe_deque Nat) = .error Fault.empty_deque ∧
    safe_deque.back ({ elems := [] } : safe_deque Nat) = .error Fault.empty_deque := by
  decide

/-- C20, as the code has it: `pop_front()`, `pop_back()`, `front()` and `back()`
are defined exactly on a non-empty deque, where they drop the first or last
element, respectively return it; on an empty deque all four reach the undefined
empty-sequence case, while `pull_front`, `try_get_front` and `try_get_back` return
false there and leave the deque empty. -/
theorem safe_deque_accessors_need_nonempty {T : Type} (d : safe_deque T) (l : List T)
    (x item : T) :
    (d.elems = [] →
      safe_deque.pop_front d = .error Fault.empty_deque ∧
      safe_deque.pop_back d = .error Fault.empty_deque ∧
      safe_deque.front d = .error Fault.empty_deque ∧
      safe_deque.back d = .error Fault.empty_deque ∧
      safe_deque.pull_front d item = (false, item, d) ∧
      safe_deque.try_get_front d item = (false, item, d) ∧
      safe_deque.try_get_back d item = (false, item, d)) ∧
    safe_deque.pop_front { elems := x :: l } = .ok { elems := l } ∧
    safe_deque.pop_back { elems := l ++ [x] } = .ok { elems := l } ∧
    safe_deque.front { elems := x :: l } = .ok x ∧
    safe_deque.back { elems := l ++ [x] } = .ok x := by
  refine ⟨?_, rfl, ?_, rfl, ?_⟩
  · intro h
    simp [safe_deque.pop_front, safe_deque.pop_back, safe_deque.front, safe_deque.back,
      safe_deque.pull_front, safe_deque.try_get_front, safe_deque.try_get_back, h]
  · unfold safe_deque.pop_back
    cases l with
    | nil => simp
    | cons h t =>
      have hd : ((h :: t) ++ [x]).dropLast = h :: t := List.dropLast_concat
      simpa using hd
  · simp [safe_deque.back]

/-- C20 on the empty deque and on the contents 4, 5, 6. -/
theorem safe_deque_accessors_need_nonempty_witness :
    safe_deque.pop_front ({ elems := [] } : safe_deque Nat) = .error Fault.empty_deque ∧
    safe_deque.pull_front ({ elems := [] } : safe_deque Nat) 9 = (false, 9, { elems := [] }) ∧
    safe_deque.pop_front { elems := [4, 5, 6] } = .ok ({ elems := [5, 6] } : safe_deque Nat) ∧
    safe_deque.front { elems := [4, 5, 6] } = .ok (4 : Nat) := by
  obtain ⟨h1, h2, -, h4, -⟩ :=
    safe_deque_accessors_need_nonempty ({ elems := [] } : safe_deque Nat) [5, 6] 4 9
  obtain ⟨hp, -, -, -, hq, -, -⟩ := h1 rfl
  exact ⟨hp, hq, h2, h4⟩

/-! ## `safe_ringbuffer` against `ringbuffer` -/

namespace ringbuffer

variable {T : Type}

theorem sim_incr_back [Add T] (c : TemplateArgs) (r : ringbuffer T) (v : T) :
    (incr_back c r v).map forget_sum = safe_ringbuffer.incr_back c (forget_sum r) v := by
  unfold incr_back safe_ringbuffer.incr_back
  by_cases hf : full c r = true
  · have hf2 : safe_ringbuffer._full c (forget_sum r) = true := hf
    simp [hf, hf2, Except.map]
  · have hf1 : full c r = false := by simpa using hf
    have hf2 : safe_ringbuffer._full c (forget_sum r) = false := hf1
    have hb : (forget_sum r).back_it = r.back_it := rfl
    by_cases hlt : r.back_it < c._Size
    · simp only [hf1, hf2, hb, hlt]
      simp [Except.map, forget_sum]
    · simp only [hf1, hf2, hb, hlt]
      simp [Except.map]

theorem sim_incr_front (c : TemplateArgs) (r : ringbuffer T) :
    (incr_front c r).map (fun p => (p.1, forget_sum p.2))
      = safe_ringbuffer.incr_front c (forget_sum r) := by
  unfold incr_front safe_ringbuffer.incr_front
  by_cases he : _empty r = true
  · have he2 : safe_ringbuffer._empty (forget_sum r) = true := he
    simp [he, he2, Except.map]
  · have he1 : _empty r = false := by simpa using he
    have he2 : safe_ringbuffer._empty (forget_sum r) = false := he1
    have ha : (forget_sum r).arr = r.arr := rfl
    have hfr : (forget_sum r).front_it = r.front_it := rfl
    simp only [he1, he2, ha, hfr]
    cases hg : r.arr.get? r.front_it with
    | none => simp [Except.map]
    | some x => simp [Except.map, forget_sum]

theorem sim_if_full_delete_once [Sub T] (c : TemplateArgs) (r : ringbuffer T) :
    (_if_full_delete_once c r).map forget_sum
      = safe_ringbuffer._if_full_delete_once c (forget_sum r) := by
  have hs := sim_incr_front c r
  unfold _if_full_delete_once _if_full_delete_once_pointer _if_full_delete_once_value
    safe_ringbuffer._if_full_delete_once
  by_cases hf : full c r = true
  · have hf2 : safe_ringbuffer._full c (forget_sum r) = true := hf
    rw [← hs]
    cases hi : incr_front c r with
    | error e => cases hp : c.is_pointer <;> simp [hf, hf2, hp, Except.map]
    | ok p =>
      obtain ⟨x, s1⟩ := p
      cases hp : c.is_pointer <;> simp only [hf, hf2, hp] <;> simp [Except.map, forget_sum]
  · have hf1 : full c r = false := by simpa using hf
    have hf2 : safe_ringbuffer._full c (forget_sum r) = false := hf1
    cases hp : c.is_pointer <;> simp [hf1, hf2, hp, Except.map]

theorem sim_push_back [Add T] (c : TemplateArgs) (r : ringbuffer T) (v : T) :
    (push_back c r v).map (fun p => (p.1, forget_sum p.2))
      = safe_ringbuffer.push_back c (forget_sum r) v := by
  have hs := sim_incr_back c r v
  unfold push_back safe_ringbuffer.push_back
  have hf2 : safe_ringbuffer._full c (forget_sum r) = full c r := rfl
  rw [← hs, hf2]
  cases full c r
  · cases incr_back c r v <;> simp [Except.map]
  · simp [Except.map]

theorem sim_push_back_force [Add T] [Sub T] (c : TemplateArgs) (r : ringbuffer T) (v : T) :
    (push_back_force c r v).map forget_sum
      = safe_ringbuffer.push_back_force c (forget_sum r) v := by
  have hs := sim_if_full_delete_once c r
  unfold push_back_force safe_ringbuffer.push_back_force
  rw [← hs]
  cases _if_full_delete_once c r with
  | error e => simp [Except.map]
  | ok s1 => simpa [Except.map] using sim_incr_back c s1 v

theorem sim_pull_front (c : TemplateArgs) (r : ringbuffer T) (item : T) :
    (pull_front c r item).map (fun p => (p.1, p.2.1, forget_sum p.2.2))
      = safe_ringbuffer.pull_front c (forget_sum r) item := by
  have hs := sim_incr_front c r
  unfold pull_front safe_ringbuffer.pull_front
  have he2 : safe_ringbuffer._empty (forget_sum r) = _empty r := rfl
  rw [← hs, he2]
  cases _empty r
  · cases incr_front c r <;> simp [Except.map]
  · simp [Except.map]

theorem sim_fill [Mul T] [NatCast T] (c : TemplateArgs) (r : ringbuffer T) (v : T) :
    forget_sum (fill c r v) = safe_ringbuffer.fill (forget_sum r) v := rfl

theorem sim_clear [Zero T] (c : TemplateArgs) (r : ringbuffer T) :
    forget_sum (clear c r) = safe_ringbuffer.clear (forget_sum r) := rfl

theorem forget_sum_with_sum (s : safe_ringbuffer T) (sum0 : T) :
    forget_sum (s.with_sum sum0) = s := rfl

theorem live_with_sum (c : TemplateArgs) (s : safe_ringbuffer T) (sum0 : T) :
    live c (s.with_sum sum0) = safe_ringbuffer.live c s := rfl

theorem live_forget_sum (c : TemplateArgs) (r : ringbuffer T) :
    safe_ringbuffer.live c (forget_sum r) = live c r := rfl

theorem inv_forget_sum (c : TemplateArgs) (r : ringbuffer T) :
    safe_ringbuffer.Inv c (forget_sum r) ↔ Inv c r := Iff.rfl

end ringbuffer

namespace safe_ringbuffer

variable {T : Type}

theorem srb_live_of_size_zero (c : TemplateArgs) (s : safe_ringbuffer T) (h : s._size = 0) :
    live c s = [] := by
  simp [live, h]

theorem srb_live_length (c : TemplateArgs) (s : safe_ringbuffer T) (hinv : Inv c s) (x : T) :
    (live c s).length = s._size :=
  ringbuffer.live_length c (s.with_sum x) hinv

/-- Effect of `push_back` on a buffer that is not full. -/
theorem srb_push_back_spec (c : TemplateArgs) (s : safe_ringbuffer T) (v : T)
    (hinv : Inv c s) (hlt : s._size < c._Size) :
    ∃ s1, push_back c s v = .ok (true, s1) ∧ Inv c s1 ∧ live c s1 = live c s ++ [v] ∧
      s1._size = s._size + 1 ∧ s1.deleted = s.deleted := by
  letI : Add T := ⟨fun a _ => a⟩
  obtain ⟨r1, h1, hinv1, hlive1, hsz1, hdel1, -⟩ :=
    ringbuffer.push_back_spec c (s.with_sum v) v hinv hlt
  have hs := ringbuffer.sim_push_back c (s.with_sum v) v
  rw [h1] at hs
  exact ⟨r1.forget_sum, hs.symm, hinv1, hlive1, hsz1, hdel1⟩

/-- Effect of `pull_front` on a buffer that is not empty. -/
theorem srb_pull_front_spec (c : TemplateArgs) (s : safe_ringbuffer T) (item : T)
    (hinv : Inv c s) (hpos : 0 < s._size) :
    ∃ x s1, pull_front c s item = .ok (true, x, s1) ∧ Inv c s1 ∧
      live c s = x :: live c s1 ∧ s1._size + 1 = s._size ∧ s1.deleted = s.deleted ∧
      s1.arr = s.arr := by
  obtain ⟨x, r1, h1, hinv1, hlive1, hsz1, hdel1, -, harr⟩ :=
    ringbuffer.pull_front_spec c (s.with_sum item) item hinv hpos
  have hs := ringbuffer.sim_pull_front c (s.with_sum item) item
  rw [h1] at hs
  exact ⟨x, r1.forget_sum, hs.symm, hinv1, hlive1, hsz1, hdel1, harr⟩

/-- Effect of `pull_front` on an empty buffer. -/
theorem srb_pull_front_empty (c : TemplateArgs) (s : safe_ringbuffer T) (item : T)
    (h : s._size = 0) : pull_front c s item = .ok (false, item, s) := by
  simp [pull_front, _empty, h]

/-- Effect of `push_back_force` on a buffer that is not full. -/
theorem srb_push_back_force_not_full (c : TemplateArgs) (s : safe_ringbuffer T) (v : T)
    (hinv : Inv c s) (hlt : s._size < c._Size) :
    ∃ s1, push_back_force c s v = .ok s1 ∧ Inv c s1 ∧ live c s1 = live c s ++ [v] ∧
      s1._size = s._size + 1 ∧ s1.deleted = s.deleted := by
  letI : Add T := ⟨fun a _ => a⟩
  letI : Sub T := ⟨fun a _ => a⟩
  obtain ⟨r1, h1, hinv1, hlive1, hsz1, hdel1, -⟩ :=
    ringbuffer.push_back_force_not_full c (s.with_sum v) v hinv hlt
  have hs := ringbuffer.sim_push_back_force c (s.with_sum v) v
  rw [h1] at hs
  exact ⟨r1.forget_sum, hs.symm, hinv1, hlive1, hsz1, hdel1⟩

/-- Effect of `push_back_force` on a full buffer. -/
theorem srb_push_back_force_full (c : TemplateArgs) (s : safe_ringbuffer T) (v : T)
    (hinv : Inv c s) (hfull : s._size = c._Size) :
    ∃ x s1, push_back_force c s v = .ok s1 ∧ Inv c s1 ∧
      live c s1 = (live c s).tail ++ [v] ∧ (live c s).head? = some x ∧
      s1._size = s._size ∧
      s1.deleted = (if c.is_pointer then s.deleted ++ [x] else s.deleted) := by
  letI : Add T := ⟨fun a _ => a⟩
  letI : Sub T := ⟨fun a _ => a⟩
  obtain ⟨x, r1, h1, hinv1, hlive1, hhead, hsz1, hdel1, -⟩ :=
    ringbuffer.push_back_force_full c (s.with_sum v) v hinv hfull
  have hs := ringbuffer.sim_push_back_force c (s.with_sum v) v
  rw [h1] at hs
  exact ⟨x, r1.forget_sum, hs.symm, hinv1, hlive1, hhead, hsz1, hdel1⟩

/-- The notifying pushes change the state as the plain pushes do. -/
theorem push_back_notify_eq (c : TemplateArgs) (s : safe_ringbuffer T) (v : T) :
    push_back_notify c s v
      = (push_back c s v).map (fun p => (p.1, (if p.1 then 1 else 0), p.2)) := by
  unfold push_back_notify push_back
  cases _full c s
  · cases incr_back c s v <;> simp [Except.map]
  · simp [Except.map]

theorem push_back_force_notify_eq (c : TemplateArgs) (s : safe_ringbuffer T) (v : T) :
    push_back_force_notify c s v = (push_back_force c s v).map (fun s1 => (1, s1)) := by
  unfold push_back_force_notify push_back_force
  cases _if_full_delete_once c s with
  | error e => simp [Except.map]
  | ok s1 =>
    show (match incr_back c s1 v with
      | .error e => .error e
      | .ok s2 => .ok (1, s2)) = Except.map (fun s1 => (1, s1)) (incr_back c s1 v)
    cases incr_back c s1 v <;> rfl

end safe_ringbuffer

namespace ringbuffer

variable {T : Type}

theorem with_sum_forget_sum (r : ringbuffer T) : r.forget_sum.with_sum r._sum = r := rfl

theorem eq_incr_back [Add T] (c : TemplateArgs) (r : ringbuffer T) (v : T)
    (hse : c.sum_en = false) :
    incr_back c r v
      = (safe_ringbuffer.incr_back c r.forget_sum v).map (fun s => s.with_sum r._sum) := by
  unfold incr_back safe_ringbuffer.incr_back
  have hf2 : safe_ringbuffer._full c r.forget_sum = full c r := rfl
  have hb : r.forget_sum.back_it = r.back_it := rfl
  rw [hf2, hb]
  cases full c r
  · by_cases hlt : r.back_it < c._Size
    · simp [hlt, Except.map, hse, forget_sum, safe_ringbuffer.with_sum]
    · simp [hlt, Except.map]
  · simp [Except.map]

theorem eq_incr_front (c : TemplateArgs) (r : ringbuffer T) :
    incr_front c r
      = (safe_ringbuffer.incr_front c r.forget_sum).map
          (fun p => (p.1, p.2.with_sum r._sum)) := by
  unfold incr_front safe_ringbuffer.incr_front
  have he2 : safe_ringbuffer._empty r.forget_sum = _empty r := rfl
  have ha : r.forget_sum.arr = r.arr := rfl
  have hfr : r.forget_sum.front_it = r.front_it := rfl
  rw [he2, ha, hfr]
  cases _empty r
  · cases hg : r.arr.get? r.front_it with
    | none => simp [Except.map]
    | some x => simp [Except.map, forget_sum, safe_ringbuffer.with_sum]
  · simp [Except.map]

theorem eq_if_full_delete_once [Sub T] (c : TemplateArgs) (r : ringbuffer T)
    (hse : c.sum_en = false) :
    _if_full_delete_once c r
      = (safe_ringbuffer._if_full_delete_once c r.forget_sum).map
          (fun s => s.with_sum r._sum) := by
  unfold _if_full_delete_once _if_full_delete_once_pointer _if_full_delete_once_value
    safe_ringbuffer._if_full_delete_once
  have hf2 : safe_ringbuffer._full c r.forget_sum = full c r := rfl
  rw [hf2, eq_incr_front c r]
  cases full c r
  · cases c.is_pointer <;> simp [Except.map] <;> rfl
  · cases safe_ringbuffer.incr_front c r.forget_sum with
    | error e => cases c.is_pointer <;> simp [Except.map]
    | ok p =>
      obtain ⟨x, s1⟩ := p
      cases c.is_pointer <;> simp [Except.map, hse, safe_ringbuffer.with_sum]

theorem eq_push_back [Add T] (c : TemplateArgs) (r : ringbuffer T) (v : T)
    (hse : c.sum_en = false) :
    push_back c r v
      = (safe_ringbuffer.push_back c r.forget_sum v).map
          (fun p => (p.1, p.2.with_sum r._sum)) := by
  unfold push_back safe_ringbuffer.push_back
  have hf2 : safe_ringbuffer._full c r.forget_sum = full c r := rfl
  rw [hf2, eq_incr_back c r v hse]
  cases full c r
  · cases safe_ringbuffer.incr_back c r.forget_sum v <;> simp [Except.map]
  · simp [Except.map]
    rfl

theorem sum_of_if_full_delete_once [Sub T] (c : TemplateArgs) (r r1 : ringbuffer T)
    (hse : c.sum_en = false) (h : _if_full_delete_once c r = .ok r1) : r1._sum = r._sum := by
  rw [eq_if_full_delete_once c r hse] at h
  cases hq : safe_ringbuffer._if_full_delete_once c r.forget_sum with
  | error e => rw [hq] at h; simp [Except.map] at h
  | ok s1 =>
    rw [hq] at h
    simp [Except.map] at h
    rw [← h]
    rfl

theorem eq_push_back_force [Add T] [Sub T] (c : TemplateArgs) (r : ringbuffer T) (v : T)
    (hse : c.sum_en = false) :
    push_back_force c r v
      = (safe_ringbuffer.push_back_force c r.forget_sum v).map
          (fun s => s.with_sum r._sum) := by
  have hs := sim_if_full_delete_once c r
  unfold push_back_force safe_ringbuffer.push_back_force
  rw [← hs]
  cases hq : _if_full_delete_once c r with
  | error e => simp [Except.map]
  | ok r1 =>
    have hsum := sum_of_if_full_delete_once c r r1 hse hq
    simp only [Except.map]
    rw [eq_incr_back c r1 v hse, hsum]
    cases safe_ringbuffer.incr_back c r1.forget_sum v <;> rfl

theorem eq_pull_front (c : TemplateArgs) (r : ringbuffer T) (item : T) :
    pull_front c r item
      = (safe_ringbuffer.pull_front c r.forget_sum item).map
          (fun p => (p.1, p.2.1, p.2.2.with_sum r._sum)) := by
  unfold pull_front safe_ringbuffer.pull_front
  have he2 : safe_ringbuffer._empty r.forget_sum = _empty r := rfl
  rw [he2, eq_incr_front c r]
  cases _empty r
  · cases safe_ringbuffer.incr_front c r.forget_sum <;> simp [Except.map]
  · simp [Except.map]
    rfl

theorem eq_fill [Mul T] [NatCast T] (c : TemplateArgs) (r : ringbuffer T) (v : T)
    (hse : c.sum_en = false) :
    fill c r v = (safe_ringbuffer.fill r.forget_sum v).with_sum r._sum := by
  simp [fill, safe_ringbuffer.fill, safe_ringbuffer.with_sum, forget_sum, hse]

theorem eq_clear [Zero T] (c : TemplateArgs) (r : ringbuffer T) (hse : c.sum_en = false) :
    clear c r = (safe_ringbuffer.clear r.forget_sum).with_sum r._sum := by
  simp [clear, safe_ringbuffer.clear, safe_ringbuffer.with_sum, forget_sum, hse]

end ringbuffer

/-- C18: with `use_sum = false`, every `ringbuffer` operation is the
`safe_ringbuffer` operation on the same array, cursors, `_size` and deletion trace,
with `_sum` carried along unchanged: `push_back`, `push_back_force`, `pull_front`,
`fill` and `clear` return the same result and the same next state in both classes
(every `safe_ringbuffer` state arises as such a state).  `push_back_notify` and
`push_back_force_notify` have the result and next state of `push_back` and
`push_back_force`; they add one `notify_one()` exactly when the push happened. -/
theorem safe_ringbuffer_refines_ringbuffer {T : Type} [Zero T] [Add T] [Sub T] [Mul T]
    [NatCast T] (c : TemplateArgs) (r : ringbuffer T) (ss : safe_ringbuffer T) (v item : T)
    (hsum : c.use_sum = false) :
    ringbuffer.push_back c r v
      = (safe_ringbuffer.push_back c r.forget_sum v).map
          (fun p => (p.1, p.2.with_sum r._sum)) ∧
    ringbuffer.push_back_force c r v
      = (safe_ringbuffer.push_back_force c r.forget_sum v).map
          (fun s => s.with_sum r._sum) ∧
    ringbuffer.pull_front c r item
      = (safe_ringbuffer.pull_front c r.forget_sum item).map
          (fun p => (p.1, p.2.1, p.2.2.with_sum r._sum)) ∧
    ringbuffer.fill c r v = (safe_ringbuffer.fill r.forget_sum v).with_sum r._sum ∧
    ringbuffer.clear c r = (safe_ringbuffer.clear r.forget_sum).with_sum r._sum ∧
    (ss.with_sum r._sum).forget_sum = ss ∧
    safe_ringbuffer.push_back_notify c ss v
      = (safe_ringbuffer.push_back c ss v).map (fun p => (p.1, (if p.1 then 1 else 0), p.2)) ∧
    safe_ringbuffer.push_back_force_notify c ss v
      = (safe_ringbuffer.push_back_force c ss v).map (fun s1 => (1, s1)) := by
  have hse : c.sum_en = false := by simp [TemplateArgs.sum_en, hsum]
  exact ⟨ringbuffer.eq_push_back c r v hse, ringbuffer.eq_push_back_force c r v hse,
    ringbuffer.eq_pull_front c r item, ringbuffer.eq_fill c r v hse,
    ringbuffer.eq_clear c r hse, rfl, safe_ringbuffer.push_back_notify_eq c ss v,
    safe_ringbuffer.push_back_force_notify_eq c ss v⟩

/-- C18 on a `ringbuffer<int, 2>` holding one element. -/
theorem safe_ringbuffer_refines_ringbuffer_witness :
    (TemplateArgs.mk 2 false false).use_sum = false ∧
    ringbuffer.push_back (TemplateArgs.mk 2 false false) ⟨[1, 0], 1, 0, 1, (0 : Int), []⟩ 5
      = (safe_ringbuffer.push_back (TemplateArgs.mk 2 false false)
          (ringbuffer.forget_sum ⟨[1, 0], 1, 0, 1, (0 : Int), []⟩) 5).map
          (fun p => (p.1, p.2.with_sum 0)) ∧
    safe_ringbuffer.push_back (TemplateArgs.mk 2 false false) ⟨[1, 0], 1, 0, 1, []⟩ (5 : Int)
      = .ok (true, ⟨[1, 5], 0, 0, 2, []⟩) :=
  ⟨rfl,
    (safe_ringbuffer_refines_ringbuffer (TemplateArgs.mk 2 false false)
      ⟨[1, 0], 1, 0, 1, (0 : Int), []⟩ ⟨[1, 0], 1, 0, 1, []⟩ 5 0 rfl).1,
    by decide⟩

/-! ## Destructors -/

namespace ringbuffer

variable {T : Type}

/-- With enough fuel the destructor loop of a pointer buffer ends after `_size`
successful pulls and has deleted the held elements front to back. -/
theorem destructor_loop_spec (c : TemplateArgs) (n : Nat) :
    ∀ (s : ringbuffer T) (del : T) (fuel : Nat), Inv c s → s._size = n → n < fuel →
      ∃ s1, destructor_loop c fuel s del = some (.ok (n, s1)) ∧
        s1.deleted = s.deleted ++ live c s ∧ s1._size = 0 ∧ Inv c s1 := by
  induction n with
  | zero =>
    intro s del fuel hinv hsz hfuel
    obtain ⟨f, rfl⟩ : ∃ f, fuel = f + 1 := ⟨fuel - 1, by omega⟩
    refine ⟨s, ?_, ?_, hsz, hinv⟩
    · simp [destructor_loop, pull_front_empty c s del hsz]
    · simp [live_of_size_zero c s hsz]
  | succ n ih =>
    intro s del fuel hinv hsz hfuel
    obtain ⟨f, rfl⟩ : ∃ f, fuel = f + 1 := ⟨fuel - 1, by omega⟩
    obtain ⟨x, s1, h1, hinv1, hlive1, hsz1, hdel1, -, -⟩ :=
      pull_front_spec c s del hinv (by omega)
    have hinv1d : Inv c { s1 with deleted := s1.deleted ++ [x] } := hinv1
    obtain ⟨s2, h2, hdel2, hsz2, hinv2⟩ :=
      ih { s1 with deleted := s1.deleted ++ [x] } x f hinv1d
        (by show s1._size = n; omega) (by omega)
    refine ⟨s2, ?_, ?_, hsz2, hinv2⟩
    · simp [destructor_loop, h1, h2]
    · rw [hdel2, hlive1]
      show (s1.deleted ++ [x]) ++ live c s1 = _
      rw [hdel1]; simp

end ringbuffer

namespace safe_ringbuffer

variable {T : Type}

theorem srb_destructor_loop_spec (c : TemplateArgs) (n : Nat) :
    ∀ (s : safe_ringbuffer T) (del : T) (fuel : Nat), Inv c s → s._size = n → n < fuel →
      ∃ s1, destructor_loop c fuel s del = some (.ok (n, s1)) ∧
        s1.deleted = s.deleted ++ live c s ∧ s1._size = 0 ∧ Inv c s1 := by
  induction n with
  | zero =>
    intro s del fuel hinv hsz hfuel
    obtain ⟨f, rfl⟩ : ∃ f, fuel = f + 1 := ⟨fuel - 1, by omega⟩
    refine ⟨s, ?_, ?_, hsz, hinv⟩
    · simp [destructor_loop, srb_pull_front_empty c s del hsz]
    · simp [srb_live_of_size_zero c s hsz]
  | succ n ih =>
    intro s del fuel hinv hsz hfuel
    obtain ⟨f, rfl⟩ : ∃ f, fuel = f + 1 := ⟨fuel - 1, by omega⟩
    obtain ⟨x, s1, h1, hinv1, hlive1, hsz1, hdel1, -⟩ :=
      srb_pull_front_spec c s del hinv (by omega)
    have hinv1d : Inv c { s1 with deleted := s1.deleted ++ [x] } := hinv1
    obtain ⟨s2, h2, hdel2, hsz2, hinv2⟩ :=
      ih { s1 with deleted := s1.deleted ++ [x] } x f hinv1d
        (by show s1._size = n; omega) (by omega)
    refine ⟨s2, ?_, ?_, hsz2, hinv2⟩
    · simp [destructor_loop, h1, h2]
    · rw [hdel2, hlive1]
      show (s1.deleted ++ [x]) ++ live c s1 = _
      rw [hdel1]; simp

end safe_ringbuffer

namespace safe_deque

variable {T : Type}

theorem dq_destructor_loop_spec (l : List T) :
    ∀ (del : T) (fuel : Nat), l.length < fuel →
      destructor_loop fuel { elems := l } del = some (l.length, l, { elems := [] }) := by
  induction l with
  | nil =>
    intro del fuel hfuel
    obtain ⟨f, rfl⟩ : ∃ f, fuel = f + 1 := ⟨fuel - 1, by omega⟩
    simp [destructor_loop, pull_front]
  | cons x l ih =>
    intro del fuel hfuel
    obtain ⟨f, rfl⟩ : ∃ f, fuel = f + 1 := ⟨fuel - 1, by omega⟩
    simp only [List.length_cons] at hfuel
    simp [destructor_loop, pull_front_cons, ih x f (by omega)]

end safe_deque

/-- C16: destroying a pointer-element `ringbuffer`, `safe_ringbuffer` or
`safe_deque` that holds `x1..xk` (given enough loop steps, any number above `k`)
ends after exactly `k` successful `pull_front` calls followed by one that returns
false, and deletes exactly `x1..xk`, each once, front to back; for a non-pointer
element type the destructor does nothing and deletes nothing. -/
theorem destructor_deletes_held_elements {T : Type} (c : TemplateArgs)
    (r : ringbuffer T) (ss : safe_ringbuffer T) (d : safe_deque T) (del : T) (fuel : Nat)
    (hr : ringbuffer.Inv c r) (hs : safe_ringbuffer.Inv c ss)
    (hfr : r._size < fuel) (hfs : ss._size < fuel) (hfd : d.elems.length < fuel) :
    (c.is_pointer = true →
      (∃ r1, ringbuffer.destructor c fuel r del
          = some (.ok ((ringbuffer.live c r).length, r1)) ∧
        r1.deleted = r.deleted ++ ringbuffer.live c r ∧ r1._size = 0) ∧
      (∃ s1, safe_ringbuffer.destructor c fuel ss del
          = some (.ok ((safe_ringbuffer.live c ss).length, s1)) ∧
        s1.deleted = ss.deleted ++ safe_ringbuffer.live c ss ∧ s1._size = 0)) ∧
    safe_deque.destructor true fuel d del = some (d.elems.length, d.elems, { elems := [] }) ∧
    (c.is_pointer = false →
      ringbuffer.destructor c fuel r del = some (.ok (0, r)) ∧
      safe_ringbuffer.destructor c fuel ss del = some (.ok (0, ss))) ∧
    safe_deque.destructor false fuel d del = some (0, [], d) := by
  refine ⟨?_, ?_, ?_, ?_⟩
  · intro hp
    constructor
    · obtain ⟨r1, h1, hdel, hsz, -⟩ :=
        ringbuffer.destructor_loop_spec c r._size r del fuel hr rfl hfr
      refine ⟨r1, ?_, hdel, hsz⟩
      rw [ringbuffer.live_length c r hr]
      simp [ringbuffer.destructor, hp, h1]
    · obtain ⟨s1, h1, hdel, hsz, -⟩ :=
        safe_ringbuffer.srb_destructor_loop_spec c ss._size ss del fuel hs rfl hfs
      refine ⟨s1, ?_, hdel, hsz⟩
      rw [safe_ringbuffer.srb_live_length c ss hs del]
      simp [safe_ringbuffer.destructor, hp, h1]
  · have h := safe_deque.dq_destructor_loop_spec d.elems del fuel hfd
    cases d with
    | mk e => simpa [safe_deque.destructor] using h
  · intro hp
    simp [ringbuffer.destructor, safe_ringbuffer.destructor, hp]
  · simp [safe_deque.destructor]

/-- C16 on containers of pointers holding 7, 8 (in a wrapped ring of capacity 3). -/
theorem destructor_deletes_held_elements_witness :
    ringbuffer.Inv (TemplateArgs.mk 3 true false) ⟨[8, 0, 7], 1, 2, 2, (0 : Nat), []⟩ ∧
    safe_ringbuffer.Inv (TemplateArgs.mk 3 true false) ⟨[8, 0, 7], 1, 2, 2, ([] : List Nat)⟩ ∧
    (∃ r1, ringbuffer.destructor (TemplateArgs.mk 3 true false) 5
        ⟨[8, 0, 7], 1, 2, 2, (0 : Nat), []⟩ 0 = some (.ok (2, r1)) ∧ r1.deleted = [7, 8]) ∧
    (∃ s1, safe_ringbuffer.destructor (TemplateArgs.mk 3 true false) 5
        ⟨[8, 0, 7], 1, 2, 2, ([] : List Nat)⟩ 0 = some (.ok (2, s1)) ∧ s1.deleted = [7, 8]) ∧
    safe_deque.destructor true 5 ({ elems := [7, 8] } : safe_deque Nat) 0
      = some (2, [7, 8], { elems := [] }) := by
  obtain ⟨h1, h2, -, -⟩ :=
    destructor_deletes_held_elements (TemplateArgs.mk 3 true false)
      ⟨[8, 0, 7], 1, 2, 2, (0 : Nat), []⟩ ⟨[8, 0, 7], 1, 2, 2, ([] : List Nat)⟩
      ({ elems := [7, 8] } : safe_deque Nat) 0 5 (by decide) (by decide) (by decide)
      (by decide) (by decide)
  obtain ⟨⟨r1, hr1, hrd, -⟩, ⟨s1, hs1, hsd, -⟩⟩ := h1 rfl
  exact ⟨by decide, by decide, ⟨r1, hr1, hrd⟩, ⟨s1, hs1, hsd⟩, h2⟩

/-! ## Recycling handles -/

/-- C13: on an empty pool (a `ringbuffer` or `safe_ringbuffer` of capacity at
least 1, or a `safe_deque`) `pull_front_auto_recycle()` evaluates `new`, hands out
the fresh object `p` and leaves the pool empty; releasing the handle puts `p`
into the pool, whose contents are then `[p]`, and deletes nothing; the next
`pull_front_auto_recycle()` hands out `p` again without evaluating `new` and
leaves the pool empty. -/
theorem recycling_handle_round_trip {T : Type} [Add T] [Sub T] (c : TemplateArgs)
    (r : ringbuffer T) (ss : safe_ringbuffer T) (d : safe_deque T) (null p q : T)
    (_hN : 1 ≤ c._Size) (_hp : c.is_pointer = true)
    (hr : ringbuffer.Inv c r) (hr0 : r._size = 0)
    (hs : safe_ringbuffer.Inv c ss) (hs0 : ss._size = 0) (hd : d.elems = []) :
    (ringbuffer.pull_front_auto_recycle c r null p = .ok (p, true, r) ∧
      ∃ r1, ringbuffer.handle_release c r p = .ok r1 ∧ ringbuffer.live c r1 = [p] ∧
        r1.deleted = r.deleted ∧
        ∃ r2, ringbuffer.pull_front_auto_recycle c r1 null q = .ok (p, false, r2) ∧
          ringbuffer.live c r2 = [] ∧ r2._size = 0 ∧ r2.deleted = r.deleted) ∧
    (safe_ringbuffer.pull_front_auto_recycle c ss null p = .ok (p, true, ss) ∧
      ∃ s1, safe_ringbuffer.handle_release c ss p = .ok s1 ∧
        safe_ringbuffer.live c s1 = [p] ∧ s1.deleted = ss.deleted ∧
        ∃ s2, safe_ringbuffer.pull_front_auto_recycle c s1 null q = .ok (p, false, s2) ∧
          safe_ringbuffer.live c s2 = [] ∧ s2._size = 0 ∧ s2.deleted = ss.deleted) ∧
    (safe_deque.pull_front_auto_recycle d null p = (p, true, d) ∧
      safe_deque.handle_release d p = { elems := [p] } ∧
      safe_deque.pull_front_auto_recycle (safe_deque.handle_release d p) null q
        = (p, false, { elems := [] })) := by
  refine ⟨⟨?_, ?_⟩, ⟨?_, ?_⟩, ?_, ?_, ?_⟩
  · simp [ringbuffer.pull_front_auto_recycle, ringbuffer.pull_front_empty c r null hr0]
  · obtain ⟨r1, h1, hinv1, hlive1, hsz1, hdel1, -⟩ :=
      ringbuffer.push_back_force_not_full c r p hr (by have := hr.2.1; omega)
    rw [ringbuffer.live_of_size_zero c r hr0] at hlive1
    obtain ⟨x, r2, h2, -, hlive2, hsz2, hdel2, -, -⟩ :=
      ringbuffer.pull_front_spec c r1 null hinv1 (by omega)
    rw [hlive1] at hlive2
    have hx : p = x := by simpa using (List.cons.inj hlive2).1
    subst hx
    refine ⟨r1, h1, hlive1, hdel1, r2, ?_, ?_, by omega, by rw [hdel2, hdel1]⟩
    · simp [ringbuffer.pull_front_auto_recycle, h2]
    · exact ((List.cons.inj hlive2).2).symm
  · simp [safe_ringbuffer.pull_front_auto_recycle,
      safe_ringbuffer.srb_pull_front_empty c ss null hs0]
  · obtain ⟨s1, h1, hinv1, hlive1, hsz1, hdel1⟩ :=
      safe_ringbuffer.srb_push_back_force_not_full c ss p hs (by have := hs.2.1; omega)
    rw [safe_ringbuffer.srb_live_of_size_zero c ss hs0] at hlive1
    obtain ⟨x, s2, h2, -, hlive2, hsz2, hdel2, -⟩ :=
      safe_ringbuffer.srb_pull_front_spec c s1 null hinv1 (by omega)
    rw [hlive1] at hlive2
    have hx : p = x := by simpa using (List.cons.inj hlive2).1
    subst hx
    refine ⟨s1, h1, hlive1, hdel1, s2, ?_, ?_, by omega, by rw [hdel2, hdel1]⟩
    · simp [safe_ringbuffer.pull_front_auto_recycle, h2]
    · exact ((List.cons.inj hlive2).2).symm
  · simp [safe_deque.pull_front_auto_recycle, safe_deque.pull_front, hd]
  · simp [safe_deque.handle_release, safe_deque.push_back, hd]
  · simp [safe_deque.pull_front_auto_recycle, safe_deque.handle_release, safe_deque.push_back,
      safe_deque.pull_front, hd]

/-- C13 on fresh pools of capacity 2 with the first allocation at address 40. -/
theorem recycling_handle_round_trip_witness :
    1 ≤ (TemplateArgs.mk 2 true false)._Size ∧
    ringbuffer.Inv (TemplateArgs.mk 2 true false) (ringbuffer.init [0, 0] (0 : Nat)) ∧
    safe_ringbuffer.Inv (TemplateArgs.mk 2 true false) (safe_ringbuffer.init [0, 0]) ∧
    ringbuffer.pull_front_auto_recycle (TemplateArgs.mk 2 true false)
        (ringbuffer.init [0, 0] (0 : Nat)) 0 40
      = .ok (40, true, ringbuffer.init [0, 0] 0) ∧
    (∃ r1, ringbuffer.handle_release (TemplateArgs.mk 2 true false)
        (ringbuffer.init [0, 0] (0 : Nat)) 40 = .ok r1 ∧
      ringbuffer.live (TemplateArgs.mk 2 true false) r1 = [40] ∧
      ∃ r2, ringbuffer.pull_front_auto_recycle (TemplateArgs.mk 2 true false) r1 0 41
        = .ok (40, false, r2)) ∧
    safe_deque.pull_front_auto_recycle
        (safe_deque.handle_release ({ elems := [] } : safe_deque Nat) 40) 0 41
      = (40, false, { elems := [] }) := by
  obtain ⟨⟨h1, r1, h2, h3, -, r2, h4, -⟩, -, -, -, h5⟩ :=
    recycling_handle_round_trip (TemplateArgs.mk 2 true false)
      (ringbuffer.init [0, 0] (0 : Nat)) (safe_ringbuffer.init [0, 0])
      ({ elems := [] } : safe_deque Nat) 0 40 41 (by decide) rfl (by decide) rfl
      (by decide) rfl rfl
  exact ⟨by decide, by decide, by decide, h1, ⟨r1, h2, h3, r2, h4⟩, h5⟩

/-! ## The bound on `_size` and `clear` -/

namespace ringbuffer

variable {T : Type}

theorem inv_init (c : TemplateArgs) (arr0 : List T) (sum0 : T)
    (hN : 1 ≤ c._Size) (hlen : arr0.length = c._Size) : Inv c (init arr0 sum0) := by
  refine ⟨hlen, hN, Nat.zero_le _, ?_⟩
  show 0 = (0 + 0) % c._Size
  simp

theorem inv_fill [Mul T] [NatCast T] (c : TemplateArgs) (s : ringbuffer T) (v : T)
    (hinv : Inv c s) : Inv c (fill c s v) := by
  obtain ⟨hlen, hf, hsz, hb⟩ := hinv
  exact ⟨by simpa [fill] using hlen, hf, hsz, hb⟩

theorem inv_clear [Zero T] (c : TemplateArgs) (s : ringbuffer T)
    (hinv : Inv c s) : Inv c (clear c s) := by
  obtain ⟨hlen, hf, hsz, hb⟩ := hinv
  refine ⟨hlen, by show 0 < c._Size; omega, Nat.zero_le _, ?_⟩
  show 0 = (0 + 0) % c._Size
  simp

/-- Every public mutator returns without a fault and keeps the invariant. -/
theorem exec_inv [Zero T] [Add T] [Sub T] [Mul T] [NatCast T] (c : TemplateArgs)
    (s : ringbuffer T) (call : Call T) (hinv : Inv c s) :
    ∃ s1, exec c s call = .ok s1 ∧ Inv c s1 := by
  have hsz := hinv.2.2.1
  cases call with
  | push_back v =>
    by_cases hfull : s._size = c._Size
    · exact ⟨s, by simp [exec, push_back, full, capacity, hfull], hinv⟩
    · obtain ⟨s1, h1, hinv1, -⟩ := push_back_spec c s v hinv (by omega)
      exact ⟨s1, by simp [exec, h1], hinv1⟩
  | push_back_force v =>
    obtain ⟨s1, h1, hinv1, -⟩ := push_back_force_total c s v hinv
    exact ⟨s1, by simp [exec, h1], hinv1⟩
  | pull_front item =>
    by_cases hempty : s._size = 0
    · exact ⟨s, by simp [exec, pull_front_empty c s item hempty], hinv⟩
    · obtain ⟨x, s1, h1, hinv1, -⟩ := pull_front_spec c s item hinv (by omega)
      exact ⟨s1, by simp [exec, h1], hinv1⟩
  | fill v => exact ⟨_, rfl, inv_fill c s v hinv⟩
  | clear => exact ⟨_, rfl, inv_clear c s hinv⟩

theorem run_inv [Zero T] [Add T] [Sub T] [Mul T] [NatCast T] (c : TemplateArgs)
    (calls : List (Call T)) :
    ∀ s : ringbuffer T, Inv c s → ∃ s1, run c s calls = .ok s1 ∧ Inv c s1 := by
  induction calls with
  | nil => intro s hinv; exact ⟨s, rfl, hinv⟩
  | cons call rest ih =>
    intro s hinv
    obtain ⟨s1, h1, hinv1⟩ := exec_inv c s call hinv
    obtain ⟨s2, h2, hinv2⟩ := ih s1 hinv1
    exact ⟨s2, by simp [run, h1, h2], hinv2⟩

end ringbuffer

namespace safe_ringbuffer

variable {T : Type}

theorem srb_inv_init (c : TemplateArgs) (arr0 : List T)
    (hN : 1 ≤ c._Size) (hlen : arr0.length = c._Size) : Inv c (init arr0) := by
  refine ⟨hlen, hN, Nat.zero_le _, ?_⟩
  show 0 = (0 + 0) % c._Size
  simp

/-- Every public mutator returns without a fault and keeps the invariant. -/
theorem srb_exec_inv (c : TemplateArgs) (s : safe_ringbuffer T) (call : Call T)
    (hinv : Inv c s) : ∃ s1, exec c s call = .ok s1 ∧ Inv c s1 := by
  have hsz := hinv.2.2.1
  have hforce : ∀ v, ∃ s1, push_back_force c s v = .ok s1 ∧ Inv c s1 := by
    intro v
    by_cases hfull : s._size = c._Size
    · obtain ⟨x, s1, h1, hinv1, -⟩ := srb_push_back_force_full c s v hinv hfull
      exact ⟨s1, h1, hinv1⟩
    · obtain ⟨s1, h1, hinv1, -⟩ := srb_push_back_force_not_full c s v hinv (by omega)
      exact ⟨s1, h1, hinv1⟩
  have hpush : ∀ v, ∃ b s1, push_back c s v = .ok (b, s1) ∧ Inv c s1 := by
    intro v
    by_cases hfull : s._size = c._Size
    · exact ⟨false, s, by simp [push_back, _full, capacity, hfull], hinv⟩
    · obtain ⟨s1, h1, hinv1, -⟩ := srb_push_back_spec c s v hinv (by omega)
      exact ⟨true, s1, h1, hinv1⟩
  cases call with
  | push_back v =>
    obtain ⟨b, s1, h1, hinv1⟩ := hpush v
    exact ⟨s1, by simp [exec, h1], hinv1⟩
  | push_back_force v =>
    obtain ⟨s1, h1, hinv1⟩ := hforce v
    exact ⟨s1, by simp [exec, h1], hinv1⟩
  | push_back_notify v =>
    obtain ⟨b, s1, h1, hinv1⟩ := hpush v
    exact ⟨s1, by simp [exec, push_back_notify_eq, h1, Except.map], hinv1⟩
  | push_back_force_notify v =>
    obtain ⟨s1, h1, hinv1⟩ := hforce v
    exact ⟨s1, by simp [exec, push_back_force_notify_eq, h1, Except.map], hinv1⟩
  | pull_front item =>
    by_cases hempty : s._size = 0
    · exact ⟨s, by simp [exec, srb_pull_front_empty c s item hempty], hinv⟩
    · obtain ⟨x, s1, h1, hinv1, -⟩ := srb_pull_front_spec c s item hinv (by omega)
      exact ⟨s1, by simp [exec, h1], hinv1⟩
  | fill v =>
    obtain ⟨hlen, hf, hsz, hb⟩ := hinv
    exact ⟨_, rfl, by simpa [fill] using hlen, hf, hsz, hb⟩
  | clear =>
    obtain ⟨hlen, hf, hsz, hb⟩ := hinv
    refine ⟨_, rfl, hlen, by show 0 < c._Size; omega, Nat.zero_le _, ?_⟩
    show 0 = (0 + 0) % c._Size
    simp

theorem srb_run_inv (c : TemplateArgs) (calls : List (Call T)) :
    ∀ s : safe_ringbuffer T, Inv c s → ∃ s1, run c s calls = .ok s1 ∧ Inv c s1 := by
  induction calls with
  | nil => intro s hinv; exact ⟨s, rfl, hinv⟩
  | cons call rest ih =>
    intro s hinv
    obtain ⟨s1, h1, hinv1⟩ := srb_exec_inv c s call hinv
    obtain ⟨s2, h2, hinv2⟩ := ih s1 hinv1
    exact ⟨s2, by simp [run, h1, h2], hinv2⟩

end safe_ringbuffer

/-- C17: for a capacity of at least 1, `_size ≤ _Size` holds in a freshly
constructed `ringbuffer` and `safe_ringbuffer` (together with the rest of the
representation invariant), every public mutator (`push_back`, `push_back_force`,
`push_back_notify`, `push_back_force_notify`, `pull_front`, `fill`, `clear`) called
in a state satisfying the invariant returns without a fault in a state that
satisfies it again, and so `_size ≤ _Size` holds after every sequence of calls on
a fresh buffer. -/
theorem size_never_exceeds_capacity {T : Type} [Zero T] [Add T] [Sub T] [Mul T] [NatCast T]
    (c : TemplateArgs) (arr0 : List T) (sum0 : T) (r : ringbuffer T) (ss : safe_ringbuffer T)
    (call : ringbuffer.Call T) (scall : safe_ringbuffer.Call T)
    (calls : List (ringbuffer.Call T)) (scalls : List (safe_ringbuffer.Call T))
    (hN : 1 ≤ c._Size) (hlen : arr0.length = c._Size)
    (hr : ringbuffer.Inv c r) (hs : safe_ringbuffer.Inv c ss) :
    (ringbuffer.Inv c (ringbuffer.init arr0 sum0) ∧
      (ringbuffer.init arr0 sum0)._size ≤ c._Size) ∧
    (safe_ringbuffer.Inv c (safe_ringbuffer.init arr0) ∧
      (safe_ringbuffer.init arr0)._size ≤ c._Size) ∧
    (∃ r1, ringbuffer.exec c r call = .ok r1 ∧ ringbuffer.Inv c r1 ∧ r1._size ≤ c._Size) ∧
    (∃ s1, safe_ringbuffer.exec c ss scall = .ok s1 ∧ safe_ringbuffer.Inv c s1 ∧
      s1._size ≤ c._Size) ∧
    (∃ r1, ringbuffer.run c (ringbuffer.init arr0 sum0) calls = .ok r1 ∧
      r1._size ≤ c._Size) ∧
    (∃ s1, safe_ringbuffer.run c (safe_ringbuffer.init arr0) scalls = .ok s1 ∧
      s1._size ≤ c._Size) := by
  have hi := ringbuffer.inv_init c arr0 sum0 hN hlen
  have hsi := safe_ringbuffer.srb_inv_init c arr0 hN hlen
  refine ⟨⟨hi, hi.2.2.1⟩, ⟨hsi, hsi.2.2.1⟩, ?_, ?_, ?_, ?_⟩
  · obtain ⟨r1, h1, hinv1⟩ := ringbuffer.exec_inv c r call hr
    exact ⟨r1, h1, hinv1, hinv1.2.2.1⟩
  · obtain ⟨s1, h1, hinv1⟩ := safe_ringbuffer.srb_exec_inv c ss scall hs
    exact ⟨s1, h1, hinv1, hinv1.2.2.1⟩
  · obtain ⟨r1, h1, hinv1⟩ := ringbuffer.run_inv c calls _ hi
    exact ⟨r1, h1, hinv1.2.2.1⟩
  · obtain ⟨s1, h1, hinv1⟩ := safe_ringbuffer.srb_run_inv c scalls _ hsi
    exact ⟨s1, h1, hinv1.2.2.1⟩

/-- C17 at capacity 2: a forced push into a full buffer, and three pushes, a fill
and a forced push on a fresh buffer. -/
theorem size_never_exceeds_capacity_witness :
    1 ≤ (TemplateArgs.mk 2 false true)._Size ∧
    [0, 0].length = (TemplateArgs.mk 2 false true)._Size ∧
    ringbuffer.Inv (TemplateArgs.mk 2 false true) ⟨[1, 2], 1, 1, 2, (3 : Int), []⟩ ∧
    safe_ringbuffer.Inv (TemplateArgs.mk 2 false true) ⟨[1, 2], 1, 1, 2, ([] : List Int)⟩ ∧
    (∃ r1, ringbuffer.exec (TemplateArgs.mk 2 false true) ⟨[1, 2], 1, 1, 2, (3 : Int), []⟩
        (ringbuffer.Call.push_back_force 9) = .ok r1 ∧ r1._size ≤ 2) ∧
    (∃ s1, safe_ringbuffer.exec (TemplateArgs.mk 2 false true)
        ⟨[1, 2], 1, 1, 2, ([] : List Int)⟩
        (safe_ringbuffer.Call.push_back_force_notify 9) = .ok s1 ∧ s1._size ≤ 2) ∧
    (∃ r1, ringbuffer.run (TemplateArgs.mk 2 false true) (ringbuffer.init [0, 0] (0 : Int))
        [ringbuffer.Call.push_back 1, ringbuffer.Call.push_back 2, ringbuffer.Call.push_back 3,
         ringbuffer.Call.fill 4, ringbuffer.Call.push_back_force 5] = .ok r1 ∧
      r1._size ≤ 2) := by
  obtain ⟨-, -, ⟨r1, h1, -, h2⟩, ⟨s1, h3, -, h4⟩, ⟨r2, h5, h6⟩, -⟩ :=
    size_never_exceeds_capacity (TemplateArgs.mk 2 false true) [0, 0] (0 : Int)
      ⟨[1, 2], 1, 1, 2, (3 : Int), []⟩ ⟨[1, 2], 1, 1, 2, ([] : List Int)⟩
      (ringbuffer.Call.push_back_force 9) (safe_ringbuffer.Call.push_back_force_notify 9)
      [ringbuffer.Call.push_back 1, ringbuffer.Call.push_back 2, ringbuffer.Call.push_back 3,
       ringbuffer.Call.fill 4, ringbuffer.Call.push_back_force 5] []
      (by decide) rfl (by decide) (by decide)
  exact ⟨by decide, rfl, by decide, by decide, ⟨r1, h1, h2⟩, ⟨s1, h3, h4⟩, ⟨r2, h5, h6⟩⟩

/-- C19: `clear()` puts both cursors on the first slot and `_size` to 0 and leaves
the deletion trace as it was, in `ringbuffer` and in `safe_ringbuffer`, whatever
the element type; destroying the cleared container then performs no successful
`pull_front` and deletes nothing, so the pointers held before `clear()` are
deleted neither by `clear()` nor by that destruction. -/
theorem clear_deletes_nothing {T : Type} [Zero T] (c : TemplateArgs) (r : ringbuffer T)
    (ss : safe_ringbuffer T) (del : T) (fuel : Nat) :
    ((ringbuffer.clear c r).back_it = 0 ∧ (ringbuffer.clear c r).front_it = 0 ∧
      (ringbuffer.clear c r)._size = 0 ∧ (ringbuffer.clear c r).deleted = r.deleted ∧
      (ringbuffer.clear c r).arr = r.arr ∧
      ringbuffer.live c (ringbuffer.clear c r) = [] ∧
      ringbuffer.destructor c (fuel + 1) (ringbuffer.clear c r) del
        = some (.ok (0, ringbuffer.clear c r))) ∧
    ((safe_ringbuffer.clear ss).back_it = 0 ∧ (safe_ringbuffer.clear ss).front_it = 0 ∧
      (safe_ringbuffer.clear ss)._size = 0 ∧ (safe_ringbuffer.clear ss).deleted = ss.deleted ∧
      (safe_ringbuffer.clear ss).arr = ss.arr ∧
      safe_ringbuffer.live c (safe_ringbuffer.clear ss) = [] ∧
      safe_ringbuffer.destructor c (fuel + 1) (safe_ringbuffer.clear ss) del
        = some (.ok (0, safe_ringbuffer.clear ss))) := by
  refine ⟨⟨rfl, rfl, rfl, rfl, rfl, ringbuffer.live_of_size_zero c _ rfl, ?_⟩,
    ⟨rfl, rfl, rfl, rfl, rfl, safe_ringbuffer.srb_live_of_size_zero c _ rfl, ?_⟩⟩
  · cases hp : c.is_pointer
    · simp [ringbuffer.destructor, hp]
    · simp [ringbuffer.destructor, hp, ringbuffer.destructor_loop,
        ringbuffer.pull_front_empty c (ringbuffer.clear c r) del rfl]
  · cases hp : c.is_pointer
    · simp [safe_ringbuffer.destructor, hp]
    · simp [safe_ringbuffer.destructor, hp, safe_ringbuffer.destructor_loop,
        safe_ringbuffer.srb_pull_front_empty c (safe_ringbuffer.clear ss) del rfl]

/-- C19 on a pointer buffer of capacity 2 that holds 7 and 8: after `clear()` and
destruction nothing has been deleted. -/
theorem clear_deletes_nothing_witness :
    ringbuffer.clear (TemplateArgs.mk 2 true false) ⟨[7, 8], 0, 0, 2, (0 : Nat), []⟩
      = ⟨[7, 8], 0, 0, 0, 0, []⟩ ∧
    ringbuffer.destructor (TemplateArgs.mk 2 true false) 1
        (ringbuffer.clear (TemplateArgs.mk 2 true false) ⟨[7, 8], 0, 0, 2, (0 : Nat), []⟩) 0
      = some (.ok (0, ringbuffer.clear (TemplateArgs.mk 2 true false)
          ⟨[7, 8], 0, 0, 2, (0 : Nat), []⟩)) ∧
    (ringbuffer.clear (TemplateArgs.mk 2 true false)
      ⟨[7, 8], 0, 0, 2, (0 : Nat), []⟩).deleted = [] := by
  obtain ⟨⟨-, -, -, h4, -, -, h7⟩, -⟩ :=
    clear_deletes_nothing (TemplateArgs.mk 2 true false) ⟨[7, 8], 0, 0, 2, (0 : Nat), []⟩
      ⟨[7, 8], 0, 0, 2, ([] : List Nat)⟩ 0 0
  exact ⟨by decide, h7, h4⟩

/-! ## Recycling pool: where the allocated objects are -/

theorem count_eraseIdx_of_get? (a : Nat) :
    ∀ (l : List Nat) (i ptr : Nat), l.get? i = some ptr →
      l.count a = (l.eraseIdx i).count a + (if a = ptr then 1 else 0) := by
  intro l
  induction l with
  | nil => intro i ptr h; simp at h
  | cons y ys ih =>
    intro i ptr h
    cases i with
    | zero =>
      simp at h
      subst h
      by_cases hay : a = y
      · subst hay; simp
      · have hya : ¬ y = a := fun e => hay e.symm
        simp [List.count_cons, hay, hya]
    | succ j =>
      have h1 : ys.get? j = some ptr := by simpa using h
      have := ih j ptr h1
      simp only [List.eraseIdx_cons_succ, List.count_cons]
      omega

namespace Pool

/-- One pool operation returns without a fault and keeps: the ring buffer
invariant; every allocated object occurs as often among the outstanding handles,
the pooled pointers and the deleted pointers together as in the allocation
record; the allocation record has no duplicates and its numbers are bounded by
its length. -/
theorem step_keeps (c : TemplateArgs) (p : Pool) (op : PoolOp) (hp : c.is_pointer = true)
    (hinv : ringbuffer.Inv c p.buf)
    (hcount : ∀ a, p.allocated.count a
      = p.held.count a + (ringbuffer.live c p.buf).count a + p.buf.deleted.count a)
    (hnd : p.allocated.Nodup) (hle : ∀ x ∈ p.allocated, x ≤ p.allocated.length) :
    ∃ p1, step c p op = .ok p1 ∧ ringbuffer.Inv c p1.buf ∧
      (∀ a, p1.allocated.count a
        = p1.held.count a + (ringbuffer.live c p1.buf).count a + p1.buf.deleted.count a) ∧
      p1.allocated.Nodup ∧ (∀ x ∈ p1.allocated, x ≤ p1.allocated.length) := by
  have hsz := hinv.2.2.1
  cases op with
  | borrow =>
    by_cases hempty : p.buf._size = 0
    · have hpull := ringbuffer.pull_front_empty c p.buf 0 hempty
      have hnot : p.allocated.length + 1 ∉ p.allocated := by
        intro hmem
        have := hle _ hmem
        omega
      refine ⟨{ buf := p.buf, held := p.held ++ [p.allocated.length + 1],
                allocated := p.allocated ++ [p.allocated.length + 1] }, ?_, hinv, ?_, ?_, ?_⟩
      · simp [step, ringbuffer.pull_front_auto_recycle, hpull]
      · intro a
        have := hcount a
        simp only [List.count_append]
        omega
      · exact (List.perm_append_singleton _ _).nodup_iff.mpr
          (List.nodup_cons.mpr ⟨hnot, hnd⟩)
      · intro x hx
        simp only [List.mem_append, List.mem_singleton, List.length_append,
          List.length_singleton] at hx ⊢
        rcases hx with hx | hx
        · have := hle x hx
          omega
        · omega
    · obtain ⟨x, s1, h1, hinv1, hlive1, -, hdel1, -, -⟩ :=
        ringbuffer.pull_front_spec c p.buf 0 hinv (by omega)
      refine ⟨{ buf := s1, held := p.held ++ [x], allocated := p.allocated }, ?_, hinv1,
        ?_, hnd, hle⟩
      · simp [step, ringbuffer.pull_front_auto_recycle, h1]
      · intro a
        have := hcount a
        rw [hlive1] at this
        simp only [List.count_append, List.count_cons, List.count_nil, hdel1] at this ⊢
        omega
  | release i =>
    cases hget : p.held.get? i with
    | none => exact ⟨p, by simp only [step, hget], hinv, hcount, hnd, hle⟩
    | some ptr =>
      have herase := fun a => count_eraseIdx_of_get? a p.held i ptr hget
      by_cases hfull : p.buf._size = c._Size
      · obtain ⟨x, s1, h1, hinv1, hlive1, hhead, -, hdel1, -⟩ :=
          ringbuffer.push_back_force_full c p.buf ptr hinv hfull
        rw [hp] at hdel1
        simp only [if_true] at hdel1
        obtain ⟨rest, hrest⟩ : ∃ rest, ringbuffer.live c p.buf = x :: rest := by
          cases hl : ringbuffer.live c p.buf with
          | nil => rw [hl] at hhead; simp at hhead
          | cons y ys => rw [hl] at hhead; simp at hhead; exact ⟨ys, by rw [hhead]⟩
        refine ⟨{ p with buf := s1, held := p.held.eraseIdx i }, ?_, hinv1, ?_, hnd, hle⟩
        · simp only [step, hget, ringbuffer.handle_release, h1]
        · intro a
          have h1 := hcount a
          have h2 := herase a
          rw [hrest] at h1
          show p.allocated.count a = (p.held.eraseIdx i).count a
            + (ringbuffer.live c s1).count a + s1.deleted.count a
          rw [hlive1, hdel1, hrest]
          simp only [List.count_append, List.count_cons, List.count_nil, List.tail_cons] at h1 ⊢
          by_cases hap : a = ptr
          · subst hap
            rw [if_pos rfl] at h2
            simp only [beq_self_eq_true, if_true] at h1 ⊢
            omega
          · have hpa : (ptr == a) = false := by
              simpa using fun e : ptr = a => hap e.symm
            rw [if_neg hap] at h2
            simp only [hpa, Bool.false_eq_true, if_false] at h1 ⊢
            omega
      · obtain ⟨s1, h1, hinv1, hlive1, -, hdel1, -⟩ :=
          ringbuffer.push_back_force_not_full c p.buf ptr hinv (by omega)
        refine ⟨{ p with buf := s1, held := p.held.eraseIdx i }, ?_, hinv1, ?_, hnd, hle⟩
        · simp only [step, hget, ringbuffer.handle_release, h1]
        · intro a
          have h1 := hcount a
          have h2 := herase a
          show p.allocated.count a = (p.held.eraseIdx i).count a
            + (ringbuffer.live c s1).count a + s1.deleted.count a
          rw [hlive1, hdel1]
          simp only [List.count_append, List.count_cons, List.count_nil] at h1 ⊢
          by_cases hap : a = ptr
          · subst hap
            rw [if_pos rfl] at h2
            simp only [beq_self_eq_true, if_true] at h1 ⊢
            omega
          · have hpa : (ptr == a) = false := by
              simpa using fun e : ptr = a => hap e.symm
            rw [if_neg hap] at h2
            simp only [hpa, Bool.false_eq_true, if_false] at h1 ⊢
            omega

theorem run_keeps (c : TemplateArgs) (ops : List PoolOp) (hp : c.is_pointer = true) :
    ∀ p : Pool, ringbuffer.Inv c p.buf →
      (∀ a, p.allocated.count a
        = p.held.count a + (ringbuffer.live c p.buf).count a + p.buf.deleted.count a) →
      p.allocated.Nodup → (∀ x ∈ p.allocated, x ≤ p.allocated.length) →
      ∃ p1, run c p ops = .ok p1 ∧
        (∀ a, p1.allocated.count a
          = p1.held.count a + (ringbuffer.live c p1.buf).count a
            + p1.buf.deleted.count a) ∧
        p1.allocated.Nodup := by
  induction ops with
  | nil => intro p _ hcount hnd _; exact ⟨p, rfl, hcount, hnd⟩
  | cons op rest ih =>
    intro p hinv hcount hnd hle
    obtain ⟨p1, h1, hinv1, hcount1, hnd1, hle1⟩ := step_keeps c p op hp hinv hcount hnd hle
    obtain ⟨p2, h2, hcount2, hnd2⟩ := ih p1 hinv1 hcount1 hnd1 hle1
    exact ⟨p2, by simp [run, h1, h2], hcount2, hnd2⟩

end Pool

/-- C14, as the code has it: after every sequence of borrows and handle releases
on a recycling pool over a pointer `ringbuffer` of capacity at least 1, no
operation has hit a fault and every object ever allocated by a borrow is in
exactly one of three places, exactly once: with an outstanding handle, in the
pool, or among the objects deleted by the eviction that a release into a full
pool performs. -/
theorem pool_object_held_pooled_or_evicted (c : TemplateArgs) (arr0 : List Nat)
    (ops : List PoolOp) (hN : 1 ≤ c._Size) (hp : c.is_pointer = true)
    (hlen : arr0.length = c._Size) :
    ∃ p, Pool.run c (Pool.start arr0) ops = .ok p ∧
      p.allocated.Perm (p.held ++ ringbuffer.live c p.buf ++ p.buf.deleted) ∧
      p.allocated.Nodup ∧
      (p.held ++ ringbuffer.live c p.buf ++ p.buf.deleted).Nodup := by
  have hinv : ringbuffer.Inv c (Pool.start arr0).buf := ringbuffer.inv_init c arr0 0 hN hlen
  obtain ⟨p, hrun, hcount, hnd⟩ := Pool.run_keeps c ops hp (Pool.start arr0) hinv
    (by intro a; simp [Pool.start, ringbuffer.init, ringbuffer.live])
    (by simp [Pool.start]) (by simp [Pool.start])
  have hperm : p.allocated.Perm (p.held ++ ringbuffer.live c p.buf ++ p.buf.deleted) := by
    rw [List.perm_iff_count]
    intro a
    rw [hcount a]
    simp only [List.count_append]
  exact ⟨p, hrun, hperm, hnd, hperm.nodup_iff.mp hnd⟩

/-- C14 on a pool of capacity 2: two borrows, both handles released, one more
borrow; object 1 is handed out again and object 2 waits in the pool. -/
theorem pool_object_held_pooled_or_evicted_witness :
    1 ≤ (TemplateArgs.mk 2 true false)._Size ∧
    [0, 0].length = (TemplateArgs.mk 2 true false)._Size ∧
    Pool.run (TemplateArgs.mk 2 true false) (Pool.start [0, 0])
        [PoolOp.borrow, PoolOp.borrow, PoolOp.release 0, PoolOp.release 0, PoolOp.borrow]
      = .ok ⟨⟨[1, 2], 0, 1, 1, 0, []⟩, [1], [1, 2]⟩ ∧
    [1, 2].Perm ([1] ++ ringbuffer.live (TemplateArgs.mk 2 true false)
      ⟨[1, 2], 0, 1, 1, 0, []⟩ ++ []) := by
  obtain ⟨p, hrun, hperm, -, -⟩ :=
    pool_object_held_pooled_or_evicted (TemplateArgs.mk 2 true false) [0, 0]
      [PoolOp.borrow, PoolOp.borrow, PoolOp.release 0, PoolOp.release 0, PoolOp.borrow]
      (by decide) rfl rfl
  have hconc : Pool.run (TemplateArgs.mk 2 true false) (Pool.start [0, 0])
      [PoolOp.borrow, PoolOp.borrow, PoolOp.release 0, PoolOp.release 0, PoolOp.borrow]
      = .ok ⟨⟨[1, 2], 0, 1, 1, 0, []⟩, [1], [1, 2]⟩ := by decide
  rw [hconc] at hrun
  have hh : p = ⟨⟨[1, 2], 0, 1, 1, 0, []⟩, [1], [1, 2]⟩ := (Except.ok.inj hrun).symm
  subst hh
  exact ⟨by decide, rfl, hconc, hperm⟩

/-- C14 fails as stated: on a pool of capacity 1, after two borrows (objects 1 and
2) and the release of both handles, the second release finds the pool full,
evicts object 1 and deletes it; object 1 is then neither with a handle nor in the
pool. -/
theorem pool_release_into_full_pool_deletes :
    Pool.run (TemplateArgs.mk 1 true false) (Pool.start [0])
        [PoolOp.borrow, PoolOp.borrow, PoolOp.release 0, PoolOp.release 0]
      = .ok ⟨⟨[2], 0, 0, 1, 0, [1]⟩, [], [1, 2]⟩ ∧
    ringbuffer.live (TemplateArgs.mk 1 true false) ⟨[2], 0, 0, 1, (0 : Nat), [1]⟩ = [2] ∧
    1 ∈ [1, 2] ∧ 1 ∉ ([] : List Nat) ∧ 1 ∉ [2] := by
  decide

/-! ## `fill` on a buffer of pointers -/

/-- C15: on a `ringbuffer<int*, 2>` the calls `push_back(1)`, `push_back(2)`,
`fill(3)` leave two live slots that both hold the pointer 3; the destructor then
pulls twice and executes `delete` on the pointer 3 twice. -/
theorem ringbuffer_fill_then_destroy_deletes_twice :
    ringbuffer.run (TemplateArgs.mk 2 true false) (ringbuffer.init [0, 0] (0 : Nat))
        [ringbuffer.Call.push_back 1, ringbuffer.Call.push_back 2, ringbuffer.Call.fill 3]
      = .ok ⟨[3, 3], 0, 0, 2, 0, []⟩ ∧
    ringbuffer.destructor (TemplateArgs.mk 2 true false) 3 ⟨[3, 3], 0, 0, 2, (0 : Nat), []⟩ 0
      = some (.ok (2, ⟨[3, 3], 0, 0, 0, 0, [3, 3]⟩)) ∧
    ¬ ([3, 3] : List Nat).Nodup := by
  decide

namespace ringbuffer

variable {T : Type}

/-- Without `fill`, a call keeps the deleted pointers, the held pointers and the
pointers still to be pushed pairwise distinct. -/
theorem exec_keeps_distinct [Zero T] [Add T] [Sub T] [Mul T] [NatCast T] (c : TemplateArgs)
    (s : ringbuffer T) (call : Call T) (rest : List T) (hp : c.is_pointer = true)
    (hinv : Inv c s) (hnf : call.is_fill = false)
    (hnd : (s.deleted ++ live c s ++ (call.pushed ++ rest)).Nodup) :
    ∃ s1, exec c s call = .ok s1 ∧ Inv c s1 ∧ (s1.deleted ++ live c s1 ++ rest).Nodup := by
  have hsz := hinv.2.2.1
  cases call with
  | push_back v =>
    by_cases hfull : s._size = c._Size
    · refine ⟨s, by simp [exec, push_back, full, capacity, hfull], hinv, ?_⟩
      have h : ((s.deleted ++ live c s) ++ v :: rest).Nodup := by
        simpa [Call.pushed] using hnd
      exact (List.nodup_middle.mp h).of_cons
    · obtain ⟨s1, h1, hinv1, hlive1, -, hdel1, -⟩ := push_back_spec c s v hinv (by omega)
      refine ⟨s1, by simp [exec, h1], hinv1, ?_⟩
      rw [hlive1, hdel1]
      simpa [Call.pushed] using hnd
  | push_back_force v =>
    by_cases hfull : s._size = c._Size
    · obtain ⟨x, s1, h1, hinv1, hlive1, hhead, -, hdel1, -⟩ :=
        push_back_force_full c s v hinv hfull
      rw [hp] at hdel1
      simp only [if_true] at hdel1
      obtain ⟨tl, htl⟩ : ∃ tl, live c s = x :: tl := by
        cases hl : live c s with
        | nil => rw [hl] at hhead; simp at hhead
        | cons y ys => rw [hl] at hhead; simp at hhead; exact ⟨ys, by rw [hhead]⟩
      refine ⟨s1, by simp [exec, h1], hinv1, ?_⟩
      rw [hlive1, hdel1, htl]
      rw [htl] at hnd
      simpa [Call.pushed] using hnd
    · obtain ⟨s1, h1, hinv1, hlive1, -, hdel1, -⟩ :=
        push_back_force_not_full c s v hinv (by omega)
      refine ⟨s1, by simp [exec, h1], hinv1, ?_⟩
      rw [hlive1, hdel1]
      simpa [Call.pushed] using hnd
  | pull_front item =>
    have hnd1 : (s.deleted ++ live c s ++ rest).Nodup := by simpa [Call.pushed] using hnd
    by_cases hempty : s._size = 0
    · exact ⟨s, by simp [exec, pull_front_empty c s item hempty], hinv, hnd1⟩
    · obtain ⟨x, s1, h1, hinv1, hlive1, -, hdel1, -, -⟩ :=
        pull_front_spec c s item hinv (by omega)
      refine ⟨s1, by simp [exec, h1], hinv1, ?_⟩
      rw [hlive1] at hnd1
      rw [hdel1]
      have h : (s.deleted ++ x :: (live c s1 ++ rest)).Nodup := by simpa using hnd1
      simpa using (List.nodup_middle.mp h).of_cons
  | fill v => simp [Call.is_fill] at hnf
  | clear =>
    have hnd1 : (s.deleted ++ live c s ++ rest).Nodup := by simpa [Call.pushed] using hnd
    refine ⟨clear c s, rfl, inv_clear c s hinv, ?_⟩
    rw [live_of_size_zero c (clear c s) rfl]
    show (s.deleted ++ [] ++ rest).Nodup
    refine hnd1.sublist ?_
    simp

theorem run_keeps_distinct [Zero T] [Add T] [Sub T] [Mul T] [NatCast T] (c : TemplateArgs)
    (calls : List (Call T)) (hp : c.is_pointer = true) :
    ∀ s : ringbuffer T, Inv c s → (∀ call ∈ calls, call.is_fill = false) →
      (s.deleted ++ live c s ++ calls.flatMap Call.pushed).Nodup →
      ∃ s1, run c s calls = .ok s1 ∧ Inv c s1 ∧ (s1.deleted ++ live c s1).Nodup := by
  induction calls with
  | nil =>
    intro s hinv _ hnd
    exact ⟨s, rfl, hinv, by simpa using hnd⟩
  | cons call rest ih =>
    intro s hinv hnf hnd
    obtain ⟨s1, h1, hinv1, hnd1⟩ :=
      exec_keeps_distinct c s call (rest.flatMap Call.pushed) hp hinv
        (hnf call (List.mem_cons_self _ _)) (by simpa [List.flatMap_cons] using hnd)
    obtain ⟨s2, h2, hinv2, hnd2⟩ :=
      ih s1 hinv1 (fun call hc => hnf call (List.mem_cons_of_mem _ hc)) hnd1
    exact ⟨s2, by simp [run, h1, h2], hinv2, hnd2⟩

/-- Without `fill`: after any sequence of `push_back`, `push_back_force`,
`pull_front` and `clear` calls with pairwise distinct pointer arguments on a fresh
pointer buffer, followed by destruction, no pointer has been deleted twice. -/
theorem no_double_delete_without_fill [Zero T] [Add T] [Sub T] [Mul T] [NatCast T]
    (c : TemplateArgs) (arr0 : List T) (sum0 del : T) (calls : List (Call T)) (fuel : Nat)
    (hN : 1 ≤ c._Size) (hp : c.is_pointer = true) (hlen : arr0.length = c._Size)
    (hnf : ∀ call ∈ calls, call.is_fill = false)
    (hnd : (calls.flatMap Call.pushed).Nodup) (hfuel : c._Size < fuel) :
    ∃ s1 k s2, run c (init arr0 sum0) calls = .ok s1 ∧
      destructor c fuel s1 del = some (.ok (k, s2)) ∧ s2.deleted.Nodup := by
  obtain ⟨s1, h1, hinv1, hnd1⟩ :=
    run_keeps_distinct c calls hp (init arr0 sum0) (inv_init c arr0 sum0 hN hlen) hnf
      (by simpa [init, live] using hnd)
  obtain ⟨s2, h2, hdel2, -, -⟩ :=
    destructor_loop_spec c s1._size s1 del fuel hinv1 rfl (by have := hinv1.2.2.1; omega)
  exact ⟨s1, s1._size, s2, h1, by simp [destructor, hp, h2], by rw [hdel2]; exact hnd1⟩

end ringbuffer

/-! ## The ring buffer as a bounded FIFO queue -/

/-- C21: in every state reached from an empty ring buffer of capacity at least 1
by a sequence of public calls (`push_back`, `push_back_force`, `pull_front`,
`clear`, and also `fill`), wrapped cursors included, the back cursor is at index
`(front + _size) mod _Size`, both cursors are inside the array, and the `_size`
slots read from the front cursor with wrap-around behave as a queue bounded by
`_Size`: `push_back` on a non-full buffer returns true and appends its argument
at the end of that list, on a full buffer it returns false and changes nothing;
`pull_front` on a non-empty buffer returns true with the head of the list and
leaves its tail, on an empty buffer it returns false. -/
theorem ringbuffer_is_bounded_fifo_queue {T : Type} [Zero T] [Add T] [Sub T] [Mul T]
    [NatCast T] (c : TemplateArgs) (s0 : ringbuffer T) (calls : List (ringbuffer.Call T))
    (v item : T) (_hN : 1 ≤ c._Size) (hinv0 : ringbuffer.Inv c s0) (_hempty : s0._size = 0) :
    ∃ s, ringbuffer.run c s0 calls = .ok s ∧
      s.back_it = (s.front_it + s._size) % c._Size ∧
      s.front_it < c._Size ∧ s.back_it < c._Size ∧
      (ringbuffer.live c s).length = s._size ∧ s._size ≤ c._Size ∧
      (s._size < c._Size → ∃ s1, ringbuffer.push_back c s v = .ok (true, s1) ∧
        ringbuffer.live c s1 = ringbuffer.live c s ++ [v]) ∧
      (s._size = c._Size → ringbuffer.push_back c s v = .ok (false, s)) ∧
      (0 < s._size → ∃ x s1, ringbuffer.pull_front c s item = .ok (true, x, s1) ∧
        ringbuffer.live c s = x :: ringbuffer.live c s1) ∧
      (s._size = 0 → ringbuffer.pull_front c s item = .ok (false, item, s)) := by
  obtain ⟨s, hrun, hinv⟩ := ringbuffer.run_inv c calls s0 hinv0
  have hf := hinv.2.1
  have hb := hinv.2.2.2
  refine ⟨s, hrun, hb, hf, ?_, ringbuffer.live_length c s hinv, hinv.2.2.1, ?_, ?_, ?_, ?_⟩
  · rw [hb]; exact Nat.mod_lt _ (by omega)
  · intro hlt
    obtain ⟨s1, h1, -, hlive, -⟩ := ringbuffer.push_back_spec c s v hinv hlt
    exact ⟨s1, h1, hlive⟩
  · intro hfull
    simp [ringbuffer.push_back, ringbuffer.full, ringbuffer.capacity, hfull]
  · intro hpos
    obtain ⟨x, s1, h1, -, hlive, -⟩ := ringbuffer.pull_front_spec c s item hinv hpos
    exact ⟨x, s1, h1, hlive⟩
  · intro hempty
    exact ringbuffer.pull_front_empty c s item hempty

/-- C21 at capacity 3 after pushes and pulls that wrap both cursors: the buffer
holds 3, 4 with the front cursor on the last slot and the back cursor on the
second. -/
theorem ringbuffer_is_bounded_fifo_queue_witness :
    1 ≤ (TemplateArgs.mk 3 false false)._Size ∧
    ringbuffer.Inv (TemplateArgs.mk 3 false false) (ringbuffer.init [0, 0, 0] (0 : Int)) ∧
    ringbuffer.run (TemplateArgs.mk 3 false false) (ringbuffer.init [0, 0, 0] (0 : Int))
        [ringbuffer.Call.push_back 9, ringbuffer.Call.clear, ringbuffer.Call.push_back 1,
       ringbuffer.Call.push_back 2, ringbuffer.Call.push_back 3, ringbuffer.Call.pull_front 0,
       ringbuffer.Call.pull_front 0, ringbuffer.Call.push_back_force 4]
      = .ok ⟨[4, 2, 3], 1, 2, 2, 0, []⟩ ∧
    (1 : Nat) = (2 + 2) % 3 ∧
    (∃ s1, ringbuffer.push_back (TemplateArgs.mk 3 false false)
        ⟨[4, 2, 3], 1, 2, 2, (0 : Int), []⟩ 9 = .ok (true, s1) ∧
      ringbuffer.live (TemplateArgs.mk 3 false false) s1
        = ringbuffer.live (TemplateArgs.mk 3 false false)
            ⟨[4, 2, 3], 1, 2, 2, (0 : Int), []⟩ ++ [9]) ∧
    (∃ x s1, ringbuffer.pull_front (TemplateArgs.mk 3 false false)
        ⟨[4, 2, 3], 1, 2, 2, (0 : Int), []⟩ 0 = .ok (true, x, s1) ∧
      ringbuffer.live (TemplateArgs.mk 3 false false) ⟨[4, 2, 3], 1, 2, 2, (0 : Int), []⟩
        = x :: ringbuffer.live (TemplateArgs.mk 3 false false) s1) := by
  obtain ⟨s, hrun, hb, -, -, -, -, hpush, -, hpull, -⟩ :=
    ringbuffer_is_bounded_fifo_queue (TemplateArgs.mk 3 false false)
      (ringbuffer.init [0, 0, 0] (0 : Int))
      [ringbuffer.Call.push_back 9, ringbuffer.Call.clear, ringbuffer.Call.push_back 1,
       ringbuffer.Call.push_back 2, ringbuffer.Call.push_back 3, ringbuffer.Call.pull_front 0,
       ringbuffer.Call.pull_front 0, ringbuffer.Call.push_back_force 4] 9 0 (by decide) (by decide) rfl
  have hconc : ringbuffer.run (TemplateArgs.mk 3 false false)
      (ringbuffer.init [0, 0, 0] (0 : Int))
      [ringbuffer.Call.push_back 9, ringbuffer.Call.clear, ringbuffer.Call.push_back 1,
       ringbuffer.Call.push_back 2, ringbuffer.Call.push_back 3, ringbuffer.Call.pull_front 0,
       ringbuffer.Call.pull_front 0, ringbuffer.Call.push_back_force 4]
      = .ok ⟨[4, 2, 3], 1, 2, 2, 0, []⟩ := by decide
  rw [hconc] at hrun
  have hs : s = ⟨[4, 2, 3], 1, 2, 2, 0, []⟩ := (Except.ok.inj hrun).symm
  subst hs
  exact ⟨by decide, by decide, hconc, hb, hpush (by decide), hpull (by decide)⟩

/-! ## The running sum under pushes -/

namespace ringbuffer

variable {T : Type}

/-- With sum tracking enabled, a `push_back` or `push_back_force` keeps `_sum`
equal to the sum of the held elements. -/
theorem exec_push_keeps_sum [Ring T] (c : TemplateArgs) (s : ringbuffer T) (call : Call T)
    (hse : c.sum_en = true) (hinv : Inv c s) (hsum : s._sum = (live c s).sum)
    (hpush : call.is_push = true) :
    ∃ s1, exec c s call = .ok s1 ∧ Inv c s1 ∧ s1._sum = (live c s1).sum := by
  have hsz := hinv.2.2.1
  cases call with
  | push_back v =>
    by_cases hfull : s._size = c._Size
    · exact ⟨s, by simp [exec, push_back, full, capacity, hfull], hinv, hsum⟩
    · obtain ⟨s1, h1, hinv1, hlive1, -, -, hsum1⟩ := push_back_spec c s v hinv (by omega)
      refine ⟨s1, by simp [exec, h1], hinv1, ?_⟩
      rw [hsum1, hlive1, hse, if_pos rfl, hsum, List.sum_append, List.sum_singleton]
  | push_back_force v =>
    by_cases hfull : s._size = c._Size
    · obtain ⟨x, s1, h1, hinv1, hlive1, hhead, -, -, hsum1⟩ :=
        push_back_force_full c s v hinv hfull
      obtain ⟨tl, htl⟩ : ∃ tl, live c s = x :: tl := by
        cases hl : live c s with
        | nil => rw [hl] at hhead; simp at hhead
        | cons y ys => rw [hl] at hhead; simp at hhead; exact ⟨ys, by rw [hhead]⟩
      refine ⟨s1, by simp [exec, h1], hinv1, ?_⟩
      rw [hsum1, hlive1, hse, if_pos rfl, hsum, htl, List.tail_cons, List.sum_append,
        List.sum_singleton, List.sum_cons]
      abel
    · obtain ⟨s1, h1, hinv1, hlive1, -, -, hsum1⟩ :=
        push_back_force_not_full c s v hinv (by omega)
      refine ⟨s1, by simp [exec, h1], hinv1, ?_⟩
      rw [hsum1, hlive1, hse, if_pos rfl, hsum, List.sum_append, List.sum_singleton]
  | pull_front item => simp [Call.is_push] at hpush
  | fill v => simp [Call.is_push] at hpush
  | clear => simp [Call.is_push] at hpush

theorem run_pushes_keep_sum [Ring T] (c : TemplateArgs) (calls : List (Call T))
    (hse : c.sum_en = true) :
    ∀ s : ringbuffer T, Inv c s → s._sum = (live c s).sum →
      (∀ call ∈ calls, call.is_push = true) →
      ∃ s1, run c s calls = .ok s1 ∧ Inv c s1 ∧ s1._sum = (live c s1).sum := by
  induction calls with
  | nil => intro s hinv hsum _; exact ⟨s, rfl, hinv, hsum⟩
  | cons call rest ih =>
    intro s hinv hsum hpush
    obtain ⟨s1, h1, hinv1, hsum1⟩ :=
      exec_push_keeps_sum c s call hse hinv hsum (hpush call (List.mem_cons_self _ _))
    obtain ⟨s2, h2, hinv2, hsum2⟩ :=
      ih s1 hinv1 hsum1 (fun call hc => hpush call (List.mem_cons_of_mem _ hc))
    exact ⟨s2, by simp [run, h1, h2], hinv2, hsum2⟩

end ringbuffer

/-- C22, for an element type with exact arithmetic: with sum tracking enabled
(non-pointer `T`, `use_sum = true`), a capacity of at least 1 and a `T` whose `+`,
`-` and `0` are those of a ring (integers that do not overflow, unsigned integers
with their arithmetic modulo `2^w`; not floating point), after `clear()` followed
by any sequence of `push_back` and `push_back_force` calls, `sum()` equals the sum
of the held elements.  In the state reached, a `push_back` or `push_back_force`
on a non-full buffer adds exactly the pushed value to `sum()`, a `push_back` on a
full buffer is rejected and changes nothing, and a `push_back_force` on a full
buffer subtracts exactly the evicted front value and adds the pushed one; the
equality holds again afterwards. -/
theorem ringbuffer_sum_tracks_pushes {T : Type} [Ring T] (c : TemplateArgs)
    (s0 : ringbuffer T) (calls : List (ringbuffer.Call T)) (v : T)
    (hN : 1 ≤ c._Size) (huse : c.use_sum = true) (hptr : c.is_pointer = false)
    (hlen : s0.arr.length = c._Size)
    (hpush : ∀ call ∈ calls, call.is_push = true) :
    ∃ s, ringbuffer.run c (ringbuffer.clear c s0) calls = .ok s ∧
      ringbuffer.sum s = (ringbuffer.live c s).sum ∧
      (s._size < c._Size →
        (∃ s1, ringbuffer.push_back c s v = .ok (true, s1) ∧
          ringbuffer.sum s1 = ringbuffer.sum s + v ∧
          ringbuffer.sum s1 = (ringbuffer.live c s1).sum) ∧
        (∃ s2, ringbuffer.push_back_force c s v = .ok s2 ∧
          ringbuffer.sum s2 = ringbuffer.sum s + v ∧
          ringbuffer.sum s2 = (ringbuffer.live c s2).sum)) ∧
      (s._size = c._Size →
        ringbuffer.push_back c s v = .ok (false, s) ∧
        ∃ x s2, (ringbuffer.live c s).head? = some x ∧
          ringbuffer.push_back_force c s v = .ok s2 ∧
          ringbuffer.sum s2 = ringbuffer.sum s - x + v ∧
          ringbuffer.sum s2 = (ringbuffer.live c s2).sum) := by
  have hse : c.sum_en = true := by simp [TemplateArgs.sum_en, huse, hptr]
  have hinv0 : ringbuffer.Inv c (ringbuffer.clear c s0) := by
    refine ⟨hlen, hN, Nat.zero_le _, ?_⟩
    show 0 = (0 + 0) % c._Size
    simp
  have hsum0 : (ringbuffer.clear c s0)._sum
      = (ringbuffer.live c (ringbuffer.clear c s0)).sum := by
    rw [ringbuffer.live_of_size_zero c _ rfl]
    simp [ringbuffer.clear, hse]
  obtain ⟨s, hrun, hinv, hsum⟩ :=
    ringbuffer.run_pushes_keep_sum c calls hse _ hinv0 hsum0 hpush
  refine ⟨s, hrun, hsum, ?_, ?_⟩
  · intro hlt
    obtain ⟨s1, h1, -, hlive1, -, -, hsum1⟩ := ringbuffer.push_back_spec c s v hinv hlt
    obtain ⟨s2, h2, -, hlive2, -, -, hsum2⟩ :=
      ringbuffer.push_back_force_not_full c s v hinv hlt
    rw [hse, if_pos rfl] at hsum1 hsum2
    refine ⟨⟨s1, h1, hsum1, ?_⟩, ⟨s2, h2, hsum2, ?_⟩⟩
    · show s1._sum = _
      rw [hsum1, hlive1, hsum, List.sum_append, List.sum_singleton]
    · show s2._sum = _
      rw [hsum2, hlive2, hsum, List.sum_append, List.sum_singleton]
  · intro hfull
    refine ⟨by simp [ringbuffer.push_back, ringbuffer.full, ringbuffer.capacity, hfull], ?_⟩
    obtain ⟨x, s2, h2, -, hlive2, hhead, -, -, hsum2⟩ :=
      ringbuffer.push_back_force_full c s v hinv hfull
    rw [hse, if_pos rfl] at hsum2
    obtain ⟨tl, htl⟩ : ∃ tl, ringbuffer.live c s = x :: tl := by
      cases hl : ringbuffer.live c s with
      | nil => rw [hl] at hhead; simp at hhead
      | cons y ys => rw [hl] at hhead; simp at hhead; exact ⟨ys, by rw [hhead]⟩
    refine ⟨x, s2, hhead, h2, hsum2, ?_⟩
    show s2._sum = _
    rw [hsum2, hlive2, hsum, htl, List.tail_cons, List.sum_append, List.sum_singleton,
      List.sum_cons]
    abel

/-- C22 on a `ringbuffer<int, 2, true>` whose `_sum` starts at an arbitrary value:
`clear()`, `push_back(5)`, `push_back_force(6)`, a rejected `push_back(7)` and
`push_back_force(8)`, which evicts 5, leave 6, 8 with `sum()` = 14; a further
`push_back_force(1)` evicts 6 and gives `sum()` = 14 - 6 + 1. -/
theorem ringbuffer_sum_tracks_pushes_witness :
    1 ≤ (TemplateArgs.mk 2 false true)._Size ∧
    ringbuffer.run (TemplateArgs.mk 2 false true)
        (ringbuffer.clear (TemplateArgs.mk 2 false true) (ringbuffer.init [0, 0] (99 : Int)))
        [ringbuffer.Call.push_back 5, ringbuffer.Call.push_back_force 6,
         ringbuffer.Call.push_back 7, ringbuffer.Call.push_back_force 8]
      = .ok ⟨[8, 6], 1, 1, 2, 14, []⟩ ∧
    ringbuffer.sum (⟨[8, 6], 1, 1, 2, 14, []⟩ : ringbuffer Int)
      = (ringbuffer.live (TemplateArgs.mk 2 false true)
          (⟨[8, 6], 1, 1, 2, 14, []⟩ : ringbuffer Int)).sum ∧
    ringbuffer.push_back (TemplateArgs.mk 2 false true) ⟨[8, 6], 1, 1, 2, (14 : Int), []⟩ 1
      = .ok (false, ⟨[8, 6], 1, 1, 2, 14, []⟩) ∧
    (∃ x s2, (ringbuffer.live (TemplateArgs.mk 2 false true)
          (⟨[8, 6], 1, 1, 2, 14, []⟩ : ringbuffer Int)).head? = some x ∧
      ringbuffer.push_back_force (TemplateArgs.mk 2 false true)
          ⟨[8, 6], 1, 1, 2, (14 : Int), []⟩ 1 = .ok s2 ∧
      ringbuffer.sum s2 = 14 - x + 1) := by
  obtain ⟨s, hrun, hsum, -, hfull⟩ :=
    ringbuffer_sum_tracks_pushes (TemplateArgs.mk 2 false true)
      (ringbuffer.init [0, 0] (99 : Int))
      [ringbuffer.Call.push_back 5, ringbuffer.Call.push_back_force 6,
       ringbuffer.Call.push_back 7, ringbuffer.Call.push_back_force 8] 1
      (by decide) rfl rfl rfl (by decide)
  have hconc : ringbuffer.run (TemplateArgs.mk 2 false true)
      (ringbuffer.clear (TemplateArgs.mk 2 false true) (ringbuffer.init [0, 0] (99 : Int)))
      [ringbuffer.Call.push_back 5, ringbuffer.Call.push_back_force 6,
       ringbuffer.Call.push_back 7, ringbuffer.Call.push_back_force 8]
      = .ok ⟨[8, 6], 1, 1, 2, 14, []⟩ := by decide
  have hs : s = ⟨[8, 6], 1, 1, 2, 14, []⟩ := by
    rw [hconc] at hrun
    exact (Except.ok.inj hrun).symm
  subst hs
  obtain ⟨hrej, x, s2, hx, h2, hs2, -⟩ := hfull rfl
  exact ⟨by decide, hconc, hsum, hrej, x, s2, hx, h2, hs2⟩

/-- C22 fails as stated for `T = double`: on a `ringbuffer<double, 2, true>` the
calls `clear()`, `push_back(1e20)`, `push_back(1.0)`, `push_back_force(1.0)` are
one `clear()` followed by pushes only.  The second push leaves `sum()` at 1e20
(1e20 + 1 rounds to 1e20), the forced push evicts 1e20 and gives
`sum()` = (1e20 - 1e20) + 1 = 1, while the buffer holds 1, 1, whose sum is 2, in
exact arithmetic and in `double` arithmetic alike. -/
theorem ringbuffer_sum_rounds_for_double :
    round_to_binary64 (10 ^ 20) = 10 ^ 20 ∧
    1 ≤ (TemplateArgs.mk 2 false true)._Size ∧
    (TemplateArgs.mk 2 false true).sum_en = true ∧
    ringbuffer.run (TemplateArgs.mk 2 false true)
        (ringbuffer.clear (TemplateArgs.mk 2 false true)
          (ringbuffer.init [⟨0⟩, ⟨0⟩] (⟨0⟩ : binary64)))
        [ringbuffer.Call.push_back ⟨10 ^ 20⟩, ringbuffer.Call.push_back ⟨1⟩]
      = .ok ⟨[⟨10 ^ 20⟩, ⟨1⟩], 0, 0, 2, ⟨10 ^ 20⟩, []⟩ ∧
    ringbuffer.run (TemplateArgs.mk 2 false true)
        (ringbuffer.clear (TemplateArgs.mk 2 false true)
          (ringbuffer.init [⟨0⟩, ⟨0⟩] (⟨0⟩ : binary64)))
        [ringbuffer.Call.push_back ⟨10 ^ 20⟩, ringbuffer.Call.push_back ⟨1⟩,
         ringbuffer.Call.push_back_force ⟨1⟩]
      = .ok ⟨[⟨1⟩, ⟨1⟩], 1, 1, 2, ⟨1⟩, []⟩ ∧
    ringbuffer.live (TemplateArgs.mk 2 false true)
        (⟨[⟨1⟩, ⟨1⟩], 1, 1, 2, ⟨1⟩, []⟩ : ringbuffer binary64)
      = [⟨1⟩, ⟨1⟩] ∧
    ringbuffer.sum (⟨[⟨1⟩, ⟨1⟩], 1, 1, 2, ⟨1⟩, []⟩ : ringbuffer binary64) = ⟨1⟩ ∧
    ([⟨1⟩, ⟨1⟩] : List binary64).sum = ⟨2⟩ ∧
    (([⟨1⟩, ⟨1⟩] : List binary64).map binary64.val).sum = 2 ∧
    ringbuffer.sum (⟨[⟨1⟩, ⟨1⟩], 1, 1, 2, ⟨1⟩, []⟩ : ringbuffer binary64)
      ≠ (ringbuffer.live (TemplateArgs.mk 2 false true)
          (⟨[⟨1⟩, ⟨1⟩], 1, 1, 2, ⟨1⟩, []⟩ : ringbuffer binary64)).sum := by
  decide
